import Mathlib

/-!
Shallow embedding of `backend/utils/validation.py` (Part Management System).

Python values decoded from a JSON request body are modelled by `PyVal`:
JSON supplies exactly null, booleans, numbers (int/float), strings, arrays
and objects, which is the universe the validator receives.  Python floats
are modelled by `Rat` (NaN/infinities are not produced by JSON decoding of
ordinary numbers).  Python `dict`s are modelled by association lists; the
keys of a real Python dict are pairwise distinct, and whenever the code
writes to a dict we model the write with an update-in-place-or-append
operation (`dictSet`) matching CPython's insertion-order semantics.

Character-level helpers (`isPySpace`, `isWordChar`, lowercasing, digit
parsing) model the ASCII behaviour of the corresponding CPython
operations; the repository's validator is only exercised on ASCII data and
every property proved below is insensitive to the extension of these
classes beyond ASCII, because the same class is used on both sides of each
statement.
-/

set_option maxHeartbeats 1000000

/-- A Python/JSON value as received by the validator. -/
inductive PyVal where
  | none : PyVal
  | bool : Bool → PyVal
  | int : Int → PyVal
  | float : Rat → PyVal
  | str : String → PyVal
  | list : List PyVal → PyVal
  | dict : List (PyVal × PyVal) → PyVal
deriving Repr

/-- A string-keyed Python dict (the validator's input and output shape). -/
abbrev PyDict := List (String × PyVal)

/-- Python `data[k]` / `data.get(k)`: first entry with the given key. -/
def lookup (data : PyDict) (k : String) : Option PyVal :=
  match data with
  | [] => Option.none
  | (k', v) :: rest => if k' = k then some v else lookup rest k

/-- Python `k in data`. -/
def hasKey (data : PyDict) (k : String) : Bool :=
  (lookup data k).isSome

/-- Python `d[k] = v`: replace in place when the key exists, else append
(CPython dicts preserve insertion order and keep the slot of an existing
key on assignment). -/
def dictSet (d : PyDict) (k : String) (v : PyVal) : PyDict :=
  match d with
  | [] => [(k, v)]
  | (k', v') :: rest =>
    if k' = k then (k', v) :: rest else (k', v') :: dictSet rest k v

/-- Python `d.update(other)`: assign each entry of `other` in order. -/
def dictUpdate (d other : PyDict) : PyDict :=
  other.foldl (fun acc p => dictSet acc p.1 p.2) d

/-- Whitespace as stripped by CPython `str.strip()` (ASCII part). -/
def isPySpace (c : Char) : Bool :=
  c = ' ' || c = '\t' || c = '\n' || c = '\r' || c = '\x0b' || c = '\x0c'

/-- Strip leading and trailing `isPySpace` characters from a char list. -/
def stripList (l : List Char) : List Char :=
  ((l.dropWhile isPySpace).reverse.dropWhile isPySpace).reverse

/-- Python `s.strip()`. -/
def pyStrip (s : String) : String :=
  String.mk (stripList s.toList)

/-- Python `str.lower()` (ASCII). -/
def strLower (s : String) : String :=
  String.mk (s.toList.map Char.toLower)

/-- Python truthiness of a value (`if value:`). -/
def pyTruthy : PyVal → Bool
  | PyVal.none => false
  | PyVal.bool b => b
  | PyVal.int n => decide (n ≠ 0)
  | PyVal.float q => decide (q ≠ 0)
  | PyVal.str s => decide (s ≠ "")
  | PyVal.list xs => !xs.isEmpty
  | PyVal.dict d => !d.isEmpty

/-- Python `v == ""` (only a string compares equal to a string). -/
def pyIsEmptyStr : PyVal → Bool
  | PyVal.str s => decide (s = "")
  | _ => false

/-- Python `v in [s₁, s₂, …]` where the list holds strings: membership is
decided by `==`, and only a `str` can equal a `str`. -/
def pyInStrList (v : PyVal) (ss : List String) : Bool :=
  match v with
  | PyVal.str s => ss.contains s
  | _ => false

/-- The validator's error value: `ValidationError(message, field)`. -/
structure ValidationError where
  message : String
  field : Option String
deriving Repr, DecidableEq

/-- Outcome of running a piece of the validator: either it raises the
dedicated `ValidationError`, or it escapes with some other exception
(`TypeError`/`AttributeError`), which the code never intends to raise. -/
inductive PyError where
  | validation : ValidationError → PyError
  | typeError : PyError
deriving Repr, DecidableEq

/-- Python `int(str)` on an ASCII decimal literal: optional surrounding
whitespace, an optional sign, then a nonempty digit run; anything else
raises `ValueError` (modelled as `Option.none`). -/
def parseIntString (s : String) : Option Int :=
  match stripList s.toList with
  | [] => Option.none
  | c :: rest =>
    let core : Option (List Char) :=
      if c = '-' || c = '+' then
        (if rest = [] then Option.none else some rest)
      else some (c :: rest)
    match core with
    | Option.none => Option.none
    | some ds =>
      if ds.all Char.isDigit then
        let n : Nat := ds.foldl (fun acc d => 10 * acc + (d.toNat - 48)) 0
        some (if c = '-' then -(n : Int) else (n : Int))
      else Option.none

/-- Python `int(float)`: truncation toward zero. -/
def ratTrunc (q : Rat) : Int :=
  if q < 0 then -(Rat.floor (-q)) else Rat.floor q

/-- Python `int(value)` on a `PyVal`; `Option.none` models the
`TypeError`/`ValueError` that `_parse_positive_int` catches. A Python
`bool` coerces to `0`/`1` because `bool` is an `int` subtype. -/
def pyToInt : PyVal → Option Int
  | PyVal.int n => some n
  | PyVal.bool b => some (if b then 1 else 0)
  | PyVal.float q => some (ratTrunc q)
  | PyVal.str s => parseIntString s
  | _ => Option.none

/-- Whether a value is Python `None` (`value is None`). -/
def isNoneVal : PyVal → Bool
  | PyVal.none => true
  | _ => false

/-- `validate_string_fields`: the fixed list of string-typed keys. -/
def string_fields : List String :=
  ["type", "name", "part_id", "subsystem", "assigned", "status", "notes", "file", "onshape_url"]

/-- `validate_string_fields`: `max_lengths.get(field)`. -/
def max_lengths (field : String) : Option Nat :=
  if field = "type" then some 50
  else if field = "name" then some 200
  else if field = "subsystem" then some 100
  else if field = "assigned" then some 100
  else if field = "status" then some 50
  else if field = "file" then some 200
  else if field = "onshape_url" then some 500
  else if field = "part_id" then some 100
  else Option.none

/-- The body of `validate_string_fields`'s loop over `string_fields`,
with `acc` the `validated_data` accumulator. For each field present in
`data` with a non-`None` value: non-strings raise, a configured maximum is
enforced against the stripped length, and the stripped value is stored. -/
def validateStringFieldsAux (data : PyDict) : List String → PyDict → Except PyError PyDict
  | [], acc => Except.ok acc
  | field :: rest, acc =>
    match lookup data field with
    | Option.none => validateStringFieldsAux data rest acc
    | some value =>
      match value with
      | PyVal.none => validateStringFieldsAux data rest acc
      | PyVal.str s =>
        match max_lengths field with
        | some maxLen =>
          if (pyStrip s).length > maxLen then
            Except.error (PyError.validation
              ⟨field ++ " exceeds maximum length of " ++ toString maxLen ++ " characters",
               some field⟩)
          else validateStringFieldsAux data rest (dictSet acc field (PyVal.str (pyStrip s)))
        | Option.none => validateStringFieldsAux data rest (dictSet acc field (PyVal.str (pyStrip s)))
      | _ => Except.error (PyError.validation ⟨field ++ " must be a string", some field⟩)

/-- `validate_string_fields(data)`. -/
def validate_string_fields (data : PyDict) : Except PyError PyDict :=
  validateStringFieldsAux data string_fields []

/-- `_validate_misc_dict_value`'s loop: keys must be strings, `None`
values are skipped, primitive (str/int/float, and hence bool, an int
subtype) values are kept, anything else raises. -/
def cleanDictEntries : List (PyVal × PyVal) → Except PyError (List (PyVal × PyVal))
  | [] => Except.ok []
  | (k, v) :: rest =>
    match k with
    | PyVal.str _ =>
      match v with
      | PyVal.none => cleanDictEntries rest
      | PyVal.str _ | PyVal.int _ | PyVal.float _ | PyVal.bool _ =>
        match cleanDictEntries rest with
        | Except.error e => Except.error e
        | Except.ok r => Except.ok ((k, v) :: r)
      | _ => Except.error (PyError.validation
          ⟨"misc_info object values must be string or number", some "misc_info"⟩)
    | _ => Except.error (PyError.validation
        ⟨"misc_info object keys must be strings", some "misc_info"⟩)

/-- `_validate_misc_dict_value(raw_dict)`. -/
def _validate_misc_dict_value (raw_dict : PyVal) : Except PyError (List (PyVal × PyVal)) :=
  match raw_dict with
  | PyVal.dict entries => cleanDictEntries entries
  | _ => Except.error (PyError.validation
      ⟨"misc_info object must be a dictionary", some "misc_info"⟩)

/-- `_validate_misc_list_value`'s loop: `None` items are dropped,
primitive items (str/int/float/bool) are kept, dict items are cleaned
recursively, anything else (in particular a nested list) raises. -/
def cleanListItems : List PyVal → Except PyError (List PyVal)
  | [] => Except.ok []
  | item :: rest =>
    match item with
    | PyVal.none => cleanListItems rest
    | PyVal.str _ | PyVal.int _ | PyVal.float _ | PyVal.bool _ =>
      match cleanListItems rest with
      | Except.error e => Except.error e
      | Except.ok r => Except.ok (item :: r)
    | PyVal.dict entries =>
      match cleanDictEntries entries with
      | Except.error e => Except.error e
      | Except.ok d =>
        match cleanListItems rest with
        | Except.error e => Except.error e
        | Except.ok r => Except.ok (PyVal.dict d :: r)
    | _ => Except.error (PyError.validation
        ⟨"misc_info list items must be string, number, or object", some "misc_info"⟩)

/-- `_validate_misc_list_value(raw_list)`. -/
def _validate_misc_list_value (raw_list : PyVal) : Except PyError (List PyVal) :=
  match raw_list with
  | PyVal.list items => cleanListItems items
  | _ => Except.error (PyError.validation ⟨"misc_info list must be an array", some "misc_info"⟩)

/-- `_clean_misc_value(value)`: `Except.ok Option.none` models the Python
`None` return that makes the caller skip the entry. In the JSON-decoded
value universe the function's final catch-all raise is unreachable (every
constructor is one of None/str/number/list/dict). -/
def _clean_misc_value (value : PyVal) : Except PyError (Option PyVal) :=
  match value with
  | PyVal.none => Except.ok Option.none
  | PyVal.str _ | PyVal.int _ | PyVal.float _ | PyVal.bool _ => Except.ok (some value)
  | PyVal.list _ =>
    match _validate_misc_list_value value with
    | Except.error e => Except.error e
    | Except.ok l => Except.ok (some (PyVal.list l))
  | PyVal.dict _ =>
    match _validate_misc_dict_value value with
    | Except.error e => Except.error e
    | Except.ok d => Except.ok (some (PyVal.dict d))

/-- `validate_misc_info`'s loop over `raw_misc.items()`. -/
def cleanMiscEntries : List (PyVal × PyVal) → Except PyError (List (PyVal × PyVal))
  | [] => Except.ok []
  | (k, v) :: rest =>
    match k with
    | PyVal.str _ =>
      match _clean_misc_value v with
      | Except.error e => Except.error e
      | Except.ok cv =>
        match cleanMiscEntries rest with
        | Except.error e => Except.error e
        | Except.ok r =>
          match cv with
          | Option.none => Except.ok r
          | some w => Except.ok ((k, w) :: r)
    | _ => Except.error (PyError.validation ⟨"misc_info keys must be strings", some "misc_info"⟩)

/-- `validate_misc_info(data)`'s raw value:
`raw_misc = data.get("misc_info", data.get("miscInfo"))` — the
`misc_info` value when that key is present (even if `None`), else the
`miscInfo` value, else `None`. The `validate_misc_info` wrapper below
accepts either key name, maps a raw `None` to `None`, requires an object
otherwise, cleans each entry, and collapses an empty cleaned object to
`None`. -/
def miscInfoRaw (data : PyDict) : PyVal :=
  match lookup data "misc_info" with
  | some v => v
  | Option.none => (lookup data "miscInfo").getD PyVal.none

/-- `validate_misc_info`'s branching on the raw value. -/
def validate_misc_info (data : PyDict) : Except PyError PyDict :=
  if !hasKey data "misc_info" && !hasKey data "miscInfo" then Except.ok []
  else
    match miscInfoRaw data with
    | PyVal.none => Except.ok [("misc_info", PyVal.none)]
    | PyVal.dict entries =>
      match cleanMiscEntries entries with
      | Except.error e => Except.error e
      | Except.ok cleaned =>
        Except.ok [("misc_info", if cleaned.isEmpty then PyVal.none else PyVal.dict cleaned)]
    | _ => Except.error (PyError.validation ⟨"misc_info must be an object", some "misc_info"⟩)

/-- Python `isinstance(value, bool)`. -/
def isBoolVal : PyVal → Bool
  | PyVal.bool _ => true
  | _ => false

/-- `_parse_positive_int(value, field, default_value)`: `None`/`""` yield
the default, a `bool` is rejected (`isinstance(value, bool)`) before the
`int(value)` coercion would accept it, unparseable values are rejected,
and the parsed integer must be positive. -/
def _parse_positive_int (value : PyVal) (field : String) (default_value : Int) :
    Except PyError Int :=
  if isNoneVal value || pyIsEmptyStr value then Except.ok default_value
  else if isBoolVal value then
    Except.error (PyError.validation ⟨field ++ " must be a number", some field⟩)
  else
    match pyToInt value with
    | Option.none => Except.error (PyError.validation ⟨field ++ " must be a number", some field⟩)
    | some parsed =>
      if parsed ≤ 0 then
        Except.error (PyError.validation ⟨field ++ " must be greater than 0", some field⟩)
      else Except.ok parsed

/-- `validate_numeric_fields(data)`: the numeric fields table is
`{"amount": 1}`. -/
def validate_numeric_fields (data : PyDict) : Except PyError PyDict :=
  match lookup data "amount" with
  | Option.none => Except.ok []
  | some v =>
    match _parse_positive_int v "amount" 1 with
    | Except.error e => Except.error e
    | Except.ok n => Except.ok [("amount", PyVal.int n)]

/-- `validate_part_type(validated_data)`: only runs when `type` is in the
already-validated data; a truthy value must lower-case into
`{cnc, hand}` and is stored lower-cased, a falsy value is stored as
`None`. A truthy non-string would hit `.lower()` and raise
`AttributeError` (modelled as `typeError`); the pipeline never feeds one. -/
def validate_part_type (vd : PyDict) : Except PyError PyDict :=
  match lookup vd "type" with
  | Option.none => Except.ok vd
  | some part_type =>
    if pyTruthy part_type then
      match part_type with
      | PyVal.str s =>
        if ["cnc", "hand"].contains (strLower s) then
          Except.ok (dictSet vd "type" (PyVal.str (strLower s)))
        else
          Except.error (PyError.validation ⟨"type must be \x27cnc\x27 or \x27hand\x27", some "type"⟩)
      | _ => Except.error PyError.typeError
    else Except.ok (dictSet vd "type" PyVal.none)

/-- `validate_category`: the fixed category enum. -/
def valid_categories : List String := ["review", "cnc", "hand", "completed"]

/-- `validate_category(data, validated_data)`: reads the raw value; a
truthy value must be a member of `valid_categories`; the raw value is
stored unchanged. -/
def validate_category (data vd : PyDict) : Except PyError PyDict :=
  match lookup data "category" with
  | Option.none => Except.ok vd
  | some category =>
    if pyTruthy category && !pyInStrList category valid_categories then
      Except.error (PyError.validation
        ⟨"category must be one of: " ++ String.intercalate ", " valid_categories, some "category"⟩)
    else Except.ok (dictSet vd "category" category)

/-- `validate_status`: the fixed status enum. -/
def valid_statuses : List String :=
  ["Pending", "Reviewed", "Approved", "In Progress", "Already Started", "Completed", "Cancelled"]

/-- `validate_status(data, validated_data)`: reads the raw value; a truthy
value must be a member of `valid_statuses`; the raw value is stored
unchanged. -/
def validate_status (data vd : PyDict) : Except PyError PyDict :=
  match lookup data "status" with
  | Option.none => Except.ok vd
  | some status =>
    if pyTruthy status && !pyInStrList status valid_statuses then
      Except.error (PyError.validation
        ⟨"status must be one of: " ++ String.intercalate ", " valid_statuses, some "status"⟩)
    else Except.ok (dictSet vd "status" status)

/-- Character-class regular expressions; recognition (not capture) is all
`_is_valid_url` needs, so greediness is irrelevant and a
Brzozowski-derivative matcher decides the Python `re` pattern. -/
inductive Regex where
  | emp : Regex
  | eps : Regex
  | cls : (Char → Bool) → Regex
  | cat : Regex → Regex → Regex
  | alt : Regex → Regex → Regex
  | star : Regex → Regex

/-- Whether a regex accepts the empty string. -/
def Regex.nullable : Regex → Bool
  | Regex.emp => false
  | Regex.eps => true
  | Regex.cls _ => false
  | Regex.cat r₁ r₂ => r₁.nullable && r₂.nullable
  | Regex.alt r₁ r₂ => r₁.nullable || r₂.nullable
  | Regex.star _ => true

/-- Simplifying concatenation (keeps derivatives small). -/
def Regex.scat : Regex → Regex → Regex
  | Regex.emp, _ => Regex.emp
  | Regex.eps, r => r
  | r₁, r₂ =>
    match r₂ with
    | Regex.emp => Regex.emp
    | Regex.eps => r₁
    | _ => Regex.cat r₁ r₂

/-- Simplifying alternation. -/
def Regex.salt : Regex → Regex → Regex
  | Regex.emp, r => r
  | r₁, r₂ =>
    match r₂ with
    | Regex.emp => r₁
    | _ => Regex.alt r₁ r₂

/-- Brzozowski derivative. -/
def Regex.deriv (c : Char) : Regex → Regex
  | Regex.emp => Regex.emp
  | Regex.eps => Regex.emp
  | Regex.cls p => if p c then Regex.eps else Regex.emp
  | Regex.cat r₁ r₂ =>
    if r₁.nullable then Regex.salt (Regex.scat (Regex.deriv c r₁) r₂) (Regex.deriv c r₂)
    else Regex.scat (Regex.deriv c r₁) r₂
  | Regex.alt r₁ r₂ => Regex.salt (Regex.deriv c r₁) (Regex.deriv c r₂)
  | Regex.star r => Regex.scat (Regex.deriv c r) (Regex.star r)

/-- Whole-list acceptance. -/
def Regex.matchList (r : Regex) (l : List Char) : Bool :=
  (l.foldl (fun r c => r.deriv c) r).nullable

/-- A case-insensitive literal character (the pattern is compiled with
`re.IGNORECASE`). -/
def ciLit (c : Char) : Regex := Regex.cls (fun ch => ch.toLower = c.toLower)

/-- A case-insensitive literal string. -/
def strCI (s : String) : Regex := s.toList.foldr (fun c r => Regex.cat (ciLit c) r) Regex.eps

/-- `r?`. -/
def ropt (r : Regex) : Regex := Regex.alt Regex.eps r

/-- `r{0,n}`. -/
def repAtMost : Nat → Regex → Regex
  | 0, _ => Regex.eps
  | n + 1, r => ropt (Regex.cat r (repAtMost n r))

/-- `r{n}`. -/
def repExact : Nat → Regex → Regex
  | 0, _ => Regex.eps
  | n + 1, r => Regex.cat r (repExact n r)

/-- `r{m,n}`. -/
def repRange (m n : Nat) (r : Regex) : Regex := Regex.cat (repExact m r) (repAtMost (n - m) r)

/-- `r+`. -/
def rplus (r : Regex) : Regex := Regex.cat r (Regex.star r)

/-- `[A-Z0-9]` under `re.IGNORECASE` (ASCII). -/
def clsAlnum : Regex := Regex.cls (fun c => c.isAlpha || c.isDigit)

/-- `[A-Z0-9-]` under `re.IGNORECASE` (ASCII). -/
def clsAlnumHyphen : Regex := Regex.cls (fun c => c.isAlpha || c.isDigit || c = '-')

/-- `[A-Z]` under `re.IGNORECASE` (ASCII). -/
def clsAlpha : Regex := Regex.cls Char.isAlpha

/-- `\d` (ASCII). -/
def clsDigit : Regex := Regex.cls Char.isDigit

/-- `\S` (ASCII complement of `\s`). -/
def clsNonSpace : Regex := Regex.cls (fun c => !isPySpace c)

/-- `[/?]`. -/
def clsSlashQm : Regex := Regex.cls (fun c => c = '/' || c = '?')

/-- An exact literal character. -/
def litChar (c : Char) : Regex := Regex.cls (fun ch => ch = c)

/-- One domain label: `[A-Z0-9](?:[A-Z0-9-]{0,61}[A-Z0-9])?`. -/
def domainLabel : Regex :=
  Regex.cat clsAlnum (ropt (Regex.cat (repAtMost 61 clsAlnumHyphen) clsAlnum))

/-- `\d{1,3}\.\d{1,3}\.\d{1,3}\.\d{1,3}`. -/
def dottedQuad : Regex :=
  Regex.cat (repRange 1 3 clsDigit) (Regex.cat (litChar '.')
    (Regex.cat (repRange 1 3 clsDigit) (Regex.cat (litChar '.')
      (Regex.cat (repRange 1 3 clsDigit) (Regex.cat (litChar '.') (repRange 1 3 clsDigit))))))

/-- The host alternation of `_is_valid_url`'s pattern: domain with TLD,
`localhost`, or a dotted-quad IP. -/
def hostRegex : Regex :=
  Regex.alt
    (Regex.cat (rplus (Regex.cat domainLabel (litChar '.')))
      (Regex.cat (repRange 2 6 clsAlpha) (ropt (litChar '.'))))
    (Regex.alt (strCI "localhost") dottedQuad)

/-- The full `url_pattern` of `_is_valid_url`:
`^https?://host(?::\d+)?(?:/?|[/?]\S+)$` with `re.IGNORECASE`. -/
def url_pattern : Regex :=
  Regex.cat (strCI "http") (Regex.cat (ropt (ciLit 's')) (Regex.cat (strCI "://")
    (Regex.cat hostRegex
      (Regex.cat (ropt (Regex.cat (litChar ':') (rplus clsDigit)))
        (Regex.alt (ropt (litChar '/')) (Regex.cat clsSlashQm (rplus clsNonSpace)))))))

/-- `_is_valid_url(url)`: `re.match` with a `$`-terminated pattern accepts
the whole string, or the whole string minus one trailing newline (Python's
`$` also matches just before a final newline). -/
def _is_valid_url (url : String) : Bool :=
  Regex.matchList url_pattern url.toList ||
    (match url.toList.getLast? with
     | some c => c = '\n' && Regex.matchList url_pattern url.toList.dropLast
     | Option.none => false)

/-- `validate_onshape_url(validated_data)`: checked only when present and
truthy; a truthy non-string would reach the regex and raise `TypeError`
(modelled as `typeError`); the pipeline never feeds one. -/
def validate_onshape_url (vd : PyDict) : Except PyError Unit :=
  match lookup vd "onshape_url" with
  | Option.none => Except.ok ()
  | some url =>
    if pyTruthy url then
      match url with
      | PyVal.str s =>
        if _is_valid_url s then Except.ok ()
        else Except.error (PyError.validation ⟨"onshape_url must be a valid URL", some "onshape_url"⟩)
      | _ => Except.error PyError.typeError
    else Except.ok ()

/-- `validate_part_data(data)`: the full pipeline in source order —
string fields, numeric fields, misc_info (each merged into the fresh
`validated_data` accumulator), then type normalization, category, status,
and URL format; the first raise wins. -/
def validate_part_data (data : PyDict) : Except PyError PyDict :=
  match validate_string_fields data with
  | Except.error e => Except.error e
  | Except.ok s =>
    match validate_numeric_fields data with
    | Except.error e => Except.error e
    | Except.ok n =>
      match validate_misc_info data with
      | Except.error e => Except.error e
      | Except.ok m =>
        let vd0 := dictUpdate (dictUpdate (dictUpdate [] s) n) m
        match validate_part_type vd0 with
        | Except.error e => Except.error e
        | Except.ok vd1 =>
          match validate_category data vd1 with
          | Except.error e => Except.error e
          | Except.ok vd2 =>
            match validate_status data vd2 with
            | Except.error e => Except.error e
            | Except.ok vd3 =>
              match validate_onshape_url vd3 with
              | Except.error e => Except.error e
              | Except.ok _ => Except.ok vd3

/-- `validate_category_transition`: the transition table
(`completed` is reversible). -/
def valid_transitions (c : String) : Option (List String) :=
  if c = "review" then some ["cnc", "hand", "completed"]
  else if c = "cnc" then some ["completed"]
  else if c = "hand" then some ["completed"]
  else if c = "completed" then some ["cnc", "hand"]
  else Option.none

/-- `validate_category_transition(current_category, new_category,
part_type)`: unknown source fails, a target outside the source's allowed
set fails, and a truthy `part_type` must equal a `cnc`/`hand` target
(`part_type and …` skips the check for `None` and for the empty string). -/
def validate_category_transition (current_category new_category : String)
    (part_type : Option String) : Except PyError Bool :=
  match valid_transitions current_category with
  | Option.none =>
    Except.error (PyError.validation
      ⟨"Invalid current category: " ++ current_category, Option.none⟩)
  | some allowed =>
    if new_category ∉ allowed then
      Except.error (PyError.validation
        ⟨"Cannot transition from " ++ current_category ++ " to " ++ new_category, Option.none⟩)
    else
      match part_type with
      | some pt =>
        if (new_category = "cnc" ∨ new_category = "hand") ∧ pt ≠ "" then
          if new_category ≠ pt then
            Except.error (PyError.validation
              ⟨"Part type " ++ pt ++ " cannot be moved to " ++ new_category ++ " category",
               Option.none⟩)
          else Except.ok true
        else Except.ok true
      | Option.none => Except.ok true

/-- `\w` of the sanitizer's pattern (ASCII): letters, digits, underscore. -/
def isWordChar (c : Char) : Bool :=
  c.isAlpha || c.isDigit || c = '_'

/-- The character class kept by `re.sub(r"[^\w\s\-\.]", "", query)`. -/
def sanitizeKeep (c : Char) : Bool :=
  isWordChar c || isPySpace c || c = '-' || c = '.'

/-- `sanitize_search_query(query)`: empty input short-circuits; otherwise
strip disallowed characters, trim, and truncate to 100 characters. -/
def sanitize_search_query (query : String) : String :=
  if query = "" then ""
  else
    let sanitized := String.mk (query.toList.filter sanitizeKeep)
    let sanitized := pyStrip sanitized
    if sanitized.length > 100 then String.mk (sanitized.toList.take 100) else sanitized

/-! ### Basic facts about the dict model -/

/-- The keys of an association-list dict. -/
def keysOf (d : PyDict) : List String := d.map Prod.fst

theorem lookup_dictSet_self (d : PyDict) (k : String) (v : PyVal) :
    lookup (dictSet d k v) k = some v := by
  induction d with
  | nil => simp [dictSet, lookup]
  | cons p rest ih =>
    obtain ⟨k', v'⟩ := p
    by_cases h : k' = k <;> simp [dictSet, lookup, h, ih]

theorem lookup_dictSet_ne (d : PyDict) (k k' : String) (v : PyVal) (h : k' ≠ k) :
    lookup (dictSet d k v) k' = lookup d k' := by
  have hkk : ¬k = k' := fun h' => h h'.symm
  induction d with
  | nil => simp [dictSet, lookup, hkk]
  | cons p rest ih =>
    obtain ⟨k₀, v₀⟩ := p
    by_cases h₀ : k₀ = k
    · subst h₀
      simp [dictSet, lookup, hkk]
    · simp [dictSet, lookup, h₀, ih]

theorem dictSet_append_fresh (d₁ d₂ : PyDict) (k : String) (v : PyVal)
    (h : hasKey d₁ k = false) : dictSet (d₁ ++ d₂) k v = d₁ ++ dictSet d₂ k v := by
  induction d₁ with
  | nil => simp
  | cons p rest ih =>
    obtain ⟨k₀, v₀⟩ := p
    simp only [hasKey, lookup] at h
    by_cases h₀ : k₀ = k
    · simp [h₀] at h
    · simp only [hasKey] at ih
      simp [dictSet, h₀, ih (by simpa [h₀] using h)]

theorem dictSet_fresh (d : PyDict) (k : String) (v : PyVal) (h : hasKey d k = false) :
    dictSet d k v = d ++ [(k, v)] := by
  simpa using dictSet_append_fresh d [] k v h

theorem dictSet_append_left (d₁ d₂ : PyDict) (k : String) (v : PyVal)
    (h : hasKey d₁ k = true) : dictSet (d₁ ++ d₂) k v = dictSet d₁ k v ++ d₂ := by
  induction d₁ with
  | nil => simp [hasKey, lookup] at h
  | cons p rest ih =>
    obtain ⟨k₀, v₀⟩ := p
    by_cases h₀ : k₀ = k
    · simp [dictSet, h₀]
    · simp only [hasKey, lookup, h₀, if_false] at h
      simp [dictSet, h₀, ih h]

theorem dictSet_eq_self (d : PyDict) (k : String) (v : PyVal) (h : lookup d k = some v) :
    dictSet d k v = d := by
  induction d with
  | nil => simp [lookup] at h
  | cons p rest ih =>
    obtain ⟨k₀, v₀⟩ := p
    by_cases h₀ : k₀ = k
    · simp only [lookup, h₀, if_true, Option.some.injEq] at h
      simp [dictSet, h₀, h]
    · simp only [lookup, h₀, if_false] at h
      simp [dictSet, h₀, ih h]

theorem lookup_append_left (d₁ d₂ : PyDict) (k : String) (v : PyVal)
    (h : lookup d₁ k = some v) : lookup (d₁ ++ d₂) k = some v := by
  induction d₁ with
  | nil => simp [lookup] at h
  | cons p rest ih =>
    obtain ⟨k₀, v₀⟩ := p
    by_cases h₀ : k₀ = k
    · simp_all [lookup]
    · simp only [lookup, h₀, if_false] at h
      simp [lookup, h₀, ih h]

theorem lookup_append_right (d₁ d₂ : PyDict) (k : String)
    (h : hasKey d₁ k = false) : lookup (d₁ ++ d₂) k = lookup d₂ k := by
  induction d₁ with
  | nil => simp
  | cons p rest ih =>
    obtain ⟨k₀, v₀⟩ := p
    simp only [hasKey, lookup] at h
    by_cases h₀ : k₀ = k
    · simp [h₀] at h
    · simp only [hasKey] at ih
      simp [lookup, h₀, ih (by simpa [h₀] using h)]

theorem hasKey_append (d₁ d₂ : PyDict) (k : String) :
    hasKey (d₁ ++ d₂) k = (hasKey d₁ k || hasKey d₂ k) := by
  by_cases h : hasKey d₁ k
  · obtain ⟨v, hv⟩ := Option.isSome_iff_exists.mp h
    rw [h]
    simp only [Bool.true_or, hasKey]
    rw [lookup_append_left d₁ d₂ k v hv]
    rfl
  · simp only [Bool.not_eq_true] at h
    rw [h]
    simp only [Bool.false_or, hasKey]
    rw [lookup_append_right d₁ d₂ k h]

theorem lookup_mem (d : PyDict) (k : String) (v : PyVal) (h : lookup d k = some v) :
    (k, v) ∈ d := by
  induction d with
  | nil => simp [lookup] at h
  | cons p rest ih =>
    obtain ⟨k₀, v₀⟩ := p
    by_cases h₀ : k₀ = k
    · subst h₀
      rw [lookup, if_pos rfl] at h
      injection h with h₂
      subst h₂
      simp
    · simp only [lookup, h₀, if_false] at h
      simp [ih h]

theorem hasKey_dictSet (d : PyDict) (k k' : String) (v : PyVal) :
    hasKey (dictSet d k v) k' = (k' = k || hasKey d k') := by
  by_cases h : k' = k
  · subst h
    simp [hasKey, lookup_dictSet_self]
  · simp [hasKey, lookup_dictSet_ne _ _ _ _ h, h]

theorem lookup_eq_none_of_not_hasKey (d : PyDict) (k : String) (h : hasKey d k = false) :
    lookup d k = Option.none := by
  simpa [hasKey, Option.isSome_iff_exists] using h

theorem dictUpdate_nil_right (d : PyDict) : dictUpdate d [] = d := rfl

theorem dictUpdate_single (d : PyDict) (k : String) (v : PyVal) :
    dictUpdate d [(k, v)] = dictSet d k v := rfl

theorem dictUpdate_fresh (d other : PyDict) (hfresh : ∀ p ∈ other, hasKey d p.1 = false)
    (hnd : (keysOf other).Nodup) : dictUpdate d other = d ++ other := by
  induction other generalizing d with
  | nil => simp [dictUpdate]
  | cons p rest ih =>
    obtain ⟨k, v⟩ := p
    have h₁ : hasKey d k = false := hfresh (k, v) (by simp)
    have step : dictUpdate d ((k, v) :: rest) = dictUpdate (d ++ [(k, v)]) rest := by
      simp [dictUpdate, dictSet_fresh d k v h₁]
    have hnd' : (keysOf rest).Nodup := by
      simp only [keysOf, List.map_cons, List.nodup_cons] at hnd
      exact hnd.2
    rw [step, ih (d ++ [(k, v)])]
    · simp
    · intro q hq
      have hk : ¬k = q.1 := by
        simp only [keysOf, List.map_cons, List.nodup_cons] at hnd
        intro h
        exact hnd.1 (h ▸ List.mem_map_of_mem Prod.fst hq)
      rw [hasKey_append]
      have h₂ : hasKey [(k, v)] q.1 = false := by
        simp [hasKey, lookup, hk]
      rw [hfresh q (by simp [hq]), h₂]
      rfl
    · exact hnd'

/-! ### Stripping is idempotent -/

theorem stripList_eq_rdropWhile (l : List Char) :
    stripList l = List.rdropWhile isPySpace (l.dropWhile isPySpace) := rfl

theorem stripList_idem (l : List Char) : stripList (stripList l) = stripList l := by
  have key : (stripList l).dropWhile isPySpace = stripList l := by
    rw [List.dropWhile_eq_self_iff]
    intro hl hp
    have hpre : stripList l <+: List.dropWhile isPySpace l := by
      rw [stripList_eq_rdropWhile]
      exact List.rdropWhile_prefix _ _
    have hm : 0 < (List.dropWhile isPySpace l).length :=
      lt_of_lt_of_le hl hpre.length_le
    have hget := hpre.getElem hl
    apply List.dropWhile_get_zero_not isPySpace l hm
    have h0 : (List.dropWhile isPySpace l).get ⟨0, hm⟩ = (stripList l).get ⟨0, hl⟩ := by
      simp only [List.get_eq_getElem]
      exact hget.symm
    rw [h0]
    exact hp
  rw [stripList_eq_rdropWhile (stripList l), key, stripList_eq_rdropWhile l,
    List.rdropWhile_idempotent]

theorem toList_mk (l : List Char) : (String.mk l).toList = l := rfl

theorem pyStrip_idem (s : String) : pyStrip (pyStrip s) = pyStrip s := by
  unfold pyStrip
  rw [toList_mk, stripList_idem]

/-! ### Characterizing `validate_string_fields` -/

/-- Conformance of one string field's raw value: absent or `None` is fine,
a string must respect the configured maximum on its stripped length,
anything else offends. -/
def conformVal (field : String) : Option PyVal → Bool
  | Option.none => true
  | some PyVal.none => true
  | some (PyVal.str s) =>
    (match max_lengths field with
     | some m => decide ((pyStrip s).length ≤ m)
     | Option.none => true)
  | some _ => false

/-- All string fields of an input conform. -/
def stringFieldsConform (data : PyDict) : Bool :=
  string_fields.all (fun f => conformVal f (lookup data f))

/-- The entry `validate_string_fields` stores for one field. -/
def canonEntry (data : PyDict) (field : String) : Option (String × PyVal) :=
  match lookup data field with
  | some (PyVal.str s) => some (field, PyVal.str (pyStrip s))
  | _ => Option.none

/-- The full output of a successful `validate_string_fields`. -/
def canonStrings (data : PyDict) : PyDict :=
  string_fields.filterMap (canonEntry data)

theorem canonEntry_key (data : PyDict) (f : String) (e : String × PyVal)
    (h : canonEntry data f = some e) :
    e.1 = f ∧ ∃ s, lookup data f = some (PyVal.str s) ∧ e.2 = PyVal.str (pyStrip s) := by
  unfold canonEntry at h
  cases hv : lookup data f with
  | none => rw [hv] at h; cases h
  | some v =>
    cases v with
    | str s =>
      rw [hv] at h
      cases h
      exact ⟨rfl, s, rfl, rfl⟩
    | none => rw [hv] at h; cases h
    | bool b => rw [hv] at h; cases h
    | int n => rw [hv] at h; cases h
    | float q => rw [hv] at h; cases h
    | list xs => rw [hv] at h; cases h
    | dict d => rw [hv] at h; cases h

/-! ### filterMap utilities for canonical outputs -/

theorem filterMapCongr {α β : Type} (fs : List α) (g₁ g₂ : α → Option β)
    (h : ∀ f ∈ fs, g₁ f = g₂ f) : fs.filterMap g₁ = fs.filterMap g₂ := by
  induction fs with
  | nil => rfl
  | cons f rest ih =>
    rw [List.filterMap_cons, List.filterMap_cons, h f (by simp),
      ih (fun f hf => h f (by simp [hf]))]

theorem keysOf_filterMap_sublist (fs : List String) (g : String → Option (String × PyVal))
    (hg : ∀ f e, g f = some e → e.1 = f) :
    (keysOf (fs.filterMap g)).Sublist fs := by
  induction fs with
  | nil => simp [keysOf]
  | cons f rest ih =>
    rw [List.filterMap_cons]
    cases he : g f with
    | none => exact ih.cons f
    | some e =>
      have : e.1 = f := hg f e he
      simpa [keysOf, this] using ih.cons₂ f

theorem lookup_filterMap_of_not_mem (fs : List String) (g : String → Option (String × PyVal))
    (hg : ∀ f e, g f = some e → e.1 = f) (f : String) (hf : f ∉ fs) :
    lookup (fs.filterMap g) f = Option.none := by
  induction fs with
  | nil => rfl
  | cons f₀ rest ih =>
    have hne : f₀ ≠ f := by intro h; exact hf (h ▸ by simp)
    have hfr : f ∉ rest := by intro h; exact hf (by simp [h])
    cases he : g f₀ with
    | none =>
      rw [List.filterMap_cons_none he]
      exact ih hfr
    | some e =>
      have hk : e.1 = f₀ := hg f₀ e he
      obtain ⟨a, b⟩ := e
      have hk2 : a = f₀ := hk
      rw [List.filterMap_cons_some he]
      simp only [lookup, if_neg (hk2 ▸ hne)]
      exact ih hfr

theorem lookup_filterMap_of_mem (fs : List String) (g : String → Option (String × PyVal))
    (hg : ∀ f e, g f = some e → e.1 = f) (hnd : fs.Nodup) (f : String) (hf : f ∈ fs) :
    lookup (fs.filterMap g) f = (g f).map Prod.snd := by
  induction fs with
  | nil => cases hf
  | cons f₀ rest ih =>
    have hnd' : rest.Nodup := (List.nodup_cons.mp hnd).2
    have hf₀r : f₀ ∉ rest := (List.nodup_cons.mp hnd).1
    by_cases h : f₀ = f
    · subst h
      cases he : g f₀ with
      | none =>
        rw [List.filterMap_cons_none he, Option.map_none']
        exact lookup_filterMap_of_not_mem rest g hg f₀ hf₀r
      | some e =>
        have hk : e.1 = f₀ := hg f₀ e he
        obtain ⟨a, b⟩ := e
        have hk2 : a = f₀ := hk
        rw [List.filterMap_cons_some he]
        simp only [lookup, if_pos hk2, Option.map_some']
    · have hfr : f ∈ rest := by
        cases List.mem_cons.mp hf with
        | inl h' => exact absurd h'.symm h
        | inr h' => exact h'
      cases he : g f₀ with
      | none =>
        rw [List.filterMap_cons_none he]
        exact ih hnd' hfr
      | some e =>
        have hk : e.1 = f₀ := hg f₀ e he
        obtain ⟨a, b⟩ := e
        have hk2 : a = f₀ := hk
        rw [List.filterMap_cons_some he]
        have hne : ¬a = f := fun h' => h ((hk2.symm.trans h') ▸ rfl)
        simp only [lookup, if_neg hne]
        exact ih hnd' hfr

theorem dictSet_filterMap (fs : List String) (g : String → Option (String × PyVal))
    (hg : ∀ f e, g f = some e → e.1 = f) (hnd : fs.Nodup) (k : String) (hk : k ∈ fs)
    (hsome : (g k).isSome = true) (v : PyVal) :
    dictSet (fs.filterMap g) k v =
      fs.filterMap (fun f => if f = k then some (k, v) else g f) := by
  induction fs with
  | nil => cases hk
  | cons f rest ih =>
    have hnd' : rest.Nodup := (List.nodup_cons.mp hnd).2
    have hfr : f ∉ rest := (List.nodup_cons.mp hnd).1
    by_cases h : f = k
    · obtain ⟨e, he⟩ := Option.isSome_iff_exists.mp hsome
      have hgf : g f = some e := h ▸ he
      have hkk : e.1 = k := by rw [← h]; exact hg f e hgf
      obtain ⟨a, b⟩ := e
      have hk2 : a = k := hkk
      rw [List.filterMap_cons_some hgf]
      have hrhs : List.filterMap (fun f' => if f' = k then some (k, v) else g f') (f :: rest) =
          (k, v) :: List.filterMap (fun f' => if f' = k then some (k, v) else g f') rest := by
        rw [List.filterMap_cons]
        simp [h]
      rw [hrhs]
      have hcongr : rest.filterMap (fun f' => if f' = k then some (k, v) else g f') =
          rest.filterMap g :=
        filterMapCongr rest _ g (fun f' hf' => by
          have hne : f' ≠ k := fun h' => hfr ((h'.trans h.symm) ▸ hf')
          simp [hne])
      rw [hcongr]
      simp [dictSet, hk2]
    · have hkr : k ∈ rest := by
        cases List.mem_cons.mp hk with
        | inl h' => exact absurd h'.symm h
        | inr h' => exact h'
      have hstep : rest.filterMap (fun f' => if f' = k then some (k, v) else g f') =
          dictSet (rest.filterMap g) k v := (ih hnd' hkr).symm
      cases he : g f with
      | none =>
        rw [List.filterMap_cons_none he]
        have hrhs : List.filterMap (fun f' => if f' = k then some (k, v) else g f') (f :: rest) =
            List.filterMap (fun f' => if f' = k then some (k, v) else g f') rest := by
          rw [List.filterMap_cons]
          simp [h, he]
        rw [hrhs, hstep]
      | some e =>
        have hkk : e.1 = f := hg f e he
        obtain ⟨a, b⟩ := e
        have hk2 : a = f := hkk
        rw [List.filterMap_cons_some he]
        have hrhs : List.filterMap (fun f' => if f' = k then some (k, v) else g f') (f :: rest) =
            (a, b) :: List.filterMap (fun f' => if f' = k then some (k, v) else g f') rest := by
          rw [List.filterMap_cons]
          simp [h, he]
        rw [hrhs, hstep]
        have hne : ¬a = k := fun h' => h (hk2 ▸ h')
        simp only [dictSet, if_neg hne]

theorem filterMap_point_erase (fs : List String) (g : String → Option (String × PyVal))
    (hg : ∀ f e, g f = some e → e.1 = f) (k : String) :
    fs.filterMap (fun f => if f = k then Option.none else g f) =
      (fs.filterMap g).filter (fun e => e.1 != k) := by
  induction fs with
  | nil => rfl
  | cons f rest ih =>
    by_cases h : f = k
    · have hlhs : List.filterMap (fun f' => if f' = k then Option.none else g f') (f :: rest) =
          List.filterMap (fun f' => if f' = k then Option.none else g f') rest := by
        rw [List.filterMap_cons]
        simp [h]
      rw [hlhs]
      cases he : g f with
      | none =>
        rw [List.filterMap_cons_none he]
        exact ih
      | some e =>
        have hkk : e.1 = f := hg f e he
        obtain ⟨a, b⟩ := e
        have hk2 : a = f := hkk
        rw [List.filterMap_cons_some he, List.filter_cons]
        have hbne : ((a, b).1 != k) = false := by
          simp [hk2, h]
        rw [hbne]
        simp only [Bool.false_eq_true, if_false]
        exact ih
    · cases he : g f with
      | none =>
        have hlhs : List.filterMap (fun f' => if f' = k then Option.none else g f') (f :: rest) =
            List.filterMap (fun f' => if f' = k then Option.none else g f') rest := by
          rw [List.filterMap_cons]
          simp [h, he]
        rw [hlhs, List.filterMap_cons_none he]
        exact ih
      | some e =>
        have hkk : e.1 = f := hg f e he
        obtain ⟨a, b⟩ := e
        have hk2 : a = f := hkk
        have hlhs : List.filterMap (fun f' => if f' = k then Option.none else g f') (f :: rest) =
            (a, b) :: List.filterMap (fun f' => if f' = k then Option.none else g f') rest := by
          rw [List.filterMap_cons]
          simp [h, he]
        rw [hlhs]
        rw [List.filterMap_cons_some he, List.filter_cons]
        have hbne : ((a, b).1 != k) = true := by
          simp only [bne_iff_ne, ne_eq]
          exact fun h' => h (hk2 ▸ h')
        rw [hbne]
        simp only [if_true]
        rw [ih]

/-! ### Success and failure of `validate_string_fields` -/

theorem validateStringFieldsAux_ok_iff (data : PyDict) :
    ∀ (fs : List String) (acc : PyDict), fs.Nodup → (∀ f ∈ fs, hasKey acc f = false) →
      ∀ out, (validateStringFieldsAux data fs acc = Except.ok out ↔
        ((∀ f ∈ fs, conformVal f (lookup data f) = true) ∧
          out = acc ++ fs.filterMap (canonEntry data))) := by
  intro fs
  induction fs with
  | nil =>
    intro acc _ _ out
    simp only [validateStringFieldsAux, List.filterMap_nil, List.append_nil]
    constructor
    · intro h
      refine ⟨fun f hf => absurd hf (List.not_mem_nil f), (Except.ok.inj h).symm⟩
    · intro h
      rw [h.2]
  | cons f rest ih =>
    intro acc hnd hacc out
    have hndr : rest.Nodup := (List.nodup_cons.mp hnd).2
    have hfr : f ∉ rest := (List.nodup_cons.mp hnd).1
    have haccr : ∀ g ∈ rest, hasKey acc g = false := fun g hg => hacc g (by simp [hg])
    cases hv : lookup data f with
    | none =>
      have hstep : validateStringFieldsAux data (f :: rest) acc =
          validateStringFieldsAux data rest acc := by
        simp only [validateStringFieldsAux, hv]
      have hcanon : canonEntry data f = Option.none := by
        simp only [canonEntry, hv]
      rw [hstep, ih acc hndr haccr out, List.filterMap_cons_none hcanon,
        List.forall_mem_cons]
      have hchead : conformVal f (lookup data f) = true := by rw [hv]; rfl
      rw [hv] at hchead ⊢
      simp [hchead]
    | some v =>
      cases v with
      | none =>
        have hstep : validateStringFieldsAux data (f :: rest) acc =
            validateStringFieldsAux data rest acc := by
          simp only [validateStringFieldsAux, hv]
        have hcanon : canonEntry data f = Option.none := by
          simp only [canonEntry, hv]
        rw [hstep, ih acc hndr haccr out, List.filterMap_cons_none hcanon,
          List.forall_mem_cons, hv]
        simp [conformVal]
      | str s =>
        have hcanon : canonEntry data f = some (f, PyVal.str (pyStrip s)) := by
          simp only [canonEntry, hv]
        have hacc' : ∀ g ∈ rest, hasKey (acc ++ [(f, PyVal.str (pyStrip s))]) g = false := by
          intro g hg
          rw [hasKey_append, haccr g hg]
          have hne : ¬f = g := fun h => hfr (h ▸ hg)
          simp [hasKey, lookup, hne]
        have hset : dictSet acc f (PyVal.str (pyStrip s)) =
            acc ++ [(f, PyVal.str (pyStrip s))] :=
          dictSet_fresh acc f _ (hacc f (by simp))
        cases hm : max_lengths f with
        | none =>
          have hstep : validateStringFieldsAux data (f :: rest) acc =
              validateStringFieldsAux data rest (acc ++ [(f, PyVal.str (pyStrip s))]) := by
            simp only [validateStringFieldsAux, hv, hm, hset]
          have hchead : conformVal f (lookup data f) = true := by
            rw [hv]
            simp [conformVal, hm]
          rw [hstep, ih _ hndr hacc' out, List.filterMap_cons_some hcanon,
            List.forall_mem_cons, hchead]
          simp
        | some m =>
          by_cases hlen : (pyStrip s).length > m
          · have hstep : validateStringFieldsAux data (f :: rest) acc =
                Except.error (PyError.validation
                  ⟨f ++ " exceeds maximum length of " ++ toString m ++ " characters",
                   some f⟩) := by
              simp only [validateStringFieldsAux, hv, hm]
              rw [if_pos hlen]
            have hchead : conformVal f (lookup data f) = false := by
              rw [hv]
              simp [conformVal, hm]
              omega
            rw [hstep, List.forall_mem_cons, hchead]
            simp
          · have hstep : validateStringFieldsAux data (f :: rest) acc =
                validateStringFieldsAux data rest (acc ++ [(f, PyVal.str (pyStrip s))]) := by
              simp only [validateStringFieldsAux, hv, hm, hset]
              rw [if_neg hlen]
            have hchead : conformVal f (lookup data f) = true := by
              rw [hv]
              simp [conformVal, hm]
              omega
            rw [hstep, ih _ hndr hacc' out, List.filterMap_cons_some hcanon,
              List.forall_mem_cons, hchead]
            simp
      | bool b =>
        have hstep : validateStringFieldsAux data (f :: rest) acc =
            Except.error (PyError.validation ⟨f ++ " must be a string", some f⟩) := by
          simp only [validateStringFieldsAux, hv]
        have hchead : conformVal f (lookup data f) = false := by rw [hv]; rfl
        rw [hstep, List.forall_mem_cons, hchead]
        simp
      | int n =>
        have hstep : validateStringFieldsAux data (f :: rest) acc =
            Except.error (PyError.validation ⟨f ++ " must be a string", some f⟩) := by
          simp only [validateStringFieldsAux, hv]
        have hchead : conformVal f (lookup data f) = false := by rw [hv]; rfl
        rw [hstep, List.forall_mem_cons, hchead]
        simp
      | float q =>
        have hstep : validateStringFieldsAux data (f :: rest) acc =
            Except.error (PyError.validation ⟨f ++ " must be a string", some f⟩) := by
          simp only [validateStringFieldsAux, hv]
        have hchead : conformVal f (lookup data f) = false := by rw [hv]; rfl
        rw [hstep, List.forall_mem_cons, hchead]
        simp
      | list xs =>
        have hstep : validateStringFieldsAux data (f :: rest) acc =
            Except.error (PyError.validation ⟨f ++ " must be a string", some f⟩) := by
          simp only [validateStringFieldsAux, hv]
        have hchead : conformVal f (lookup data f) = false := by rw [hv]; rfl
        rw [hstep, List.forall_mem_cons, hchead]
        simp
      | dict d =>
        have hstep : validateStringFieldsAux data (f :: rest) acc =
            Except.error (PyError.validation ⟨f ++ " must be a string", some f⟩) := by
          simp only [validateStringFieldsAux, hv]
        have hchead : conformVal f (lookup data f) = false := by rw [hv]; rfl
        rw [hstep, List.forall_mem_cons, hchead]
        simp

theorem validateStringFieldsAux_err (data : PyDict) :
    ∀ (pre : List String) (f : String) (post : List String) (acc : PyDict) (v : PyVal),
      (∀ g ∈ pre, conformVal g (lookup data g) = true) →
      lookup data f = some v → v ≠ PyVal.none → conformVal f (some v) = false →
      ∃ msg, validateStringFieldsAux data (pre ++ f :: post) acc =
        Except.error (PyError.validation ⟨msg, some f⟩) := by
  intro pre
  induction pre with
  | nil =>
    intro f post acc v hpre hv hnn hbad
    cases v with
    | none => exact absurd rfl hnn
    | str s =>
      cases hm : max_lengths f with
      | none =>
        exfalso
        simp [conformVal, hm] at hbad
      | some m =>
        by_cases hlen : (pyStrip s).length > m
        · refine ⟨f ++ " exceeds maximum length of " ++ toString m ++ " characters", ?_⟩
          simp only [List.nil_append, validateStringFieldsAux, hv, hm]
          rw [if_pos hlen]
        · exfalso
          simp [conformVal, hm] at hbad
          omega
    | bool b =>
      refine ⟨f ++ " must be a string", ?_⟩
      simp only [List.nil_append, validateStringFieldsAux, hv]
    | int n =>
      refine ⟨f ++ " must be a string", ?_⟩
      simp only [List.nil_append, validateStringFieldsAux, hv]
    | float q =>
      refine ⟨f ++ " must be a string", ?_⟩
      simp only [List.nil_append, validateStringFieldsAux, hv]
    | list xs =>
      refine ⟨f ++ " must be a string", ?_⟩
      simp only [List.nil_append, validateStringFieldsAux, hv]
    | dict d =>
      refine ⟨f ++ " must be a string", ?_⟩
      simp only [List.nil_append, validateStringFieldsAux, hv]
  | cons g pre' ih =>
    intro f post acc v hpre hv hnn hbad
    have hg : conformVal g (lookup data g) = true := hpre g (by simp)
    have hpre' : ∀ g' ∈ pre', conformVal g' (lookup data g') = true :=
      fun g' hg' => hpre g' (by simp [hg'])
    cases hgv : lookup data g with
    | none =>
      have hstep : validateStringFieldsAux data ((g :: pre') ++ f :: post) acc =
          validateStringFieldsAux data (pre' ++ f :: post) acc := by
        simp only [List.cons_append, validateStringFieldsAux, hgv]
        rfl
      rw [hstep]
      exact ih f post acc v hpre' hv hnn hbad
    | some w =>
      rw [hgv] at hg
      cases w with
      | none =>
        have hstep : validateStringFieldsAux data ((g :: pre') ++ f :: post) acc =
            validateStringFieldsAux data (pre' ++ f :: post) acc := by
          simp only [List.cons_append, validateStringFieldsAux, hgv]
          rfl
        rw [hstep]
        exact ih f post acc v hpre' hv hnn hbad
      | str s =>
        cases hm : max_lengths g with
        | none =>
          have hstep : validateStringFieldsAux data ((g :: pre') ++ f :: post) acc =
              validateStringFieldsAux data (pre' ++ f :: post)
                (dictSet acc g (PyVal.str (pyStrip s))) := by
            simp only [List.cons_append, validateStringFieldsAux, hgv, hm]
            rfl
          rw [hstep]
          exact ih f post _ v hpre' hv hnn hbad
        | some m =>
          have hlen : ¬(pyStrip s).length > m := by
            simp [conformVal, hm] at hg
            omega
          have hstep : validateStringFieldsAux data ((g :: pre') ++ f :: post) acc =
              validateStringFieldsAux data (pre' ++ f :: post)
                (dictSet acc g (PyVal.str (pyStrip s))) := by
            simp only [List.cons_append, validateStringFieldsAux, hgv, hm]
            rw [if_neg hlen]
            rfl
          rw [hstep]
          exact ih f post _ v hpre' hv hnn hbad
      | bool b => simp [conformVal] at hg
      | int n => simp [conformVal] at hg
      | float q => simp [conformVal] at hg
      | list xs => simp [conformVal] at hg
      | dict d => simp [conformVal] at hg

theorem string_fields_nodup : string_fields.Nodup := by
  decide

theorem validate_string_fields_ok_iff (data : PyDict) (out : PyDict) :
    validate_string_fields data = Except.ok out ↔
      (stringFieldsConform data = true ∧ out = canonStrings data) := by
  have h := validateStringFieldsAux_ok_iff data string_fields [] string_fields_nodup
    (fun f _ => rfl) out
  rw [validate_string_fields, h]
  unfold stringFieldsConform canonStrings
  rw [List.all_eq_true]
  simp

theorem canonEntry_keyPreserving (data : PyDict) :
    ∀ f e, canonEntry data f = some e → e.1 = f :=
  fun f e h => (canonEntry_key data f e h).1

theorem canonStrings_values_str (data : PyDict) (k : String) (v : PyVal)
    (h : lookup (canonStrings data) k = some v) : ∃ s, v = PyVal.str s := by
  have hmem := lookup_mem _ _ _ h
  unfold canonStrings at hmem
  obtain ⟨f, _, hf⟩ := List.mem_filterMap.mp hmem
  obtain ⟨_, s, _, hs⟩ := canonEntry_key data f (k, v) hf
  exact ⟨pyStrip s, hs⟩

theorem canonStrings_nodupKeys (data : PyDict) : (keysOf (canonStrings data)).Nodup :=
  (keysOf_filterMap_sublist string_fields (canonEntry data)
    (canonEntry_keyPreserving data)).nodup string_fields_nodup

theorem hasKey_canonStrings (data : PyDict) (k : String) (h : hasKey (canonStrings data) k) :
    k ∈ string_fields ∧ hasKey data k = true := by
  obtain ⟨v, hv⟩ := Option.isSome_iff_exists.mp h
  have hmem := lookup_mem _ _ _ hv
  unfold canonStrings at hmem
  obtain ⟨f, hfs, hf⟩ := List.mem_filterMap.mp hmem
  obtain ⟨hk, s, hs, _⟩ := canonEntry_key data f (k, v) hf
  simp only at hk
  subst hk
  exact ⟨hfs, by simp [hasKey, hs]⟩

theorem lookup_canonStrings (data : PyDict) (f : String) (hf : f ∈ string_fields) :
    lookup (canonStrings data) f = (canonEntry data f).map Prod.snd :=
  lookup_filterMap_of_mem string_fields (canonEntry data) (canonEntry_keyPreserving data)
    string_fields_nodup f hf

theorem lookup_canonStrings_not_field (data : PyDict) (f : String) (hf : f ∉ string_fields) :
    lookup (canonStrings data) f = Option.none :=
  lookup_filterMap_of_not_mem string_fields (canonEntry data) (canonEntry_keyPreserving data)
    f hf

/-! ### Numeric field facts -/

theorem parse_positive_int_pos (v : PyVal) (field : String) (d n : Int)
    (hd : 0 < d) (h : _parse_positive_int v field d = Except.ok n) : 0 < n := by
  unfold _parse_positive_int at h
  by_cases h₁ : (isNoneVal v || pyIsEmptyStr v) = true
  · rw [if_pos h₁] at h
    have := Except.ok.inj h
    omega
  · rw [if_neg h₁] at h
    by_cases h₂ : isBoolVal v = true
    · rw [if_pos h₂] at h
      cases h
    · rw [if_neg h₂] at h
      cases hp : pyToInt v with
      | none =>
        simp only [hp] at h
        cases h
      | some p =>
        simp only [hp] at h
        by_cases hle : p ≤ 0
        · rw [if_pos hle] at h; cases h
        · rw [if_neg hle] at h
          have := Except.ok.inj h
          omega

theorem parse_positive_int_int_ok (n : Int) (field : String) (d : Int) (hn : 0 < n) :
    _parse_positive_int (PyVal.int n) field d = Except.ok n := by
  unfold _parse_positive_int
  rw [if_neg (by simp [isNoneVal, pyIsEmptyStr]), if_neg (by simp [isBoolVal])]
  simp only [show pyToInt (PyVal.int n) = some n from rfl]
  rw [if_neg (by omega)]

theorem validate_numeric_fields_shape (data : PyDict) (out : PyDict)
    (h : validate_numeric_fields data = Except.ok out) :
    out = [] ∨ ∃ n : Int, 0 < n ∧ out = [("amount", PyVal.int n)] ∧
      validate_numeric_fields [("amount", PyVal.int n)] = Except.ok [("amount", PyVal.int n)] := by
  cases hv : lookup data "amount" with
  | none =>
    simp only [validate_numeric_fields, hv] at h
    exact Or.inl (Except.ok.inj h).symm
  | some v =>
    simp only [validate_numeric_fields, hv] at h
    cases hp : _parse_positive_int v "amount" 1 with
    | error e =>
      simp only [hp] at h
      cases h
    | ok n =>
      simp only [hp] at h
      have hpos : 0 < n := parse_positive_int_pos v "amount" 1 n (by omega) hp
      refine Or.inr ⟨n, hpos, (Except.ok.inj h).symm, ?_⟩
      simp only [validate_numeric_fields, show lookup [("amount", PyVal.int n)] "amount" =
        some (PyVal.int n) from rfl, parse_positive_int_int_ok n "amount" 1 hpos]

theorem parse_positive_int_err (v : PyVal) (field : String) (d : Int) (e : PyError)
    (h : _parse_positive_int v field d = Except.error e) :
    ∃ ve, e = PyError.validation ve := by
  unfold _parse_positive_int at h
  by_cases h₁ : (isNoneVal v || pyIsEmptyStr v) = true
  · rw [if_pos h₁] at h; cases h
  · rw [if_neg h₁] at h
    by_cases h₂ : isBoolVal v = true
    · rw [if_pos h₂] at h
      exact ⟨_, (Except.error.inj h).symm⟩
    · rw [if_neg h₂] at h
      cases hp : pyToInt v with
      | none =>
        simp only [hp] at h
        exact ⟨_, (Except.error.inj h).symm⟩
      | some p =>
        simp only [hp] at h
        by_cases hle : p ≤ 0
        · rw [if_pos hle] at h
          exact ⟨_, (Except.error.inj h).symm⟩
        · rw [if_neg hle] at h
          cases h

theorem validate_numeric_fields_err (data : PyDict) (e : PyError)
    (h : validate_numeric_fields data = Except.error e) :
    ∃ ve, e = PyError.validation ve := by
  cases hv : lookup data "amount" with
  | none =>
    simp only [validate_numeric_fields, hv] at h
    cases h
  | some v =>
    simp only [validate_numeric_fields, hv] at h
    cases hp : _parse_positive_int v "amount" 1 with
    | ok n =>
      simp only [hp] at h
      cases h
    | error e' =>
      simp only [hp] at h
      exact (Except.error.inj h) ▸ parse_positive_int_err v "amount" 1 e' hp

/-! ### misc_info facts -/

theorem cleanDictEntries_err (d : List (PyVal × PyVal)) (e : PyError)
    (h : cleanDictEntries d = Except.error e) :
    ∃ msg, e = PyError.validation ⟨msg, some "misc_info"⟩ := by
  induction d generalizing e with
  | nil => cases h
  | cons p rest ih =>
    obtain ⟨k, v⟩ := p
    cases k with
    | str ks =>
      cases v with
      | none =>
        simp only [cleanDictEntries] at h
        exact ih e h
      | str vs =>
        simp only [cleanDictEntries] at h
        cases hr : cleanDictEntries rest with
        | error e' =>
          rw [hr] at h
          exact (Except.error.inj h) ▸ ih e' hr
        | ok r => rw [hr] at h; cases h
      | int n =>
        simp only [cleanDictEntries] at h
        cases hr : cleanDictEntries rest with
        | error e' =>
          rw [hr] at h
          exact (Except.error.inj h) ▸ ih e' hr
        | ok r => rw [hr] at h; cases h
      | float q =>
        simp only [cleanDictEntries] at h
        cases hr : cleanDictEntries rest with
        | error e' =>
          rw [hr] at h
          exact (Except.error.inj h) ▸ ih e' hr
        | ok r => rw [hr] at h; cases h
      | bool b =>
        simp only [cleanDictEntries] at h
        cases hr : cleanDictEntries rest with
        | error e' =>
          rw [hr] at h
          exact (Except.error.inj h) ▸ ih e' hr
        | ok r => rw [hr] at h; cases h
      | list xs =>
        simp only [cleanDictEntries] at h
        exact ⟨_, (Except.error.inj h).symm⟩
      | dict dd =>
        simp only [cleanDictEntries] at h
        exact ⟨_, (Except.error.inj h).symm⟩
    | none =>
      simp only [cleanDictEntries] at h
      exact ⟨_, (Except.error.inj h).symm⟩
    | bool b =>
      simp only [cleanDictEntries] at h
      exact ⟨_, (Except.error.inj h).symm⟩
    | int n =>
      simp only [cleanDictEntries] at h
      exact ⟨_, (Except.error.inj h).symm⟩
    | float q =>
      simp only [cleanDictEntries] at h
      exact ⟨_, (Except.error.inj h).symm⟩
    | list xs =>
      simp only [cleanDictEntries] at h
      exact ⟨_, (Except.error.inj h).symm⟩
    | dict dd =>
      simp only [cleanDictEntries] at h
      exact ⟨_, (Except.error.inj h).symm⟩

theorem cleanListItems_err (xs : List PyVal) (e : PyError)
    (h : cleanListItems xs = Except.error e) :
    ∃ msg, e = PyError.validation ⟨msg, some "misc_info"⟩ := by
  induction xs generalizing e with
  | nil => cases h
  | cons item rest ih =>
    simp only [cleanListItems] at h
    split at h
    · exact ih e h
    · split at h
      · next hr => exact (Except.error.inj h) ▸ ih _ hr
      · cases h
    · split at h
      · next hr => exact (Except.error.inj h) ▸ ih _ hr
      · cases h
    · split at h
      · next hr => exact (Except.error.inj h) ▸ ih _ hr
      · cases h
    · split at h
      · next hr => exact (Except.error.inj h) ▸ ih _ hr
      · cases h
    · split at h
      · next hd => exact (Except.error.inj h) ▸ cleanDictEntries_err _ _ hd
      · split at h
        · next hr => exact (Except.error.inj h) ▸ ih _ hr
        · cases h
    · exact ⟨_, (Except.error.inj h).symm⟩

theorem clean_misc_value_err (v : PyVal) (e : PyError)
    (h : _clean_misc_value v = Except.error e) :
    ∃ msg, e = PyError.validation ⟨msg, some "misc_info"⟩ := by
  unfold _clean_misc_value at h
  split at h
  · cases h
  · cases h
  · cases h
  · cases h
  · cases h
  · next xs =>
    rw [show _validate_misc_list_value (PyVal.list xs) = cleanListItems xs from rfl] at h
    split at h
    · next hitems => exact (Except.error.inj h) ▸ cleanListItems_err _ _ hitems
    · cases h
  · next dd =>
    rw [show _validate_misc_dict_value (PyVal.dict dd) = cleanDictEntries dd from rfl] at h
    split at h
    · next hentries => exact (Except.error.inj h) ▸ cleanDictEntries_err _ _ hentries
    · cases h

theorem cleanMiscEntries_err (es : List (PyVal × PyVal)) (e : PyError)
    (h : cleanMiscEntries es = Except.error e) :
    ∃ msg, e = PyError.validation ⟨msg, some "misc_info"⟩ := by
  induction es generalizing e with
  | nil => cases h
  | cons p rest ih =>
    obtain ⟨k, v⟩ := p
    simp only [cleanMiscEntries] at h
    split at h
    · split at h
      · next hcv => exact (Except.error.inj h) ▸ clean_misc_value_err _ _ hcv
      · split at h
        · next hr => exact (Except.error.inj h) ▸ ih _ hr
        · split at h
          · cases h
          · cases h
    · exact ⟨_, (Except.error.inj h).symm⟩

theorem validate_misc_info_err (data : PyDict) (e : PyError)
    (h : validate_misc_info data = Except.error e) :
    ∃ msg, e = PyError.validation ⟨msg, some "misc_info"⟩ := by
  unfold validate_misc_info at h
  by_cases hk : (!hasKey data "misc_info" && !hasKey data "miscInfo") = true
  · rw [if_pos hk] at h
    cases h
  · rw [if_neg hk] at h
    cases hraw : miscInfoRaw data with
    | none =>
      simp only [hraw] at h
      cases h
    | dict entries =>
      simp only [hraw] at h
      cases hcl : cleanMiscEntries entries with
      | error e' =>
        simp only [hcl] at h
        exact (Except.error.inj h) ▸ cleanMiscEntries_err _ _ hcl
      | ok c =>
        simp only [hcl] at h
        cases h
    | bool b =>
      simp only [hraw] at h
      exact ⟨_, (Except.error.inj h).symm⟩
    | int n =>
      simp only [hraw] at h
      exact ⟨_, (Except.error.inj h).symm⟩
    | float q =>
      simp only [hraw] at h
      exact ⟨_, (Except.error.inj h).symm⟩
    | str st =>
      simp only [hraw] at h
      exact ⟨_, (Except.error.inj h).symm⟩
    | list xs =>
      simp only [hraw] at h
      exact ⟨_, (Except.error.inj h).symm⟩

theorem cleanDictEntries_stable (d c : List (PyVal × PyVal))
    (h : cleanDictEntries d = Except.ok c) : cleanDictEntries c = Except.ok c := by
  induction d generalizing c with
  | nil =>
    have hc := Except.ok.inj h
    subst hc
    rfl
  | cons p rest ih =>
    obtain ⟨k, v⟩ := p
    simp only [cleanDictEntries] at h
    split at h
    · split at h
      · exact ih c h
      · cases hr : cleanDictEntries rest with
        | error e => simp only [hr] at h; cases h
        | ok r =>
          simp only [hr] at h
          have hc := Except.ok.inj h
          subst hc
          simp only [cleanDictEntries, ih r hr]
      · cases hr : cleanDictEntries rest with
        | error e => simp only [hr] at h; cases h
        | ok r =>
          simp only [hr] at h
          have hc := Except.ok.inj h
          subst hc
          simp only [cleanDictEntries, ih r hr]
      · cases hr : cleanDictEntries rest with
        | error e => simp only [hr] at h; cases h
        | ok r =>
          simp only [hr] at h
          have hc := Except.ok.inj h
          subst hc
          simp only [cleanDictEntries, ih r hr]
      · cases hr : cleanDictEntries rest with
        | error e => simp only [hr] at h; cases h
        | ok r =>
          simp only [hr] at h
          have hc := Except.ok.inj h
          subst hc
          simp only [cleanDictEntries, ih r hr]
      · cases h
    · cases h

theorem cleanListItems_stable (xs c : List PyVal)
    (h : cleanListItems xs = Except.ok c) : cleanListItems c = Except.ok c := by
  induction xs generalizing c with
  | nil =>
    have hc := Except.ok.inj h
    subst hc
    rfl
  | cons item rest ih =>
    simp only [cleanListItems] at h
    split at h
    · exact ih c h
    · cases hr : cleanListItems rest with
      | error e => simp only [hr] at h; cases h
      | ok r =>
        simp only [hr] at h
        have hc := Except.ok.inj h
        subst hc
        simp only [cleanListItems, ih r hr]
    · cases hr : cleanListItems rest with
      | error e => simp only [hr] at h; cases h
      | ok r =>
        simp only [hr] at h
        have hc := Except.ok.inj h
        subst hc
        simp only [cleanListItems, ih r hr]
    · cases hr : cleanListItems rest with
      | error e => simp only [hr] at h; cases h
      | ok r =>
        simp only [hr] at h
        have hc := Except.ok.inj h
        subst hc
        simp only [cleanListItems, ih r hr]
    · cases hr : cleanListItems rest with
      | error e => simp only [hr] at h; cases h
      | ok r =>
        simp only [hr] at h
        have hc := Except.ok.inj h
        subst hc
        simp only [cleanListItems, ih r hr]
    · next entries =>
      cases hd : cleanDictEntries entries with
      | error e => simp only [hd] at h; cases h
      | ok dcl =>
        simp only [hd] at h
        cases hr : cleanListItems rest with
        | error e => simp only [hr] at h; cases h
        | ok r =>
          simp only [hr] at h
          have hc := Except.ok.inj h
          subst hc
          simp only [cleanListItems, show cleanDictEntries dcl = Except.ok dcl from
            cleanDictEntries_stable entries dcl hd, ih r hr]
    · cases h

theorem clean_misc_value_stable (v w : PyVal)
    (h : _clean_misc_value v = Except.ok (some w)) :
    _clean_misc_value w = Except.ok (some w) := by
  unfold _clean_misc_value at h
  split at h
  · cases (Except.ok.inj h)
  · have hw := Option.some.inj (Except.ok.inj h)
    subst hw
    rfl
  · have hw := Option.some.inj (Except.ok.inj h)
    subst hw
    rfl
  · have hw := Option.some.inj (Except.ok.inj h)
    subst hw
    rfl
  · have hw := Option.some.inj (Except.ok.inj h)
    subst hw
    rfl
  · next xs =>
    rw [show _validate_misc_list_value (PyVal.list xs) = cleanListItems xs from rfl] at h
    cases hl : cleanListItems xs with
    | error e => simp only [hl] at h; cases h
    | ok l =>
      simp only [hl] at h
      have hw := Option.some.inj (Except.ok.inj h)
      subst hw
      unfold _clean_misc_value
      rw [show _validate_misc_list_value (PyVal.list l) = cleanListItems l from rfl]
      simp only [cleanListItems_stable xs l hl]
  · next dd =>
    rw [show _validate_misc_dict_value (PyVal.dict dd) = cleanDictEntries dd from rfl] at h
    cases hd : cleanDictEntries dd with
    | error e => simp only [hd] at h; cases h
    | ok dcl =>
      simp only [hd] at h
      have hw := Option.some.inj (Except.ok.inj h)
      subst hw
      unfold _clean_misc_value
      rw [show _validate_misc_dict_value (PyVal.dict dcl) = cleanDictEntries dcl from rfl]
      simp only [cleanDictEntries_stable dd dcl hd]

theorem cleanMiscEntries_stable (es c : List (PyVal × PyVal))
    (h : cleanMiscEntries es = Except.ok c) : cleanMiscEntries c = Except.ok c := by
  induction es generalizing c with
  | nil =>
    have hc := Except.ok.inj h
    subst hc
    rfl
  | cons p rest ih =>
    obtain ⟨k, v⟩ := p
    simp only [cleanMiscEntries] at h
    split at h
    · cases hcv : _clean_misc_value v with
      | error e => simp only [hcv] at h; cases h
      | ok cv =>
        simp only [hcv] at h
        cases hr : cleanMiscEntries rest with
        | error e => simp only [hr] at h; cases h
        | ok r =>
          simp only [hr] at h
          cases cv with
          | none =>
            simp only at h
            have hc := Except.ok.inj h
            subst hc
            exact ih _ hr
          | some w =>
            simp only at h
            have hc := Except.ok.inj h
            subst hc
            simp only [cleanMiscEntries, clean_misc_value_stable v w hcv, ih r hr]
    · cases h

theorem validate_misc_info_shape (data : PyDict) (out : PyDict)
    (h : validate_misc_info data = Except.ok out) :
    out = [] ∨ out = [("misc_info", PyVal.none)] ∨
      ∃ c, c ≠ [] ∧ cleanMiscEntries c = Except.ok c ∧
        out = [("misc_info", PyVal.dict c)] := by
  unfold validate_misc_info at h
  by_cases hk : (!hasKey data "misc_info" && !hasKey data "miscInfo") = true
  · rw [if_pos hk] at h
    exact Or.inl (Except.ok.inj h).symm
  · rw [if_neg hk] at h
    cases hraw : miscInfoRaw data with
    | none =>
      simp only [hraw] at h
      exact Or.inr (Or.inl (Except.ok.inj h).symm)
    | dict entries =>
      simp only [hraw] at h
      cases hcl : cleanMiscEntries entries with
      | error e => simp only [hcl] at h; cases h
      | ok c =>
        simp only [hcl] at h
        by_cases hc : c.isEmpty = true
        · rw [if_pos hc] at h
          exact Or.inr (Or.inl (Except.ok.inj h).symm)
        · rw [if_neg hc] at h
          refine Or.inr (Or.inr ⟨c, ?_, cleanMiscEntries_stable entries c hcl,
            (Except.ok.inj h).symm⟩)
          intro hnil
          exact hc (by simp [hnil])
    | bool b => simp only [hraw] at h; cases h
    | int n => simp only [hraw] at h; cases h
    | float q => simp only [hraw] at h; cases h
    | str st => simp only [hraw] at h; cases h
    | list xs => simp only [hraw] at h; cases h

theorem validate_misc_info_revalidate (d' : PyDict) (mv : PyVal)
    (hlk : lookup d' "misc_info" = some mv)
    (hmv : mv = PyVal.none ∨ ∃ c, c ≠ [] ∧ cleanMiscEntries c = Except.ok c ∧
      mv = PyVal.dict c) :
    validate_misc_info d' = Except.ok [("misc_info", mv)] := by
  have hk : hasKey d' "misc_info" = true := by simp [hasKey, hlk]
  have hraw : miscInfoRaw d' = mv := by simp only [miscInfoRaw, hlk]
  unfold validate_misc_info
  rw [if_neg (by simp [hk])]
  cases hmv with
  | inl hmv =>
    subst hmv
    simp only [hraw]
  | inr hmv =>
    obtain ⟨c, hc, hstab, hmv⟩ := hmv
    subst hmv
    simp only [hraw, hstab]
    rw [if_neg (by simp [hc])]

/-! ### Type, category, status, URL stage facts -/

theorem validate_part_type_inv (vd vd' : PyDict)
    (h : validate_part_type vd = Except.ok vd') :
    (lookup vd "type" = Option.none ∧ vd' = vd) ∨
    (∃ v, lookup vd "type" = some v ∧ pyTruthy v = false ∧
      vd' = dictSet vd "type" PyVal.none) ∨
    (∃ s, lookup vd "type" = some (PyVal.str s) ∧ pyTruthy (PyVal.str s) = true ∧
      (strLower s = "cnc" ∨ strLower s = "hand") ∧
      vd' = dictSet vd "type" (PyVal.str (strLower s))) := by
  unfold validate_part_type at h
  cases hv : lookup vd "type" with
  | none =>
    simp only [hv] at h
    exact Or.inl ⟨rfl, (Except.ok.inj h).symm⟩
  | some v =>
    simp only [hv] at h
    by_cases ht : pyTruthy v = true
    · rw [if_pos ht] at h
      cases v with
      | str s =>
        have h' : (if ["cnc", "hand"].contains (strLower s) = true then
            Except.ok (dictSet vd "type" (PyVal.str (strLower s)))
          else Except.error (PyError.validation
            ⟨"type must be \x27cnc\x27 or \x27hand\x27", some "type"⟩)) = Except.ok vd' := h
        by_cases hc : ["cnc", "hand"].contains (strLower s) = true
        · rw [if_pos hc] at h'
          refine Or.inr (Or.inr ⟨s, rfl, ht, ?_, (Except.ok.inj h').symm⟩)
          simpa using hc
        · rw [if_neg hc] at h'
          cases h'
      | none => cases h
      | bool b => cases h
      | int n => cases h
      | float q => cases h
      | list xs => cases h
      | dict dd => cases h
    · rw [if_neg ht] at h
      exact Or.inr (Or.inl ⟨v, rfl, by simpa using ht, (Except.ok.inj h).symm⟩)

theorem validate_part_type_err_str (vd : PyDict) (e : PyError)
    (hstr : ∀ v, lookup vd "type" = some v → ∃ s, v = PyVal.str s)
    (h : validate_part_type vd = Except.error e) : ∃ ve, e = PyError.validation ve := by
  unfold validate_part_type at h
  cases hv : lookup vd "type" with
  | none => simp only [hv] at h; cases h
  | some v =>
    simp only [hv] at h
    obtain ⟨s, hs⟩ := hstr v hv
    subst hs
    by_cases ht : pyTruthy (PyVal.str s) = true
    · rw [if_pos ht] at h
      have h' : (if ["cnc", "hand"].contains (strLower s) = true then
          Except.ok (dictSet vd "type" (PyVal.str (strLower s)))
        else Except.error (PyError.validation
          ⟨"type must be \x27cnc\x27 or \x27hand\x27", some "type"⟩)) = Except.error e := h
      by_cases hc : ["cnc", "hand"].contains (strLower s) = true
      · rw [if_pos hc] at h'; cases h'
      · rw [if_neg hc] at h'
        exact ⟨_, (Except.error.inj h').symm⟩
    · rw [if_neg ht] at h; cases h

theorem validate_category_inv (data vd vd' : PyDict)
    (h : validate_category data vd = Except.ok vd') :
    (lookup data "category" = Option.none ∧ vd' = vd) ∨
    (∃ v, lookup data "category" = some v ∧
      (pyTruthy v = false ∨ pyInStrList v valid_categories = true) ∧
      vd' = dictSet vd "category" v) := by
  unfold validate_category at h
  cases hv : lookup data "category" with
  | none =>
    simp only [hv] at h
    exact Or.inl ⟨rfl, (Except.ok.inj h).symm⟩
  | some v =>
    simp only [hv] at h
    by_cases hb : (pyTruthy v && !pyInStrList v valid_categories) = true
    · rw [if_pos hb] at h; cases h
    · rw [if_neg hb] at h
      refine Or.inr ⟨v, rfl, ?_, (Except.ok.inj h).symm⟩
      rcases Bool.and_eq_false_iff.mp (Bool.not_eq_true _ |>.mp hb) with h₁ | h₂
      · exact Or.inl h₁
      · exact Or.inr (by simpa using h₂)

theorem validate_category_app (data vd : PyDict) (v : PyVal)
    (hv : lookup data "category" = some v)
    (hok : pyTruthy v = false ∨ pyInStrList v valid_categories = true) :
    validate_category data vd = Except.ok (dictSet vd "category" v) := by
  unfold validate_category
  rw [hv]
  simp only
  rw [if_neg ?_]
  cases hok with
  | inl h => simp [h]
  | inr h => simp [h]

theorem validate_category_err (data vd : PyDict) (e : PyError)
    (h : validate_category data vd = Except.error e) : ∃ ve, e = PyError.validation ve := by
  unfold validate_category at h
  cases hv : lookup data "category" with
  | none => simp only [hv] at h; cases h
  | some v =>
    simp only [hv] at h
    by_cases hb : (pyTruthy v && !pyInStrList v valid_categories) = true
    · rw [if_pos hb] at h
      exact ⟨_, (Except.error.inj h).symm⟩
    · rw [if_neg hb] at h; cases h

theorem validate_status_inv (data vd vd' : PyDict)
    (h : validate_status data vd = Except.ok vd') :
    (lookup data "status" = Option.none ∧ vd' = vd) ∨
    (∃ v, lookup data "status" = some v ∧
      (pyTruthy v = false ∨ pyInStrList v valid_statuses = true) ∧
      vd' = dictSet vd "status" v) := by
  unfold validate_status at h
  cases hv : lookup data "status" with
  | none =>
    simp only [hv] at h
    exact Or.inl ⟨rfl, (Except.ok.inj h).symm⟩
  | some v =>
    simp only [hv] at h
    by_cases hb : (pyTruthy v && !pyInStrList v valid_statuses) = true
    · rw [if_pos hb] at h; cases h
    · rw [if_neg hb] at h
      refine Or.inr ⟨v, rfl, ?_, (Except.ok.inj h).symm⟩
      rcases Bool.and_eq_false_iff.mp (Bool.not_eq_true _ |>.mp hb) with h₁ | h₂
      · exact Or.inl h₁
      · exact Or.inr (by simpa using h₂)

theorem validate_status_app (data vd : PyDict) (v : PyVal)
    (hv : lookup data "status" = some v)
    (hok : pyTruthy v = false ∨ pyInStrList v valid_statuses = true) :
    validate_status data vd = Except.ok (dictSet vd "status" v) := by
  unfold validate_status
  rw [hv]
  simp only
  rw [if_neg ?_]
  cases hok with
  | inl h => simp [h]
  | inr h => simp [h]

theorem validate_status_err (data vd : PyDict) (e : PyError)
    (h : validate_status data vd = Except.error e) : ∃ ve, e = PyError.validation ve := by
  unfold validate_status at h
  cases hv : lookup data "status" with
  | none => simp only [hv] at h; cases h
  | some v =>
    simp only [hv] at h
    by_cases hb : (pyTruthy v && !pyInStrList v valid_statuses) = true
    · rw [if_pos hb] at h
      exact ⟨_, (Except.error.inj h).symm⟩
    · rw [if_neg hb] at h; cases h

theorem validate_onshape_url_congr (vd vd' : PyDict)
    (h : lookup vd "onshape_url" = lookup vd' "onshape_url") :
    validate_onshape_url vd = validate_onshape_url vd' := by
  unfold validate_onshape_url
  rw [h]

theorem validate_onshape_url_err_str (vd : PyDict) (e : PyError)
    (hstr : ∀ v, lookup vd "onshape_url" = some v → ∃ s, v = PyVal.str s)
    (h : validate_onshape_url vd = Except.error e) : ∃ ve, e = PyError.validation ve := by
  unfold validate_onshape_url at h
  cases hv : lookup vd "onshape_url" with
  | none => simp only [hv] at h; cases h
  | some v =>
    simp only [hv] at h
    obtain ⟨s, hs⟩ := hstr v hv
    subst hs
    by_cases ht : pyTruthy (PyVal.str s) = true
    · rw [if_pos ht] at h
      have h' : (if _is_valid_url s = true then Except.ok ()
        else Except.error (PyError.validation
          ⟨"onshape_url must be a valid URL", some "onshape_url"⟩)) = Except.error e := h
      by_cases hu : _is_valid_url s = true
      · rw [if_pos hu] at h'; cases h'
      · rw [if_neg hu] at h'
        exact ⟨_, (Except.error.inj h').symm⟩
    · rw [if_neg ht] at h; cases h

/-! ### Pipeline inversion and construction -/

theorem validate_part_data_inv (data out : PyDict)
    (h : validate_part_data data = Except.ok out) :
    ∃ S N M vd1 vd2,
      validate_string_fields data = Except.ok S ∧
      validate_numeric_fields data = Except.ok N ∧
      validate_misc_info data = Except.ok M ∧
      validate_part_type (dictUpdate (dictUpdate (dictUpdate [] S) N) M) = Except.ok vd1 ∧
      validate_category data vd1 = Except.ok vd2 ∧
      validate_status data vd2 = Except.ok out ∧
      validate_onshape_url out = Except.ok () := by
  unfold validate_part_data at h
  cases hS : validate_string_fields data with
  | error e => rw [hS] at h; cases h
  | ok S =>
    rw [hS] at h
    cases hN : validate_numeric_fields data with
    | error e => rw [hN] at h; cases h
    | ok N =>
      rw [hN] at h
      cases hM : validate_misc_info data with
      | error e => rw [hM] at h; cases h
      | ok M =>
        rw [hM] at h
        cases hT : validate_part_type (dictUpdate (dictUpdate (dictUpdate [] S) N) M) with
        | error e => simp only [hT] at h; cases h
        | ok vd1 =>
          simp only [hT] at h
          cases hC : validate_category data vd1 with
          | error e => simp only [hC] at h; cases h
          | ok vd2 =>
            simp only [hC] at h
            cases hSt : validate_status data vd2 with
            | error e => simp only [hSt] at h; cases h
            | ok vd3 =>
              simp only [hSt] at h
              cases hU : validate_onshape_url vd3 with
              | error e => simp only [hU] at h; cases h
              | ok u =>
                simp only [hU] at h
                have hout := Except.ok.inj h
                subst hout
                exact ⟨S, N, M, vd1, vd2, rfl, rfl, rfl, hT, hC, hSt, by rw [hU]⟩

theorem validate_part_data_build (data S N M vd1 vd2 vd3 : PyDict)
    (hS : validate_string_fields data = Except.ok S)
    (hN : validate_numeric_fields data = Except.ok N)
    (hM : validate_misc_info data = Except.ok M)
    (hT : validate_part_type (dictUpdate (dictUpdate (dictUpdate [] S) N) M) = Except.ok vd1)
    (hC : validate_category data vd1 = Except.ok vd2)
    (hSt : validate_status data vd2 = Except.ok vd3)
    (hU : validate_onshape_url vd3 = Except.ok ()) :
    validate_part_data data = Except.ok vd3 := by
  unfold validate_part_data
  rw [hS, hN, hM]
  simp only [hT, hC, hSt, hU]

/-! ### Claim theorems -/

/-- C9: `sanitize_search_query` is a total deterministic function: empty
input yields the empty string, and every input is mapped by removing each
character that is not a word character, whitespace, hyphen, or period,
then trimming surrounding whitespace, then truncating to at most 100
characters; in particular `sanitize_search_query "hello; DROP TABLE
parts!! " = "hello DROP TABLE parts"`, and no result exceeds 100
characters. -/
theorem sanitize_search_query_spec :
    (∀ q : String, sanitize_search_query q =
      String.mk (List.take 100 (stripList (List.filter sanitizeKeep q.toList)))) ∧
    sanitize_search_query "" = "" ∧
    sanitize_search_query "hello; DROP TABLE parts!! " = "hello DROP TABLE parts" ∧
    (∀ q : String, (sanitize_search_query q).length ≤ 100) := by
  have hmain : ∀ q : String, sanitize_search_query q =
      String.mk (List.take 100 (stripList (List.filter sanitizeKeep q.toList))) := by
    intro q
    by_cases hq : q = ""
    · subst hq
      rfl
    · unfold sanitize_search_query
      rw [if_neg hq]
      show (if (pyStrip (String.mk (q.toList.filter sanitizeKeep))).length > 100 then
          String.mk ((pyStrip (String.mk (q.toList.filter sanitizeKeep))).toList.take 100)
        else pyStrip (String.mk (q.toList.filter sanitizeKeep))) = _
      rw [show pyStrip (String.mk (q.toList.filter sanitizeKeep)) =
        String.mk (stripList (q.toList.filter sanitizeKeep)) from rfl]
      by_cases hlen : (String.mk (stripList (q.toList.filter sanitizeKeep))).length > 100
      · rw [if_pos hlen]
        rfl
      · rw [if_neg hlen]
        have hle : (stripList (q.toList.filter sanitizeKeep)).length ≤ 100 := by
          have : (String.mk (stripList (q.toList.filter sanitizeKeep))).length =
              (stripList (q.toList.filter sanitizeKeep)).length := rfl
          omega
        rw [List.take_of_length_le hle]
  refine ⟨hmain, rfl, rfl, ?_⟩
  intro q
  rw [hmain q]
  have h1 : (String.mk (List.take 100 (stripList (List.filter sanitizeKeep q.toList)))).length =
      (List.take 100 (stripList (List.filter sanitizeKeep q.toList))).length := rfl
  rw [h1, List.length_take]
  omega

/-- C1 counterexample: the source guards the type-specific check with
`part_type and …`, so a supplied empty-string `partType` skips the check:
`checkTransition("completed", "cnc", "")` succeeds even though the
supplied partType `""` differs from the target `"cnc"`, contradicting the
claim that a supplied partType must equal a `cnc`/`hand` target. -/
theorem validate_category_transition_counterexample :
    validate_category_transition "completed" "cnc" (some "") = Except.ok true ∧
    ("" : String) ≠ "cnc" := ⟨rfl, by decide⟩

/-- C1 (amended): `validate_category_transition` succeeds exactly on the
directed table review→{cnc,hand,completed}, cnc→{completed},
hand→{completed}, completed→{cnc,hand}: an unknown current category
fails, a next category outside the current category's allowed set fails,
and when next is `cnc` or `hand` and a NON-EMPTY partType is supplied it
fails unless partType equals next (the check is skipped when partType is
absent or the empty string). On success the function returns `true`. In
particular `("completed","cnc","cnc")` succeeds, `("completed","cnc",
"hand")` fails, and `("cnc","hand",None)` fails. -/
theorem validate_category_transition_spec :
    (∀ (cur nxt : String) (pt : Option String),
      ((∃ b, validate_category_transition cur nxt pt = Except.ok b) ↔
        (∃ allowed, valid_transitions cur = some allowed ∧ nxt ∈ allowed ∧
          ∀ s, pt = some s → s ≠ "" → (nxt = "cnc" ∨ nxt = "hand") → nxt = s)) ∧
      (∀ b, validate_category_transition cur nxt pt = Except.ok b → b = true)) ∧
    validate_category_transition "completed" "cnc" (some "cnc") = Except.ok true ∧
    (∃ e, validate_category_transition "completed" "cnc" (some "hand") = Except.error e) ∧
    (∃ e, validate_category_transition "cnc" "hand" Option.none = Except.error e) := by
  refine ⟨?_, rfl, ⟨_, rfl⟩, ⟨_, rfl⟩⟩
  intro cur nxt pt
  constructor
  · cases hvt : valid_transitions cur with
    | none =>
      simp only [validate_category_transition, hvt]
      constructor
      · rintro ⟨b, hb⟩
        cases hb
      · rintro ⟨allowed, hall, -, -⟩
        cases hall
    | some allowed =>
      cases pt with
      | none =>
        simp only [validate_category_transition, hvt]
        by_cases hmem : nxt ∈ allowed
        · rw [if_neg (by simp [hmem])]
          constructor
          · intro _
            exact ⟨allowed, rfl, hmem, fun s hs => nomatch hs⟩
          · intro _
            exact ⟨true, rfl⟩
        · rw [if_pos hmem]
          constructor
          · rintro ⟨b, hb⟩
            cases hb
          · rintro ⟨allowed', hall, hmem', -⟩
            have h2 : allowed = allowed' := Option.some.inj hall
            subst h2
            exact absurd hmem' hmem
      | some p =>
        simp only [validate_category_transition, hvt]
        by_cases hmem : nxt ∈ allowed
        · rw [if_neg (by simp [hmem])]
          by_cases hcond : (nxt = "cnc" ∨ nxt = "hand") ∧ p ≠ ""
          · rw [if_pos hcond]
            by_cases hne : nxt ≠ p
            · rw [if_pos hne]
              constructor
              · rintro ⟨b, hb⟩
                cases hb
              · rintro ⟨allowed', hall, hmem', hcl⟩
                exact absurd (hcl p rfl hcond.2 hcond.1) hne
            · rw [if_neg hne]
              constructor
              · intro _
                refine ⟨allowed, rfl, hmem, ?_⟩
                intro s hs _ _
                cases hs
                exact not_not.mp hne
              · intro _
                exact ⟨true, rfl⟩
          · rw [if_neg hcond]
            constructor
            · intro _
              refine ⟨allowed, rfl, hmem, ?_⟩
              intro s hs hsne hor
              cases hs
              exact absurd ⟨hor, hsne⟩ hcond
            · intro _
              exact ⟨true, rfl⟩
        · rw [if_pos hmem]
          constructor
          · rintro ⟨b, hb⟩
            cases hb
          · rintro ⟨allowed', hall, hmem', -⟩
            have h2 : allowed = allowed' := Option.some.inj hall
            subst h2
            exact absurd hmem' hmem
  · intro b hb
    unfold validate_category_transition at hb
    split at hb
    · cases hb
    · split at hb
      · cases hb
      · split at hb
        · split at hb
          · split at hb
            · cases hb
            · exact (Except.ok.inj hb).symm
          · exact (Except.ok.inj hb).symm
        · exact (Except.ok.inj hb).symm

/-- C1 witness: a legal transition with a matching partType is accepted,
instantiating the success characterization at a concrete input. -/
theorem validate_category_transition_spec_witness :
    ∃ b, validate_category_transition "review" "completed" (some "cnc") = Except.ok b :=
  ((validate_category_transition_spec.1 "review" "completed" (some "cnc")).1).mpr
    ⟨["cnc", "hand", "completed"], rfl, by decide, fun _ hs hne hor => absurd hor (by decide)⟩

/-- C10: boolean misc_info values are accepted and passed through
unchanged at every depth — as a top-level value, as a list item, and as a
nested-object value — because the validator's primitive check
`isinstance(value, (str, int, float))` classifies a Python `bool` as a
number (`bool` is an `int` subtype, as `pyToInt` also reflects); by
contrast `_parse_positive_int` rejects a boolean `amount` outright. -/
theorem misc_info_bool_passthrough :
    (∀ b, _clean_misc_value (PyVal.bool b) = Except.ok (some (PyVal.bool b))) ∧
    (∀ b rest, cleanListItems (PyVal.bool b :: rest) =
      Except.map (fun r => PyVal.bool b :: r) (cleanListItems rest)) ∧
    (∀ k b rest, cleanDictEntries ((PyVal.str k, PyVal.bool b) :: rest) =
      Except.map (fun r => (PyVal.str k, PyVal.bool b) :: r) (cleanDictEntries rest)) ∧
    (∀ k b rest, cleanMiscEntries ((PyVal.str k, PyVal.bool b) :: rest) =
      Except.map (fun r => (PyVal.str k, PyVal.bool b) :: r) (cleanMiscEntries rest)) ∧
    (∀ b, pyToInt (PyVal.bool b) = some (if b then 1 else 0)) ∧
    (∀ b, _parse_positive_int (PyVal.bool b) "amount" 1 =
      Except.error (PyError.validation ⟨"amount must be a number", some "amount"⟩)) := by
  refine ⟨fun b => rfl, ?_, ?_, ?_, fun b => rfl, fun b => rfl⟩
  · intro b rest
    cases hr : cleanListItems rest with
    | error e => simp only [cleanListItems, hr, Except.map]
    | ok r => simp only [cleanListItems, hr, Except.map]
  · intro k b rest
    cases hr : cleanDictEntries rest with
    | error e => simp only [cleanDictEntries, hr, Except.map]
    | ok r => simp only [cleanDictEntries, hr, Except.map]
  · intro k b rest
    cases hr : cleanMiscEntries rest with
    | error e =>
      simp only [cleanMiscEntries, show _clean_misc_value (PyVal.bool b) =
        Except.ok (some (PyVal.bool b)) from rfl, hr, Except.map]
    | ok r =>
      simp only [cleanMiscEntries, show _clean_misc_value (PyVal.bool b) =
        Except.ok (some (PyVal.bool b)) from rfl, hr, Except.map]

/-! ### Claim-side misc_info wellformedness (following the spec's wording) -/

/-- Python `isinstance(k, str)`. -/
def keyIsStr : PyVal → Bool
  | PyVal.str _ => true
  | _ => false

/-- Claim-side predicate, following the spec's wording: a primitive
misc_info value (string or number; in the host runtime a `bool` is an
`int` subtype and therefore a number). -/
def specMiscPrim : PyVal → Bool
  | PyVal.str _ => true
  | PyVal.int _ => true
  | PyVal.float _ => true
  | PyVal.bool _ => true
  | _ => false

/-- Claim-side predicate: an allowed nested object — string keys mapping
to string/number values (null entries are dropped). -/
def specMiscObj (d : List (PyVal × PyVal)) : Bool :=
  d.all fun p => keyIsStr p.1 && (isNoneVal p.2 || specMiscPrim p.2)

/-- Claim-side predicate: an allowed list item — null (dropped), string,
number, or nested object; in particular not a nested list. -/
def specMiscItem : PyVal → Bool
  | PyVal.none => true
  | PyVal.dict d => specMiscObj d
  | v => specMiscPrim v

/-- Claim-side predicate: an allowed misc_info value. -/
def specMiscValue : PyVal → Bool
  | PyVal.none => true
  | PyVal.list xs => xs.all specMiscItem
  | PyVal.dict d => specMiscObj d
  | v => specMiscPrim v

/-- Claim-side predicate: an allowed misc_info object. -/
def specMiscTop (es : List (PyVal × PyVal)) : Bool :=
  es.all fun p => keyIsStr p.1 && specMiscValue p.2

theorem cleanDictEntries_ok_imp (d : List (PyVal × PyVal)) (c : List (PyVal × PyVal))
    (h : cleanDictEntries d = Except.ok c) : specMiscObj d = true := by
  induction d generalizing c with
  | nil => rfl
  | cons p rest ih =>
    obtain ⟨k, v⟩ := p
    simp only [cleanDictEntries] at h
    split at h
    · split at h
      · simp only [specMiscObj, List.all_cons, keyIsStr, isNoneVal, Bool.true_and,
          Bool.true_or, Bool.true_and]
        simpa [specMiscObj] using ih c h
      · split at h
        · cases h
        · next hr =>
          simp only [specMiscObj, List.all_cons, keyIsStr, isNoneVal, specMiscPrim,
            Bool.true_and, Bool.or_true]
          simpa [specMiscObj] using ih _ hr
      · split at h
        · cases h
        · next hr =>
          simp only [specMiscObj, List.all_cons, keyIsStr, isNoneVal, specMiscPrim,
            Bool.true_and, Bool.or_true]
          simpa [specMiscObj] using ih _ hr
      · split at h
        · cases h
        · next hr =>
          simp only [specMiscObj, List.all_cons, keyIsStr, isNoneVal, specMiscPrim,
            Bool.true_and, Bool.or_true]
          simpa [specMiscObj] using ih _ hr
      · split at h
        · cases h
        · next hr =>
          simp only [specMiscObj, List.all_cons, keyIsStr, isNoneVal, specMiscPrim,
            Bool.true_and, Bool.or_true]
          simpa [specMiscObj] using ih _ hr
      · cases h
    · cases h

theorem cleanDictEntries_of_spec (d : List (PyVal × PyVal))
    (hw : specMiscObj d = true) : ∃ c, cleanDictEntries d = Except.ok c := by
  induction d with
  | nil => exact ⟨[], rfl⟩
  | cons p rest ih =>
    obtain ⟨k, v⟩ := p
    simp only [specMiscObj, List.all_cons, Bool.and_eq_true] at hw
    obtain ⟨⟨hk, hv⟩, hrest⟩ := hw
    obtain ⟨c, hc⟩ := ih (by simpa [specMiscObj] using hrest)
    cases k with
    | str ks =>
      cases v with
      | none => exact ⟨c, hc⟩
      | str vs => exact ⟨(PyVal.str ks, PyVal.str vs) :: c, by
          simp only [cleanDictEntries, hc]⟩
      | int n => exact ⟨(PyVal.str ks, PyVal.int n) :: c, by
          simp only [cleanDictEntries, hc]⟩
      | float q => exact ⟨(PyVal.str ks, PyVal.float q) :: c, by
          simp only [cleanDictEntries, hc]⟩
      | bool b => exact ⟨(PyVal.str ks, PyVal.bool b) :: c, by
          simp only [cleanDictEntries, hc]⟩
      | list xs => simp [isNoneVal, specMiscPrim] at hv
      | dict dd => simp [isNoneVal, specMiscPrim] at hv
    | none => simp [keyIsStr] at hk
    | bool b => simp [keyIsStr] at hk
    | int n => simp [keyIsStr] at hk
    | float q => simp [keyIsStr] at hk
    | list xs => simp [keyIsStr] at hk
    | dict dd => simp [keyIsStr] at hk

theorem cleanListItems_ok_imp (xs : List PyVal) (c : List PyVal)
    (h : cleanListItems xs = Except.ok c) : xs.all specMiscItem = true := by
  induction xs generalizing c with
  | nil => rfl
  | cons item rest ih =>
    simp only [cleanListItems] at h
    split at h
    · simp only [List.all_cons, specMiscItem, Bool.true_and]
      exact ih c h
    · split at h
      · cases h
      · next hr =>
        simp only [List.all_cons, specMiscItem, specMiscPrim, Bool.true_and]
        exact ih _ hr
    · split at h
      · cases h
      · next hr =>
        simp only [List.all_cons, specMiscItem, specMiscPrim, Bool.true_and]
        exact ih _ hr
    · split at h
      · cases h
      · next hr =>
        simp only [List.all_cons, specMiscItem, specMiscPrim, Bool.true_and]
        exact ih _ hr
    · split at h
      · cases h
      · next hr =>
        simp only [List.all_cons, specMiscItem, specMiscPrim, Bool.true_and]
        exact ih _ hr
    · split at h
      · cases h
      · next hd =>
        split at h
        · cases h
        · next hr =>
          simp only [List.all_cons, specMiscItem, Bool.and_eq_true]
          exact ⟨cleanDictEntries_ok_imp _ _ hd, ih _ hr⟩
    · cases h

theorem cleanListItems_of_spec (xs : List PyVal)
    (hw : xs.all specMiscItem = true) : ∃ c, cleanListItems xs = Except.ok c := by
  induction xs with
  | nil => exact ⟨[], rfl⟩
  | cons item rest ih =>
    simp only [List.all_cons, Bool.and_eq_true] at hw
    obtain ⟨hitem, hrest⟩ := hw
    obtain ⟨c, hc⟩ := ih hrest
    cases item with
    | none => exact ⟨c, hc⟩
    | str vs => exact ⟨PyVal.str vs :: c, by simp only [cleanListItems, hc]⟩
    | int n => exact ⟨PyVal.int n :: c, by simp only [cleanListItems, hc]⟩
    | float q => exact ⟨PyVal.float q :: c, by simp only [cleanListItems, hc]⟩
    | bool b => exact ⟨PyVal.bool b :: c, by simp only [cleanListItems, hc]⟩
    | list ys => simp [specMiscItem, specMiscPrim] at hitem
    | dict dd =>
      obtain ⟨cd, hcd⟩ := cleanDictEntries_of_spec dd (by
        simpa [specMiscItem] using hitem)
      exact ⟨PyVal.dict cd :: c, by simp only [cleanListItems, hcd, hc]⟩

theorem clean_misc_value_ok_imp (v : PyVal) (cv : Option PyVal)
    (h : _clean_misc_value v = Except.ok cv) : specMiscValue v = true := by
  cases v with
  | none => rfl
  | str s => rfl
  | int n => rfl
  | float q => rfl
  | bool b => rfl
  | list xs =>
    rw [show _clean_misc_value (PyVal.list xs) = (match cleanListItems xs with
      | Except.error e => Except.error e
      | Except.ok l => Except.ok (some (PyVal.list l))) from rfl] at h
    cases hl : cleanListItems xs with
    | error e => rw [hl] at h; cases h
    | ok l =>
      simpa [specMiscValue] using cleanListItems_ok_imp xs l hl
  | dict dd =>
    rw [show _clean_misc_value (PyVal.dict dd) = (match cleanDictEntries dd with
      | Except.error e => Except.error e
      | Except.ok d => Except.ok (some (PyVal.dict d))) from rfl] at h
    cases hl : cleanDictEntries dd with
    | error e => rw [hl] at h; cases h
    | ok d =>
      simpa [specMiscValue] using cleanDictEntries_ok_imp dd d hl

theorem clean_misc_value_of_spec (v : PyVal)
    (hw : specMiscValue v = true) : ∃ cv, _clean_misc_value v = Except.ok cv := by
  cases v with
  | none => exact ⟨Option.none, rfl⟩
  | str s => exact ⟨some (PyVal.str s), rfl⟩
  | int n => exact ⟨some (PyVal.int n), rfl⟩
  | float q => exact ⟨some (PyVal.float q), rfl⟩
  | bool b => exact ⟨some (PyVal.bool b), rfl⟩
  | list xs =>
    obtain ⟨c, hc⟩ := cleanListItems_of_spec xs (by simpa [specMiscValue] using hw)
    exact ⟨some (PyVal.list c), by
      rw [show _clean_misc_value (PyVal.list xs) = (match cleanListItems xs with
        | Except.error e => Except.error e
        | Except.ok l => Except.ok (some (PyVal.list l))) from rfl, hc]⟩
  | dict dd =>
    obtain ⟨c, hc⟩ := cleanDictEntries_of_spec dd (by simpa [specMiscValue] using hw)
    exact ⟨some (PyVal.dict c), by
      rw [show _clean_misc_value (PyVal.dict dd) = (match cleanDictEntries dd with
        | Except.error e => Except.error e
        | Except.ok d => Except.ok (some (PyVal.dict d))) from rfl, hc]⟩

theorem cleanMiscEntries_ok_imp (es : List (PyVal × PyVal)) (c : List (PyVal × PyVal))
    (h : cleanMiscEntries es = Except.ok c) : specMiscTop es = true := by
  induction es generalizing c with
  | nil => rfl
  | cons p rest ih =>
    obtain ⟨k, v⟩ := p
    simp only [cleanMiscEntries] at h
    split at h
    · split at h
      · cases h
      · next hcv =>
        split at h
        · cases h
        · next hr =>
          simp only [specMiscTop, List.all_cons, keyIsStr, Bool.true_and, Bool.and_eq_true]
          refine ⟨clean_misc_value_ok_imp _ _ hcv, ?_⟩
          simpa [specMiscTop] using ih _ hr
    · cases h

theorem cleanMiscEntries_of_spec (es : List (PyVal × PyVal))
    (hw : specMiscTop es = true) : ∃ c, cleanMiscEntries es = Except.ok c := by
  induction es with
  | nil => exact ⟨[], rfl⟩
  | cons p rest ih =>
    obtain ⟨k, v⟩ := p
    simp only [specMiscTop, List.all_cons, Bool.and_eq_true] at hw
    obtain ⟨⟨hk, hv⟩, hrest⟩ := hw
    obtain ⟨c, hc⟩ := ih (by simpa [specMiscTop] using hrest)
    obtain ⟨cv, hcv⟩ := clean_misc_value_of_spec v hv
    cases k with
    | str ks =>
      cases cv with
      | none => exact ⟨c, by simp only [cleanMiscEntries, hcv, hc]⟩
      | some w => exact ⟨(PyVal.str ks, w) :: c, by simp only [cleanMiscEntries, hcv, hc]⟩
    | none => simp [keyIsStr] at hk
    | bool b => simp [keyIsStr] at hk
    | int n => simp [keyIsStr] at hk
    | float q => simp [keyIsStr] at hk
    | list xs => simp [keyIsStr] at hk
    | dict dd => simp [keyIsStr] at hk

theorem cleanListItems_err_of_mem_list (xs : List PyVal) (l : List PyVal)
    (hm : PyVal.list l ∈ xs) :
    ∃ msg, cleanListItems xs = Except.error (PyError.validation ⟨msg, some "misc_info"⟩) := by
  induction xs with
  | nil => cases hm
  | cons item rest ih =>
    cases List.mem_cons.mp hm with
    | inl hhead =>
      subst hhead
      exact ⟨"misc_info list items must be string, number, or object", rfl⟩
    | inr hrest =>
      cases item with
      | none => exact ih hrest
      | str s =>
        obtain ⟨msg, hmsg⟩ := ih hrest
        exact ⟨msg, by simp only [cleanListItems, hmsg]⟩
      | int n =>
        obtain ⟨msg, hmsg⟩ := ih hrest
        exact ⟨msg, by simp only [cleanListItems, hmsg]⟩
      | float q =>
        obtain ⟨msg, hmsg⟩ := ih hrest
        exact ⟨msg, by simp only [cleanListItems, hmsg]⟩
      | bool b =>
        obtain ⟨msg, hmsg⟩ := ih hrest
        exact ⟨msg, by simp only [cleanListItems, hmsg]⟩
      | list l' =>
        exact ⟨"misc_info list items must be string, number, or object", rfl⟩
      | dict dd =>
        cases hd : cleanDictEntries dd with
        | error e =>
          obtain ⟨msg, hmsg⟩ := cleanDictEntries_err dd e hd
          exact ⟨msg, by
            simp only [cleanListItems, hd, hmsg]⟩
        | ok d =>
          obtain ⟨msg, hmsg⟩ := ih hrest
          exact ⟨msg, by simp only [cleanListItems, hd, hmsg]⟩

theorem cleanDictEntries_err_of_bad_value (d : List (PyVal × PyVal)) (k v : PyVal)
    (hm : (k, v) ∈ d) (hprim : specMiscPrim v = false) (hnn : v ≠ PyVal.none) :
    ∃ msg, cleanDictEntries d =
      Except.error (PyError.validation ⟨msg, some "misc_info"⟩) := by
  induction d with
  | nil => cases hm
  | cons p rest ih =>
    obtain ⟨k', v'⟩ := p
    cases List.mem_cons.mp hm with
    | inl hhead =>
      obtain ⟨hk, hv⟩ := Prod.mk.injEq .. ▸ hhead.symm
      subst hk
      subst hv
      cases k' with
      | str ks =>
        cases v' with
        | none => exact absurd rfl hnn
        | str s => simp [specMiscPrim] at hprim
        | int n => simp [specMiscPrim] at hprim
        | float q => simp [specMiscPrim] at hprim
        | bool b => simp [specMiscPrim] at hprim
        | list xs =>
          exact ⟨"misc_info object values must be string or number", rfl⟩
        | dict dd =>
          exact ⟨"misc_info object values must be string or number", rfl⟩
      | none => exact ⟨"misc_info object keys must be strings", rfl⟩
      | bool b => exact ⟨"misc_info object keys must be strings", rfl⟩
      | int n => exact ⟨"misc_info object keys must be strings", rfl⟩
      | float q => exact ⟨"misc_info object keys must be strings", rfl⟩
      | list xs => exact ⟨"misc_info object keys must be strings", rfl⟩
      | dict dd => exact ⟨"misc_info object keys must be strings", rfl⟩
    | inr hrest =>
      cases k' with
      | str ks =>
        cases v' with
        | none => exact ih hrest
        | str s =>
          obtain ⟨msg, hmsg⟩ := ih hrest
          exact ⟨msg, by simp only [cleanDictEntries, hmsg]⟩
        | int n =>
          obtain ⟨msg, hmsg⟩ := ih hrest
          exact ⟨msg, by simp only [cleanDictEntries, hmsg]⟩
        | float q =>
          obtain ⟨msg, hmsg⟩ := ih hrest
          exact ⟨msg, by simp only [cleanDictEntries, hmsg]⟩
        | bool b =>
          obtain ⟨msg, hmsg⟩ := ih hrest
          exact ⟨msg, by simp only [cleanDictEntries, hmsg]⟩
        | list xs =>
          exact ⟨"misc_info object values must be string or number", rfl⟩
        | dict dd =>
          exact ⟨"misc_info object values must be string or number", rfl⟩
      | none => exact ⟨"misc_info object keys must be strings", rfl⟩
      | bool b => exact ⟨"misc_info object keys must be strings", rfl⟩
      | int n => exact ⟨"misc_info object keys must be strings", rfl⟩
      | float q => exact ⟨"misc_info object keys must be strings", rfl⟩
      | list xs => exact ⟨"misc_info object keys must be strings", rfl⟩
      | dict dd => exact ⟨"misc_info object keys must be strings", rfl⟩

/-- C2: for every input whose `misc_info` key holds a non-null object,
validation recursively enforces the claimed discipline: it succeeds
exactly when every entry has a string key and a value that is null
(dropped), a string or number (passed through), a list of
string/number/nested-object items (a list nested inside a list fails), or
a nested object whose values are strings or numbers; every failure is a
`ValidationError` naming the field `misc_info`; and an empty cleaned
object collapses to null rather than an empty container. (Here "number"
is what the host runtime's `isinstance(·, (str, int, float))` accepts,
which includes `bool` as an `int` subtype.) -/
theorem validate_misc_info_spec :
    ∀ (data : PyDict) (entries : List (PyVal × PyVal)),
      lookup data "misc_info" = some (PyVal.dict entries) →
      (((∃ out, validate_misc_info data = Except.ok out) ↔ specMiscTop entries = true) ∧
       (∀ e, validate_misc_info data = Except.error e →
         ∃ msg, e = PyError.validation ⟨msg, some "misc_info"⟩) ∧
       (∀ ks rest, cleanMiscEntries ((PyVal.str ks, PyVal.none) :: rest) =
         cleanMiscEntries rest) ∧
       (∀ ks v rest, specMiscPrim v = true →
         cleanMiscEntries ((PyVal.str ks, v) :: rest) =
           Except.map (fun r => (PyVal.str ks, v) :: r) (cleanMiscEntries rest)) ∧
       (∀ xs l, PyVal.list l ∈ xs →
         ∃ msg, _validate_misc_list_value (PyVal.list xs) =
           Except.error (PyError.validation ⟨msg, some "misc_info"⟩)) ∧
       (∀ d k v, (k, v) ∈ d → specMiscPrim v = false → v ≠ PyVal.none →
         ∃ msg, _validate_misc_dict_value (PyVal.dict d) =
           Except.error (PyError.validation ⟨msg, some "misc_info"⟩)) ∧
       (cleanMiscEntries entries = Except.ok [] →
         validate_misc_info data = Except.ok [("misc_info", PyVal.none)])) := by
  intro data entries hlk
  have hk : hasKey data "misc_info" = true := by simp [hasKey, hlk]
  have hraw : miscInfoRaw data = PyVal.dict entries := by simp only [miscInfoRaw, hlk]
  have hcond : ¬(!hasKey data "misc_info" && !hasKey data "miscInfo") = true := by
    simp [hk]
  refine ⟨?_, validate_misc_info_err data, ?_, ?_, ?_, ?_, ?_⟩
  · constructor
    · rintro ⟨out, hout⟩
      unfold validate_misc_info at hout
      rw [if_neg hcond] at hout
      simp only [hraw] at hout
      cases hcl : cleanMiscEntries entries with
      | error e =>
        simp only [hcl] at hout
        cases hout
      | ok c => exact cleanMiscEntries_ok_imp entries c hcl
    · intro hw
      obtain ⟨c, hc⟩ := cleanMiscEntries_of_spec entries hw
      refine ⟨[("misc_info", if c.isEmpty then PyVal.none else PyVal.dict c)], ?_⟩
      unfold validate_misc_info
      rw [if_neg hcond]
      simp only [hraw, hc]
  · intro ks rest
    cases hr : cleanMiscEntries rest with
    | error e => simp only [cleanMiscEntries,
        show _clean_misc_value PyVal.none = Except.ok Option.none from rfl, hr]
    | ok r => simp only [cleanMiscEntries,
        show _clean_misc_value PyVal.none = Except.ok Option.none from rfl, hr]
  · intro ks v rest hprim
    cases v with
    | str s =>
      cases hr : cleanMiscEntries rest with
      | error e => simp only [cleanMiscEntries,
          show _clean_misc_value (PyVal.str s) = Except.ok (some (PyVal.str s)) from rfl,
          hr, Except.map]
      | ok r => simp only [cleanMiscEntries,
          show _clean_misc_value (PyVal.str s) = Except.ok (some (PyVal.str s)) from rfl,
          hr, Except.map]
    | int n =>
      cases hr : cleanMiscEntries rest with
      | error e => simp only [cleanMiscEntries,
          show _clean_misc_value (PyVal.int n) = Except.ok (some (PyVal.int n)) from rfl,
          hr, Except.map]
      | ok r => simp only [cleanMiscEntries,
          show _clean_misc_value (PyVal.int n) = Except.ok (some (PyVal.int n)) from rfl,
          hr, Except.map]
    | float q =>
      cases hr : cleanMiscEntries rest with
      | error e => simp only [cleanMiscEntries,
          show _clean_misc_value (PyVal.float q) = Except.ok (some (PyVal.float q)) from rfl,
          hr, Except.map]
      | ok r => simp only [cleanMiscEntries,
          show _clean_misc_value (PyVal.float q) = Except.ok (some (PyVal.float q)) from rfl,
          hr, Except.map]
    | bool b =>
      cases hr : cleanMiscEntries rest with
      | error e => simp only [cleanMiscEntries,
          show _clean_misc_value (PyVal.bool b) = Except.ok (some (PyVal.bool b)) from rfl,
          hr, Except.map]
      | ok r => simp only [cleanMiscEntries,
          show _clean_misc_value (PyVal.bool b) = Except.ok (some (PyVal.bool b)) from rfl,
          hr, Except.map]
    | none => simp [specMiscPrim] at hprim
    | list xs => simp [specMiscPrim] at hprim
    | dict dd => simp [specMiscPrim] at hprim
  · intro xs l hm
    exact cleanListItems_err_of_mem_list xs l hm
  · intro d k v hm hprim hnn
    exact cleanDictEntries_err_of_bad_value d k v hm hprim hnn
  · intro hc0
    unfold validate_misc_info
    rw [if_neg hcond]
    simp only [hraw, hc0, List.isEmpty_nil, if_true]

/-- C2 witness: a concrete non-null misc_info object containing a string,
numbers and a nested object validates successfully. -/
theorem validate_misc_info_spec_witness :
    ∃ out, validate_misc_info [("misc_info", PyVal.dict
      [(PyVal.str "a", PyVal.list [PyVal.int 1, PyVal.str "x",
        PyVal.dict [(PyVal.str "b", PyVal.int 2)]])])] = Except.ok out :=
  ((validate_misc_info_spec
      [("misc_info", PyVal.dict [(PyVal.str "a", PyVal.list [PyVal.int 1, PyVal.str "x",
        PyVal.dict [(PyVal.str "b", PyVal.int 2)]])])]
      [(PyVal.str "a", PyVal.list [PyVal.int 1, PyVal.str "x",
        PyVal.dict [(PyVal.str "b", PyVal.int 2)]])]
      rfl).1).mpr rfl

/-- C3: for every supported string field present with a non-null value, a
non-string value makes `validate_string_fields` fail with a
`ValidationError` naming that field (stated for the first offending field
in processing order, matching the source's first-violation semantics); a
string whose stripped length exceeds the configured maximum fails naming
that field, while success requires — and conformance guarantees, so a
value of exactly the maximum length succeeds — every present string to
respect its maximum; on success the stored value is the input stripped of
surrounding whitespace, and fields absent from the input are absent from
the output. -/
theorem validate_string_fields_spec :
    ∀ data : PyDict,
      ((∀ out, validate_string_fields data = Except.ok out →
        (∀ f s, lookup data f = some (PyVal.str s) → f ∈ string_fields →
          lookup out f = some (PyVal.str (pyStrip s))) ∧
        (∀ f, lookup data f = Option.none → lookup out f = Option.none) ∧
        (∀ f s m, lookup data f = some (PyVal.str s) → f ∈ string_fields →
          max_lengths f = some m → (pyStrip s).length ≤ m)) ∧
      (validate_string_fields data = Except.ok (canonStrings data) ↔
        stringFieldsConform data = true) ∧
      (∀ pre f post v, string_fields = pre ++ f :: post →
        (∀ g ∈ pre, conformVal g (lookup data g) = true) →
        lookup data f = some v → v ≠ PyVal.none → conformVal f (some v) = false →
        ∃ msg, validate_string_fields data =
          Except.error (PyError.validation ⟨msg, some f⟩))) := by
  intro data
  refine ⟨?_, ?_, ?_⟩
  · intro out h
    obtain ⟨hconf, hout⟩ := (validate_string_fields_ok_iff data out).mp h
    subst hout
    refine ⟨?_, ?_, ?_⟩
    · intro f s hv hf
      rw [lookup_canonStrings data f hf]
      simp only [canonEntry, hv, Option.map_some']
    · intro f hv
      by_cases hf : f ∈ string_fields
      · rw [lookup_canonStrings data f hf]
        simp only [canonEntry, hv, Option.map_none']
      · exact lookup_canonStrings_not_field data f hf
    · intro f s m hv hf hm
      have hcf : conformVal f (lookup data f) = true := by
        have := List.all_eq_true.mp hconf
        exact this f hf
      rw [hv] at hcf
      simp only [conformVal, hm, decide_eq_true_eq] at hcf
      exact hcf
  · rw [validate_string_fields_ok_iff data (canonStrings data)]
    simp
  · intro pre f post v hsplit hpre hv hnn hbad
    unfold validate_string_fields
    rw [hsplit]
    exact validateStringFieldsAux_err data pre f post [] v hpre hv hnn hbad

/-- C3 witness: a non-string `name` value is rejected with the field name
attached. -/
theorem validate_string_fields_spec_witness :
    ∃ msg, validate_string_fields [("name", PyVal.int 3)] =
      Except.error (PyError.validation ⟨msg, some "name"⟩) :=
  (validate_string_fields_spec [("name", PyVal.int 3)]).2.2 ["type"] "name"
    ["part_id", "subsystem", "assigned", "status", "notes", "file", "onshape_url"]
    (PyVal.int 3) rfl (by intro g hg; simp only [List.mem_singleton] at hg; subst hg; rfl)
    rfl (fun hh => nomatch hh) rfl

/-- C6 counterexample: the category guard is `if category and …`, so a
falsy raw category such as `None` skips the membership check and is
stored as-is: validation succeeds on `{"category": None}` and the cleaned
category is `None`, which is not one of review/cnc/hand/completed. -/
theorem validate_category_falsy_counterexample :
    validate_part_data [("category", PyVal.none)] =
      Except.ok [("category", PyVal.none)] ∧
    pyInStrList PyVal.none valid_categories = false := ⟨rfl, rfl⟩

/-- C6 (amended): when the key `category` is present, `validate_part_data`
succeeds only if the raw category value is falsy (e.g. `None` or an empty
string, stored unchanged) or one of review/cnc/hand/completed; the
cleaned output maps `category` to the raw input value, so whenever that
value is truthy it is a member of the four-element enum. -/
theorem validate_category_spec :
    ∀ (data out : PyDict) (v : PyVal),
      validate_part_data data = Except.ok out →
      lookup data "category" = some v →
      lookup out "category" = some v ∧
      (pyTruthy v = true → pyInStrList v valid_categories = true) := by
  intro data out v h hv
  obtain ⟨S, N, M, vd1, vd2, hS, hN, hM, hT, hC, hSt, hU⟩ :=
    validate_part_data_inv data out h
  rcases validate_category_inv data vd1 vd2 hC with ⟨hnone, -⟩ | ⟨v', hv', hok, hvd2⟩
  · rw [hv] at hnone
    cases hnone
  · rw [hv] at hv'
    have hvv : v = v' := Option.some.inj hv'
    subst hvv
    have hcat2 : lookup vd2 "category" = some v := by
      rw [hvd2]
      exact lookup_dictSet_self vd1 "category" v
    have hmain : lookup out "category" = some v := by
      rcases validate_status_inv data vd2 out hSt with ⟨-, hout⟩ | ⟨sv, hsv, hsok, hout⟩
      · rw [hout]
        exact hcat2
      · rw [hout]
        rw [lookup_dictSet_ne vd2 "status" "category" sv (by decide)]
        exact hcat2
    refine ⟨hmain, fun ht => ?_⟩
    rcases hok with hfalsy | hmem
    · rw [ht] at hfalsy
      cases hfalsy
    · exact hmem

/-- C6 witness: a concrete truthy category that validates: `"cnc"` is
stored unchanged and is a member of the enum. -/
theorem validate_category_spec_witness :
    lookup [("category", PyVal.str "cnc")] "category" = some (PyVal.str "cnc") ∧
    pyInStrList (PyVal.str "cnc") valid_categories = true := by
  have h := validate_category_spec [("category", PyVal.str "cnc")]
    [("category", PyVal.str "cnc")] (PyVal.str "cnc") rfl rfl
  exact ⟨h.1, h.2 rfl⟩

/-! ### Key tracking through the pipeline -/

theorem hasKey_cons (k' : String) (v : PyVal) (d : PyDict) (k : String) :
    hasKey ((k', v) :: d) k = (k' = k || hasKey d k) := by
  by_cases h : k' = k <;> simp [hasKey, lookup, h]

theorem hasKey_dictUpdate_imp (d o : PyDict) (k : String)
    (h : hasKey (dictUpdate d o) k = true) :
    hasKey d k = true ∨ hasKey o k = true := by
  induction o generalizing d with
  | nil => exact Or.inl h
  | cons p rest ih =>
    obtain ⟨k', v⟩ := p
    have hstep : dictUpdate d ((k', v) :: rest) = dictUpdate (dictSet d k' v) rest := rfl
    rw [hstep] at h
    rcases ih (dictSet d k' v) h with h1 | h2
    · rw [hasKey_dictSet] at h1
      rcases Bool.or_eq_true_iff.mp h1 with h3 | h4
      · refine Or.inr ?_
        rw [hasKey_cons]
        simp [of_decide_eq_true h3]
      · exact Or.inl h4
    · refine Or.inr ?_
      rw [hasKey_cons, h2]
      simp

theorem validate_numeric_fields_hasKey (data N : PyDict) (k : String)
    (h : validate_numeric_fields data = Except.ok N) (hk : hasKey N k = true) :
    k = "amount" ∧ hasKey data "amount" = true := by
  cases hv : lookup data "amount" with
  | none =>
    simp only [validate_numeric_fields, hv] at h
    have hN := Except.ok.inj h
    subst hN
    cases hk
  | some v =>
    simp only [validate_numeric_fields, hv] at h
    cases hp : _parse_positive_int v "amount" 1 with
    | error e =>
      simp only [hp] at h
      cases h
    | ok n =>
      simp only [hp] at h
      have hN := Except.ok.inj h
      subst hN
      rw [hasKey_cons] at hk
      rcases Bool.or_eq_true_iff.mp hk with h1 | h2
      · exact ⟨(of_decide_eq_true h1).symm, by simp [hasKey, hv]⟩
      · cases h2

theorem validate_misc_info_hasKey (data M : PyDict) (k : String)
    (h : validate_misc_info data = Except.ok M) (hk : hasKey M k = true) :
    k = "misc_info" ∧ (hasKey data "misc_info" = true ∨ hasKey data "miscInfo" = true) := by
  unfold validate_misc_info at h
  by_cases hc : (!hasKey data "misc_info" && !hasKey data "miscInfo") = true
  · rw [if_pos hc] at h
    have hM := Except.ok.inj h
    subst hM
    cases hk
  · rw [if_neg hc] at h
    have hkeys : hasKey data "misc_info" = true ∨ hasKey data "miscInfo" = true := by
      by_cases h1 : hasKey data "misc_info" = true
      · exact Or.inl h1
      · by_cases h2 : hasKey data "miscInfo" = true
        · exact Or.inr h2
        · exfalso
          apply hc
          simp only [Bool.not_eq_true] at h1 h2
          rw [h1, h2]
          rfl
    have hshape : ∃ mv, M = [("misc_info", mv)] := by
      cases hraw : miscInfoRaw data with
      | none =>
        simp only [hraw] at h
        exact ⟨PyVal.none, (Except.ok.inj h).symm⟩
      | dict entries =>
        simp only [hraw] at h
        cases hcl : cleanMiscEntries entries with
        | error e =>
          simp only [hcl] at h
          cases h
        | ok c =>
          simp only [hcl] at h
          exact ⟨_, (Except.ok.inj h).symm⟩
      | bool b => simp only [hraw] at h; cases h
      | int n => simp only [hraw] at h; cases h
      | float q => simp only [hraw] at h; cases h
      | str st => simp only [hraw] at h; cases h
      | list xs => simp only [hraw] at h; cases h
    obtain ⟨mv, hM⟩ := hshape
    subst hM
    rw [hasKey_cons] at hk
    rcases Bool.or_eq_true_iff.mp hk with h1 | h2
    · exact ⟨(of_decide_eq_true h1).symm, hkeys⟩
    · cases h2

theorem validate_part_type_hasKey (vd vd' : PyDict) (k : String)
    (h : validate_part_type vd = Except.ok vd') (hk : hasKey vd' k = true) :
    hasKey vd k = true := by
  rcases validate_part_type_inv vd vd' h with ⟨-, hvd⟩ | ⟨v, hv, -, hvd⟩ | ⟨s, hv, -, -, hvd⟩
  · rw [hvd] at hk
    exact hk
  · rw [hvd, hasKey_dictSet] at hk
    rcases Bool.or_eq_true_iff.mp hk with h1 | h2
    · rw [of_decide_eq_true h1]
      simp [hasKey, hv]
    · exact h2
  · rw [hvd, hasKey_dictSet] at hk
    rcases Bool.or_eq_true_iff.mp hk with h1 | h2
    · rw [of_decide_eq_true h1]
      simp [hasKey, hv]
    · exact h2

theorem validate_category_hasKey (data vd vd' : PyDict) (k : String)
    (h : validate_category data vd = Except.ok vd') (hk : hasKey vd' k = true) :
    hasKey vd k = true ∨ (k = "category" ∧ hasKey data "category" = true) := by
  rcases validate_category_inv data vd vd' h with ⟨-, hvd⟩ | ⟨v, hv, -, hvd⟩
  · rw [hvd] at hk
    exact Or.inl hk
  · rw [hvd, hasKey_dictSet] at hk
    rcases Bool.or_eq_true_iff.mp hk with h1 | h2
    · exact Or.inr ⟨of_decide_eq_true h1, by simp [hasKey, hv]⟩
    · exact Or.inl h2

theorem validate_status_hasKey (data vd vd' : PyDict) (k : String)
    (h : validate_status data vd = Except.ok vd') (hk : hasKey vd' k = true) :
    hasKey vd k = true ∨ (k = "status" ∧ hasKey data "status" = true) := by
  rcases validate_status_inv data vd vd' h with ⟨-, hvd⟩ | ⟨v, hv, -, hvd⟩
  · rw [hvd] at hk
    exact Or.inl hk
  · rw [hvd, hasKey_dictSet] at hk
    rcases Bool.or_eq_true_iff.mp hk with h1 | h2
    · exact Or.inr ⟨of_decide_eq_true h1, by simp [hasKey, hv]⟩
    · exact Or.inl h2

theorem validate_part_data_hasKey (data out : PyDict) (k : String)
    (h : validate_part_data data = Except.ok out) (hk : hasKey out k = true) :
    hasKey data k = true ∨ (k = "misc_info" ∧ hasKey data "miscInfo" = true) := by
  obtain ⟨S, N, M, vd1, vd2, hS, hN, hM, hT, hC, hSt, hU⟩ :=
    validate_part_data_inv data out h
  rcases validate_status_hasKey data vd2 out k hSt hk with hk2 | ⟨hkst, hdst⟩
  · rcases validate_category_hasKey data vd1 vd2 k hC hk2 with hk1 | ⟨hkc, hdc⟩
    · have hk0 := validate_part_type_hasKey _ vd1 k hT hk1
      rcases hasKey_dictUpdate_imp _ M k hk0 with hk3 | hkM
      · rcases hasKey_dictUpdate_imp _ N k hk3 with hk4 | hkN
        · rcases hasKey_dictUpdate_imp [] S k hk4 with hk5 | hkS
          · cases hk5
          · have hSc := ((validate_string_fields_ok_iff data S).mp hS).2
            rw [hSc] at hkS
            exact Or.inl (hasKey_canonStrings data k hkS).2
        · obtain ⟨hka, hda⟩ := validate_numeric_fields_hasKey data N k hN hkN
          subst hka
          exact Or.inl hda
      · obtain ⟨hkm, hdm⟩ := validate_misc_info_hasKey data M k hM hkM
        subst hkm
        rcases hdm with h1 | h2
        · exact Or.inl h1
        · exact Or.inr ⟨rfl, h2⟩
    · subst hkc
      exact Or.inl hdc
  · subst hkst
    exact Or.inl hdst

/-- C7 counterexample: input that uses only the `miscInfo` alias validates
successfully, but the cleaned output carries the canonical `misc_info`
key, which is not among the input's keys — so the output keys are not a
subset of the input keys. -/
theorem validate_part_data_keys_counterexample :
    validate_part_data [("miscInfo", PyVal.none)] =
      Except.ok [("misc_info", PyVal.none)] ∧
    hasKey [("miscInfo", PyVal.none)] "misc_info" = false := ⟨rfl, rfl⟩

/-- C7 (amended): for every input on which `validate_part_data` succeeds,
every key of the cleaned output is a key of the input, except that the
canonical key `misc_info` may be injected when the input supplied the
`miscInfo` alias; no other key is ever injected (the only defaulting is
`amount`'s default-when-empty value under the already-present `amount`
key). -/
theorem validate_part_data_keys_spec :
    ∀ (data out : PyDict) (k : String),
      validate_part_data data = Except.ok out → hasKey out k = true →
      hasKey data k = true ∨ (k = "misc_info" ∧ hasKey data "miscInfo" = true) :=
  fun data out k h hk => validate_part_data_hasKey data out k h hk

/-- C7 witness: on a simple validated input the output key is an input
key. -/
theorem validate_part_data_keys_spec_witness :
    hasKey [("name", PyVal.str "x")] "name" = true ∨
    ("name" = "misc_info" ∧ hasKey [("name", PyVal.str "x")] "miscInfo" = true) :=
  validate_part_data_keys_spec [("name", PyVal.str "x")] [("name", PyVal.str "x")]
    "name" rfl rfl

/-- C4: when the key `amount` is present: `None` or the empty string
yields the default 1; a boolean fails with a `ValidationError` (even
though booleans coerce to integers in the host runtime, as `pyToInt`
reflects); an unparseable value fails; a parsed value that is not
positive fails; and a parseable positive value such as the string `"5"`
yields the integer 5. When the key `amount` is absent, the numeric stage
contributes nothing and no `amount` key appears in the cleaned output of
`validate_part_data`. -/
theorem validate_numeric_fields_spec :
    ∀ data : PyDict,
      (lookup data "amount" = Option.none → validate_numeric_fields data = Except.ok []) ∧
      (lookup data "amount" = some PyVal.none →
        validate_numeric_fields data = Except.ok [("amount", PyVal.int 1)]) ∧
      (lookup data "amount" = some (PyVal.str "") →
        validate_numeric_fields data = Except.ok [("amount", PyVal.int 1)]) ∧
      (∀ b, lookup data "amount" = some (PyVal.bool b) →
        validate_numeric_fields data =
          Except.error (PyError.validation ⟨"amount must be a number", some "amount"⟩)) ∧
      (∀ v, lookup data "amount" = some v → isNoneVal v = false → pyIsEmptyStr v = false →
        isBoolVal v = false → pyToInt v = Option.none →
        validate_numeric_fields data =
          Except.error (PyError.validation ⟨"amount must be a number", some "amount"⟩)) ∧
      (∀ v n, lookup data "amount" = some v → isNoneVal v = false → pyIsEmptyStr v = false →
        isBoolVal v = false → pyToInt v = some n → n ≤ 0 →
        validate_numeric_fields data =
          Except.error (PyError.validation ⟨"amount must be greater than 0", some "amount"⟩)) ∧
      (∀ v n, lookup data "amount" = some v → isNoneVal v = false → pyIsEmptyStr v = false →
        isBoolVal v = false → pyToInt v = some n → 0 < n →
        validate_numeric_fields data = Except.ok [("amount", PyVal.int n)]) ∧
      (lookup data "amount" = some (PyVal.str "5") →
        validate_numeric_fields data = Except.ok [("amount", PyVal.int 5)]) ∧
      (∀ out, validate_part_data data = Except.ok out →
        hasKey data "amount" = false → hasKey out "amount" = false) := by
  intro data
  refine ⟨?_, ?_, ?_, ?_, ?_, ?_, ?_, ?_, ?_⟩
  · intro hv
    simp only [validate_numeric_fields, hv]
  · intro hv
    simp only [validate_numeric_fields, hv]
    rfl
  · intro hv
    simp only [validate_numeric_fields, hv]
    rfl
  · intro b hv
    simp only [validate_numeric_fields, hv]
    rfl
  · intro v hv h1 h2 h3 h4
    simp only [validate_numeric_fields, hv]
    unfold _parse_positive_int
    rw [if_neg (by simp [h1, h2]), if_neg (by simp [h3])]
    simp only [h4]
    rfl
  · intro v n hv h1 h2 h3 h4 h5
    simp only [validate_numeric_fields, hv]
    unfold _parse_positive_int
    rw [if_neg (by simp [h1, h2]), if_neg (by simp [h3])]
    simp only [h4]
    rw [if_pos h5]
    rfl
  · intro v n hv h1 h2 h3 h4 h5
    simp only [validate_numeric_fields, hv]
    unfold _parse_positive_int
    rw [if_neg (by simp [h1, h2]), if_neg (by simp [h3])]
    simp only [h4]
    rw [if_neg (by omega)]
  · intro hv
    simp only [validate_numeric_fields, hv]
    rfl
  · intro out h hka
    by_contra hko
    simp only [Bool.not_eq_false] at hko
    rcases validate_part_data_hasKey data out "amount" h hko with h1 | ⟨h2, -⟩
    · rw [hka] at h1
      cases h1
    · exact absurd h2 (by decide)

/-- C4 witness: `amount="5"` parses to the integer 5, and `amount=None`
defaults to 1. -/
theorem validate_numeric_fields_spec_witness :
    validate_numeric_fields [("amount", PyVal.str "5")] =
      Except.ok [("amount", PyVal.int 5)] ∧
    validate_numeric_fields [("amount", PyVal.none)] =
      Except.ok [("amount", PyVal.int 1)] :=
  ⟨(validate_numeric_fields_spec [("amount", PyVal.str "5")]).2.2.2.2.2.2.2.1 rfl,
   (validate_numeric_fields_spec [("amount", PyVal.none)]).2.1 rfl⟩

/-! ### No exception other than ValidationError escapes -/

theorem validateStringFieldsAux_err_validation (data : PyDict) :
    ∀ (fs : List String) (acc : PyDict) (e : PyError),
      validateStringFieldsAux data fs acc = Except.error e →
      ∃ ve, e = PyError.validation ve := by
  intro fs
  induction fs with
  | nil =>
    intro acc e h
    cases h
  | cons f rest ih =>
    intro acc e h
    simp only [validateStringFieldsAux] at h
    split at h
    · exact ih acc e h
    · split at h
      · exact ih acc e h
      · split at h
        · split at h
          · exact ⟨_, (Except.error.inj h).symm⟩
          · exact ih _ e h
        · exact ih _ e h
      · exact ⟨_, (Except.error.inj h).symm⟩

theorem lookup_vd0 (data S N M : PyDict) (k : String)
    (hS : validate_string_fields data = Except.ok S)
    (hN : validate_numeric_fields data = Except.ok N)
    (hM : validate_misc_info data = Except.ok M)
    (hk1 : k ≠ "amount") (hk2 : k ≠ "misc_info") :
    lookup (dictUpdate (dictUpdate (dictUpdate [] S) N) M) k = lookup S k := by
  have hSc := ((validate_string_fields_ok_iff data S).mp hS).2
  have hnodup : (keysOf S).Nodup := by
    rw [hSc]
    exact canonStrings_nodupKeys data
  have h0 : dictUpdate [] S = S := by
    have := dictUpdate_fresh [] S (fun p _ => rfl) hnodup
    simpa using this
  rw [h0]
  have hM' : ∀ d, lookup (dictUpdate d M) k = lookup d k := by
    intro d
    rcases validate_misc_info_shape data M hM with hM0 | hM1 | ⟨c, -, -, hM2⟩
    · subst hM0
      rfl
    · subst hM1
      rw [dictUpdate_single]
      exact lookup_dictSet_ne d "misc_info" k _ hk2
    · subst hM2
      rw [dictUpdate_single]
      exact lookup_dictSet_ne d "misc_info" k _ hk2
  rw [hM']
  rcases validate_numeric_fields_shape data N hN with hN0 | ⟨n, -, hN1, -⟩
  · subst hN0
    rfl
  · subst hN1
    rw [dictUpdate_single]
    exact lookup_dictSet_ne S "amount" k _ hk1

theorem validate_part_type_lookup_ne (vd vd' : PyDict) (k : String)
    (h : validate_part_type vd = Except.ok vd') (hk : k ≠ "type") :
    lookup vd' k = lookup vd k := by
  rcases validate_part_type_inv vd vd' h with ⟨-, hvd⟩ | ⟨v, -, -, hvd⟩ | ⟨s, -, -, -, hvd⟩
  · rw [hvd]
  · rw [hvd]
    exact lookup_dictSet_ne vd "type" k _ hk
  · rw [hvd]
    exact lookup_dictSet_ne vd "type" k _ hk

theorem validate_category_lookup_ne (data vd vd' : PyDict) (k : String)
    (h : validate_category data vd = Except.ok vd') (hk : k ≠ "category") :
    lookup vd' k = lookup vd k := by
  rcases validate_category_inv data vd vd' h with ⟨-, hvd⟩ | ⟨v, -, -, hvd⟩
  · rw [hvd]
  · rw [hvd]
    exact lookup_dictSet_ne vd "category" k _ hk

theorem validate_status_lookup_ne (data vd vd' : PyDict) (k : String)
    (h : validate_status data vd = Except.ok vd') (hk : k ≠ "status") :
    lookup vd' k = lookup vd k := by
  rcases validate_status_inv data vd vd' h with ⟨-, hvd⟩ | ⟨v, -, -, hvd⟩
  · rw [hvd]
  · rw [hvd]
    exact lookup_dictSet_ne vd "status" k _ hk

/-- C8: for every string-keyed input mapping whatsoever — fields missing,
null, or of arbitrary wrong type at any position — `validate_part_data`
either returns a cleaned mapping or fails with a `ValidationError`; the
model's `typeError` outcome (any non-`ValidationError` exception, such as
the `AttributeError`/`TypeError` latent in `validate_part_type` and
`validate_onshape_url` on truthy non-string inputs) is unreachable,
because the pipeline only feeds those checks string values produced by
`validate_string_fields`. -/
theorem validate_part_data_total :
    ∀ data : PyDict,
      (∃ out, validate_part_data data = Except.ok out) ∨
      (∃ msg fo, validate_part_data data = Except.error (PyError.validation ⟨msg, fo⟩)) := by
  intro data
  cases h : validate_part_data data with
  | ok out => exact Or.inl ⟨out, rfl⟩
  | error e =>
    right
    suffices hval : ∃ ve, e = PyError.validation ve by
      obtain ⟨⟨msg, fo⟩, hve⟩ := hval
      exact ⟨msg, fo, by rw [hve]⟩
    unfold validate_part_data at h
    cases hS : validate_string_fields data with
    | error e' =>
      rw [hS] at h
      exact (Except.error.inj h) ▸
        validateStringFieldsAux_err_validation data string_fields [] e' hS
    | ok S =>
      rw [hS] at h
      cases hN : validate_numeric_fields data with
      | error e' =>
        rw [hN] at h
        exact (Except.error.inj h) ▸ validate_numeric_fields_err data e' hN
      | ok N =>
        rw [hN] at h
        cases hM : validate_misc_info data with
        | error e' =>
          rw [hM] at h
          obtain ⟨msg, hmsg⟩ := validate_misc_info_err data e' hM
          exact (Except.error.inj h) ▸ ⟨⟨msg, some "misc_info"⟩, hmsg⟩
        | ok M =>
          rw [hM] at h
          have hSc := ((validate_string_fields_ok_iff data S).mp hS).2
          have hstrS : ∀ k v, lookup S k = some v → ∃ s, v = PyVal.str s := by
            intro k v hv
            rw [hSc] at hv
            exact canonStrings_values_str data k v hv
          cases hT : validate_part_type (dictUpdate (dictUpdate (dictUpdate [] S) N) M) with
          | error e' =>
            simp only [hT] at h
            refine (Except.error.inj h) ▸ validate_part_type_err_str _ e' ?_ hT
            intro v hv
            rw [lookup_vd0 data S N M "type" hS hN hM (by decide) (by decide)] at hv
            exact hstrS "type" v hv
          | ok vd1 =>
            simp only [hT] at h
            cases hC : validate_category data vd1 with
            | error e' =>
              simp only [hC] at h
              exact (Except.error.inj h) ▸ validate_category_err data vd1 e' hC
            | ok vd2 =>
              simp only [hC] at h
              cases hSt : validate_status data vd2 with
              | error e' =>
                simp only [hSt] at h
                exact (Except.error.inj h) ▸ validate_status_err data vd2 e' hSt
              | ok vd3 =>
                simp only [hSt] at h
                cases hU : validate_onshape_url vd3 with
                | ok u =>
                  simp only [hU] at h
                  cases h
                | error e' =>
                  simp only [hU] at h
                  refine (Except.error.inj h) ▸ validate_onshape_url_err_str vd3 e' ?_ hU
                  intro v hv
                  rw [validate_status_lookup_ne data vd2 vd3 "onshape_url" hSt (by decide),
                    validate_category_lookup_ne data vd1 vd2 "onshape_url" hC (by decide),
                    validate_part_type_lookup_ne _ vd1 "onshape_url" hT (by decide),
                    lookup_vd0 data S N M "onshape_url" hS hN hM (by decide) (by decide)] at hv
                  exact hstrS _ v hv

/-! ### Idempotence: the shape of cleaned outputs -/

/-- The cleaned output with the `type` entry removed when it maps to null
(re-validating such an output drops that entry; everything else is
reproduced verbatim). -/
def dropNoneType (d : PyDict) : PyDict :=
  match lookup d "type" with
  | some PyVal.none => d.filter (fun e => e.1 != "type")
  | _ => d

/-- The canonical shape of every successful `validate_part_data` output:
a run of string-field entries generated in `string_fields` order,
followed by the optional `amount`, `misc_info`, `category` entries and an
optional trailing `status: None` entry, with the value constraints each
stage enforces. -/
def CleanShape (out : PyDict) : Prop :=
  ∃ (gen : String → Option (String × PyVal)) (numPart miscPart catPart stPart : PyDict),
    out = string_fields.filterMap gen ++ numPart ++ miscPart ++ catPart ++ stPart ∧
    (∀ f e, gen f = some e → e.1 = f) ∧
    (∀ f e, gen f = some e →
      (f = "type" ∧ e.2 = PyVal.none) ∨
      (∃ s, e.2 = PyVal.str s ∧ pyStrip s = s ∧
        (∀ m, max_lengths f = some m → s.length ≤ m) ∧
        (f = "type" → (strLower s = "cnc" ∨ strLower s = "hand") ∧ strLower s = s ∧ s ≠ "") ∧
        (f = "status" → pyTruthy (PyVal.str s) = false ∨
          pyInStrList (PyVal.str s) valid_statuses = true))) ∧
    (numPart = [] ∨ ∃ n : Int, 0 < n ∧ numPart = [("amount", PyVal.int n)]) ∧
    (miscPart = [] ∨ miscPart = [("misc_info", PyVal.none)] ∨
      ∃ c, c ≠ [] ∧ cleanMiscEntries c = Except.ok c ∧ miscPart = [("misc_info", PyVal.dict c)]) ∧
    (catPart = [] ∨ ∃ cv, catPart = [("category", cv)] ∧
      (pyTruthy cv = false ∨ pyInStrList cv valid_categories = true)) ∧
    (stPart = [] ∨ (stPart = [("status", PyVal.none)] ∧ gen "status" = Option.none)) ∧
    validate_onshape_url out = Except.ok ()

theorem hasKey_filterMap_false (g : String → Option (String × PyVal))
    (hg : ∀ f e, g f = some e → e.1 = f) (k : String) (hk : k ∉ string_fields) :
    hasKey (string_fields.filterMap g) k = false := by
  simp [hasKey, lookup_filterMap_of_not_mem string_fields g hg k hk]

theorem vd0_append_general (S N M : PyDict)
    (hnodup : (keysOf S).Nodup)
    (hSa : hasKey S "amount" = false) (hSm : hasKey S "misc_info" = false)
    (hNshape : N = [] ∨ ∃ n : Int, N = [("amount", PyVal.int n)])
    (hMshape : M = [] ∨ ∃ mv, M = [("misc_info", mv)]) :
    dictUpdate (dictUpdate (dictUpdate [] S) N) M = S ++ N ++ M := by
  have h0 : dictUpdate [] S = S := by
    have := dictUpdate_fresh [] S (fun p _ => rfl) hnodup
    simpa using this
  rw [h0]
  rcases hNshape with hN0 | ⟨n, hN1⟩
  · subst hN0
    rw [dictUpdate_nil_right, List.append_nil]
    rcases hMshape with hM0 | ⟨mv, hM1⟩
    · subst hM0
      rw [dictUpdate_nil_right, List.append_nil]
    · subst hM1
      rw [dictUpdate_single]
      exact dictSet_fresh S "misc_info" mv hSm
  · subst hN1
    rw [dictUpdate_single, dictSet_fresh S "amount" _ hSa]
    rcases hMshape with hM0 | ⟨mv, hM1⟩
    · subst hM0
      rw [dictUpdate_nil_right, List.append_nil]
    · subst hM1
      rw [dictUpdate_single]
      refine dictSet_fresh _ "misc_info" mv ?_
      rw [hasKey_append, hSm]
      rfl

theorem lookup_SNM (S N M : PyDict) (k : String)
    (hNshape : N = [] ∨ ∃ n : Int, N = [("amount", PyVal.int n)])
    (hMshape : M = [] ∨ ∃ mv, M = [("misc_info", mv)])
    (hka : k ≠ "amount") (hkm : k ≠ "misc_info") :
    lookup (S ++ N ++ M) k = lookup S k := by
  have hka' : ¬("amount" = k) := fun hh => hka hh.symm
  have hkm' : ¬("misc_info" = k) := fun hh => hkm hh.symm
  have hNk : hasKey N k = false := by
    rcases hNshape with h | ⟨n, h⟩ <;> subst h
    · rfl
    · simp [hasKey, lookup, hka']
  have hMk : hasKey M k = false := by
    rcases hMshape with h | ⟨mv, h⟩ <;> subst h
    · rfl
    · simp [hasKey, lookup, hkm']
  cases hS : lookup S k with
  | some v =>
    exact lookup_append_left _ M k v (lookup_append_left S N k v hS)
  | none =>
    have h1 : hasKey S k = false := by simp [hasKey, hS]
    rw [lookup_append_right _ M k (by rw [hasKey_append, h1, hNk]; rfl),
      lookup_eq_none_of_not_hasKey M k hMk]

theorem valid_statuses_strip : ∀ st ∈ valid_statuses, pyStrip st = st := by
  decide

theorem valid_statuses_conform : ∀ st ∈ valid_statuses,
    ∀ m, max_lengths "status" = some m → st.length ≤ m := by
  decide

theorem hasKey_nil_false (k : String) : hasKey ([] : PyDict) k = false := rfl

theorem hasKey_singleton_ne (k k' : String) (v : PyVal) (h : k ≠ k') :
    hasKey [(k', v)] k = false := by
  simp [hasKey, lookup, if_neg (Ne.symm h)]

theorem hasKey_shape_ne (P : PyDict) (k₀ k : String)
    (hP : P = [] ∨ ∃ v, P = [(k₀, v)]) (h : k ≠ k₀) : hasKey P k = false := by
  rcases hP with h0 | ⟨v, h1⟩
  · subst h0; rfl
  · subst h1; exact hasKey_singleton_ne k k₀ v h

theorem lookup_append_skip (d₁ d₂ : PyDict) (k : String) (h : hasKey d₂ k = false) :
    lookup (d₁ ++ d₂) k = lookup d₁ k := by
  cases hF : lookup d₁ k with
  | some v => exact lookup_append_left _ _ _ _ hF
  | none =>
    rw [lookup_append_right d₁ d₂ k (by simp [hasKey, hF]),
      lookup_eq_none_of_not_hasKey d₂ k h]

theorem lookup_parts_skip (F N M C St : PyDict) (k : String)
    (hN : hasKey N k = false) (hM : hasKey M k = false)
    (hC : hasKey C k = false) (hSt : hasKey St k = false) :
    lookup (F ++ N ++ M ++ C ++ St) k = lookup F k := by
  rw [lookup_append_skip _ St k hSt, lookup_append_skip _ C k hC,
    lookup_append_skip _ M k hM, lookup_append_skip _ N k hN]

theorem lookup_parts_right (F N M C St : PyDict) (k : String)
    (hF : hasKey F k = false) (hN : hasKey N k = false)
    (hM : hasKey M k = false) (hC : hasKey C k = false) :
    lookup (F ++ N ++ M ++ C ++ St) k = lookup St k := by
  have hpre : hasKey (F ++ N ++ M ++ C) k = false := by
    rw [hasKey_append, hasKey_append, hasKey_append, hF, hN, hM, hC]
    rfl
  rw [lookup_append_right _ St k hpre]

theorem hasKey_parts_false (F N M C St : PyDict) (k : String)
    (hF : hasKey F k = false) (hN : hasKey N k = false) (hM : hasKey M k = false)
    (hC : hasKey C k = false) (hSt : hasKey St k = false) :
    hasKey (F ++ N ++ M ++ C ++ St) k = false := by
  rw [hasKey_append, hasKey_append, hasKey_append, hasKey_append, hF, hN, hM, hC, hSt]
  rfl

theorem lookup_filter_ne (d : PyDict) (k k' : String) (h : k' ≠ k) :
    lookup (d.filter (fun e => e.1 != k)) k' = lookup d k' := by
  induction d with
  | nil => rfl
  | cons p rest ih =>
    obtain ⟨k₀, v₀⟩ := p
    by_cases h₀ : k₀ = k
    · have hb : (((k₀, v₀) : String × PyVal).1 != k) = false := by simp [h₀]
      rw [List.filter_cons, hb]
      simp only [Bool.false_eq_true, if_false]
      rw [ih]
      have : ¬(k₀ = k') := fun hh => h ((hh ▸ h₀ : k' = k))
      simp [lookup, this]
    · have hb : (((k₀, v₀) : String × PyVal).1 != k) = true := by simp [h₀]
      rw [List.filter_cons, hb]
      simp only [if_true]
      by_cases h₁ : k₀ = k'
      · simp [lookup, h₁]
      · simp [lookup, h₁, ih]

theorem lookup_dropNoneType_ne (d : PyDict) (k : String) (h : k ≠ "type") :
    lookup (dropNoneType d) k = lookup d k := by
  unfold dropNoneType
  cases hlk : lookup d "type" with
  | none => rfl
  | some v =>
    cases v with
    | none => exact lookup_filter_ne d "type" k h
    | bool b => rfl
    | int n => rfl
    | float q => rfl
    | str s => rfl
    | list xs => rfl
    | dict dd => rfl

theorem cs_lookup_some (gen : String → Option (String × PyVal)) (N M C St : PyDict)
    (hgkey : ∀ f e, gen f = some e → e.1 = f)
    (f : String) (hf : f ∈ string_fields) (e : String × PyVal) (hg : gen f = some e) :
    lookup (string_fields.filterMap gen ++ N ++ M ++ C ++ St) f = some e.2 := by
  have hF : lookup (string_fields.filterMap gen) f = some e.2 := by
    rw [lookup_filterMap_of_mem string_fields gen hgkey string_fields_nodup f hf, hg]
    rfl
  exact lookup_append_left _ St f e.2 (lookup_append_left _ C f e.2
    (lookup_append_left _ M f e.2 (lookup_append_left _ N f e.2 hF)))

theorem cs_lookup_none (gen : String → Option (String × PyVal)) (N M C St : PyDict)
    (hgkey : ∀ f e, gen f = some e → e.1 = f)
    (hNw : N = [] ∨ ∃ v, N = [("amount", v)])
    (hMw : M = [] ∨ ∃ v, M = [("misc_info", v)])
    (hCw : C = [] ∨ ∃ v, C = [("category", v)])
    (f : String) (hf : f ∈ string_fields) (hg : gen f = Option.none) :
    lookup (string_fields.filterMap gen ++ N ++ M ++ C ++ St) f = lookup St f := by
  apply lookup_parts_right
  · simp [hasKey, lookup_filterMap_of_mem string_fields gen hgkey string_fields_nodup f hf, hg]
  · exact hasKey_shape_ne N "amount" f hNw (fun h => absurd (h ▸ hf) (by decide))
  · exact hasKey_shape_ne M "misc_info" f hMw (fun h => absurd (h ▸ hf) (by decide))
  · exact hasKey_shape_ne C "category" f hCw (fun h => absurd (h ▸ hf) (by decide))

theorem cs_canonEntry_eq (gen : String → Option (String × PyVal)) (N M C St : PyDict)
    (out : PyDict)
    (hout : out = string_fields.filterMap gen ++ N ++ M ++ C ++ St)
    (hgkey : ∀ f e, gen f = some e → e.1 = f)
    (hgval : ∀ f e, gen f = some e →
      (f = "type" ∧ e.2 = PyVal.none) ∨
      (∃ s, e.2 = PyVal.str s ∧ pyStrip s = s ∧
        (∀ m, max_lengths f = some m → s.length ≤ m) ∧
        (f = "type" → (strLower s = "cnc" ∨ strLower s = "hand") ∧ strLower s = s ∧ s ≠ "") ∧
        (f = "status" → pyTruthy (PyVal.str s) = false ∨
          pyInStrList (PyVal.str s) valid_statuses = true)))
    (hNw : N = [] ∨ ∃ v, N = [("amount", v)])
    (hMw : M = [] ∨ ∃ v, M = [("misc_info", v)])
    (hCw : C = [] ∨ ∃ v, C = [("category", v)])
    (hStw : St = [] ∨ St = [("status", PyVal.none)])
    (f : String) (hf : f ∈ string_fields) (hne : f ≠ "type") :
    canonEntry out f = gen f := by
  cases hg : gen f with
  | some e =>
    obtain ⟨a, b⟩ := e
    have ha : a = f := hgkey f (a, b) hg
    subst ha
    rcases hgval a (a, b) hg with ⟨hft, _⟩ | ⟨s, hv, hstrip, _, _, _⟩
    · exact absurd hft hne
    · simp only at hv
      subst hv
      have hlk : lookup out a = some (PyVal.str s) := by
        rw [hout]
        exact cs_lookup_some gen N M C St hgkey a hf (a, PyVal.str s) hg
      simp only [canonEntry, hlk]
      rw [hstrip]
  | none =>
    have hlk : lookup out f = lookup St f := by
      rw [hout]
      exact cs_lookup_none gen N M C St hgkey hNw hMw hCw f hf hg
    rcases hStw with h0 | h1
    · subst h0
      unfold canonEntry
      rw [hlk]
      rfl
    · subst h1
      by_cases hfs : "status" = f
      · subst hfs
        unfold canonEntry
        rw [hlk]
        rfl
      · unfold canonEntry
        rw [hlk]
        simp [lookup, hfs]

theorem cs_type_stage (gen : String → Option (String × PyVal)) (N M C St out : PyDict)
    (hout : out = string_fields.filterMap gen ++ N ++ M ++ C ++ St)
    (hgkey : ∀ f e, gen f = some e → e.1 = f)
    (hgval : ∀ f e, gen f = some e →
      (f = "type" ∧ e.2 = PyVal.none) ∨
      (∃ s, e.2 = PyVal.str s ∧ pyStrip s = s ∧
        (∀ m, max_lengths f = some m → s.length ≤ m) ∧
        (f = "type" → (strLower s = "cnc" ∨ strLower s = "hand") ∧ strLower s = s ∧ s ≠ "") ∧
        (f = "status" → pyTruthy (PyVal.str s) = false ∨
          pyInStrList (PyVal.str s) valid_statuses = true)))
    (hNs : N = [] ∨ ∃ n : Int, N = [("amount", PyVal.int n)])
    (hMw : M = [] ∨ ∃ v, M = [("misc_info", v)])
    (hCw : C = [] ∨ ∃ v, C = [("category", v)])
    (hStw : St = [] ∨ St = [("status", PyVal.none)]) :
    validate_part_type (canonStrings out ++ N ++ M) = Except.ok (canonStrings out ++ N ++ M) ∧
    ((canonStrings out = string_fields.filterMap gen ∧ dropNoneType out = out) ∨
     (canonStrings out = (string_fields.filterMap gen).filter (fun e => e.1 != "type") ∧
      dropNoneType out = out.filter (fun e => e.1 != "type"))) := by
  have hNw : N = [] ∨ ∃ v, N = [("amount", v)] := by
    rcases hNs with h | ⟨n, h⟩
    · exact Or.inl h
    · exact Or.inr ⟨_, h⟩
  have hmemT : "type" ∈ string_fields := by decide
  have hpt : ∀ f ∈ string_fields, f ≠ "type" → canonEntry out f = gen f :=
    fun f hf hne => cs_canonEntry_eq gen N M C St out hout hgkey hgval hNw hMw hCw hStw f hf hne
  have hlkT : lookup (canonStrings out ++ N ++ M) "type" =
      (canonEntry out "type").map Prod.snd := by
    rw [lookup_SNM (canonStrings out) N M "type" hNs hMw (by decide) (by decide)]
    exact lookup_canonStrings out "type" hmemT
  cases hgt : gen "type" with
  | none =>
    have hlt : lookup out "type" = lookup St "type" := by
      rw [hout]
      exact cs_lookup_none gen N M C St hgkey hNw hMw hCw "type" hmemT hgt
    have hlt2 : lookup out "type" = Option.none := by
      rw [hlt]
      rcases hStw with h | h <;> subst h <;> rfl
    have hct : canonEntry out "type" = Option.none := by
      unfold canonEntry
      rw [hlt2]
    have hcanon : canonStrings out = string_fields.filterMap gen := by
      unfold canonStrings
      exact filterMapCongr string_fields _ _ (fun f hf => by
        by_cases hne : f = "type"
        · subst hne; rw [hct, hgt]
        · exact hpt f hf hne)
    constructor
    · have hsc : lookup (canonStrings out ++ N ++ M) "type" = Option.none := by
        rw [hlkT, hct]
        rfl
      simp only [validate_part_type, hsc]
    · refine Or.inl ⟨hcanon, ?_⟩
      unfold dropNoneType
      rw [hlt2]
  | some e =>
    obtain ⟨a, b⟩ := e
    have ha : a = "type" := hgkey "type" (a, b) hgt
    subst ha
    rcases hgval "type" ("type", b) hgt with ⟨_, hbn⟩ | ⟨s, hv, hstrip, hlen, htc, _⟩
    · simp only at hbn
      subst hbn
      have hlt : lookup out "type" = some PyVal.none := by
        rw [hout]
        exact cs_lookup_some gen N M C St hgkey "type" hmemT ("type", PyVal.none) hgt
      have hct : canonEntry out "type" = Option.none := by
        unfold canonEntry
        rw [hlt]
      have hcanon : canonStrings out =
          (string_fields.filterMap gen).filter (fun e => e.1 != "type") := by
        unfold canonStrings
        rw [← filterMap_point_erase string_fields gen hgkey "type"]
        exact filterMapCongr string_fields _ _ (fun f hf => by
          by_cases hne : f = "type"
          · subst hne
            rw [hct]
            simp
          · rw [hpt f hf hne]
            simp [hne])
      constructor
      · have hsc : lookup (canonStrings out ++ N ++ M) "type" = Option.none := by
          rw [hlkT, hct]
          rfl
        simp only [validate_part_type, hsc]
      · refine Or.inr ⟨hcanon, ?_⟩
        unfold dropNoneType
        rw [hlt]
    · simp only at hv
      subst hv
      obtain ⟨hcnchand, hlow, hsne⟩ := htc rfl
      have hlt : lookup out "type" = some (PyVal.str s) := by
        rw [hout]
        exact cs_lookup_some gen N M C St hgkey "type" hmemT ("type", PyVal.str s) hgt
      have hct : canonEntry out "type" = some ("type", PyVal.str s) := by
        simp only [canonEntry, hlt]
        rw [hstrip]
      have hcanon : canonStrings out = string_fields.filterMap gen := by
        unfold canonStrings
        exact filterMapCongr string_fields _ _ (fun f hf => by
          by_cases hne2 : f = "type"
          · subst hne2; rw [hct, hgt]
          · exact hpt f hf hne2)
      constructor
      · have hsc : lookup (canonStrings out ++ N ++ M) "type" = some (PyVal.str s) := by
          rw [hlkT, hct]
          rfl
        have htruthy : pyTruthy (PyVal.str s) = true := by
          simp only [pyTruthy, decide_eq_true_eq]
          exact hsne
        have hcontains : ["cnc", "hand"].contains (strLower s) = true := by
          rcases hcnchand with h | h <;> rw [h] <;> rfl
        simp only [validate_part_type, hsc]
        rw [if_pos htruthy]
        have hfin : (if ["cnc", "hand"].contains (strLower s) = true then
            Except.ok (dictSet (canonStrings out ++ N ++ M) "type" (PyVal.str (strLower s)))
          else Except.error (PyError.validation
            ⟨"type must be \x27cnc\x27 or \x27hand\x27", some "type"⟩)) =
            Except.ok (canonStrings out ++ N ++ M) := by
          rw [if_pos hcontains, hlow, dictSet_eq_self _ _ _ hsc]
        exact hfin
      · refine Or.inl ⟨hcanon, ?_⟩
        unfold dropNoneType
        rw [hlt]

theorem cs_strings_stage (gen : String → Option (String × PyVal)) (N M C St out : PyDict)
    (hout : out = string_fields.filterMap gen ++ N ++ M ++ C ++ St)
    (hgkey : ∀ f e, gen f = some e → e.1 = f)
    (hgval : ∀ f e, gen f = some e →
      (f = "type" ∧ e.2 = PyVal.none) ∨
      (∃ s, e.2 = PyVal.str s ∧ pyStrip s = s ∧
        (∀ m, max_lengths f = some m → s.length ≤ m) ∧
        (f = "type" → (strLower s = "cnc" ∨ strLower s = "hand") ∧ strLower s = s ∧ s ≠ "") ∧
        (f = "status" → pyTruthy (PyVal.str s) = false ∨
          pyInStrList (PyVal.str s) valid_statuses = true)))
    (hNw : N = [] ∨ ∃ v, N = [("amount", v)])
    (hMw : M = [] ∨ ∃ v, M = [("misc_info", v)])
    (hCw : C = [] ∨ ∃ v, C = [("category", v)])
    (hStw : St = [] ∨ St = [("status", PyVal.none)]) :
    validate_string_fields out = Except.ok (canonStrings out) := by
  have hconf : stringFieldsConform out = true := by
    unfold stringFieldsConform
    rw [List.all_eq_true]
    intro f hf
    show conformVal f (lookup out f) = true
    cases hg : gen f with
    | some e =>
      have hlk : lookup out f = some e.2 := by
        rw [hout]
        exact cs_lookup_some gen N M C St hgkey f hf e hg
      rw [hlk]
      rcases hgval f e hg with ⟨_, hv⟩ | ⟨s, hv, hstrip, hlen, _, _⟩
      · rw [hv]
        rfl
      · rw [hv]
        unfold conformVal
        cases hm : max_lengths f with
        | none => rfl
        | some m =>
          show decide ((pyStrip s).length ≤ m) = true
          rw [hstrip]
          exact decide_eq_true (hlen m hm)
    | none =>
      have hlk : lookup out f = lookup St f := by
        rw [hout]
        exact cs_lookup_none gen N M C St hgkey hNw hMw hCw f hf hg
      rw [hlk]
      rcases hStw with h | h <;> subst h
      · rfl
      · by_cases hfs : "status" = f
        · subst hfs
          rfl
        · simp [lookup, hfs, conformVal]
  exact (validate_string_fields_ok_iff out _).mpr ⟨hconf, rfl⟩

theorem cs_numeric_stage (gen : String → Option (String × PyVal)) (N M C St out : PyDict)
    (hout : out = string_fields.filterMap gen ++ N ++ M ++ C ++ St)
    (hgkey : ∀ f e, gen f = some e → e.1 = f)
    (hnum : N = [] ∨ ∃ n : Int, 0 < n ∧ N = [("amount", PyVal.int n)])
    (hMw : M = [] ∨ ∃ v, M = [("misc_info", v)])
    (hCw : C = [] ∨ ∃ v, C = [("category", v)])
    (hStw : St = [] ∨ ∃ v, St = [("status", v)]) :
    validate_numeric_fields out = Except.ok N := by
  have hFam : hasKey (string_fields.filterMap gen) "amount" = false :=
    hasKey_filterMap_false gen hgkey "amount" (by decide)
  have hAm : lookup out "amount" = lookup N "amount" := by
    rw [hout, lookup_append_skip _ St _ (hasKey_shape_ne St "status" _ hStw (by decide)),
      lookup_append_skip _ C _ (hasKey_shape_ne C "category" _ hCw (by decide)),
      lookup_append_skip _ M _ (hasKey_shape_ne M "misc_info" _ hMw (by decide)),
      lookup_append_right _ N _ hFam]
  rcases hnum with h0 | ⟨n, hpos, h1⟩
  · subst h0
    have hv : lookup out "amount" = Option.none := by
      rw [hAm]
      rfl
    simp only [validate_numeric_fields, hv]
  · subst h1
    have hv : lookup out "amount" = some (PyVal.int n) := by
      rw [hAm]
      rfl
    simp only [validate_numeric_fields, hv, parse_positive_int_int_ok n "amount" 1 hpos]

theorem cs_misc_stage (gen : String → Option (String × PyVal)) (N M C St out : PyDict)
    (hout : out = string_fields.filterMap gen ++ N ++ M ++ C ++ St)
    (hgkey : ∀ f e, gen f = some e → e.1 = f)
    (hNw : N = [] ∨ ∃ v, N = [("amount", v)])
    (hmisc : M = [] ∨ M = [("misc_info", PyVal.none)] ∨
      ∃ c, c ≠ [] ∧ cleanMiscEntries c = Except.ok c ∧ M = [("misc_info", PyVal.dict c)])
    (hCw : C = [] ∨ ∃ v, C = [("category", v)])
    (hStw : St = [] ∨ ∃ v, St = [("status", v)]) :
    validate_misc_info out = Except.ok M := by
  have hF1 : hasKey (string_fields.filterMap gen) "misc_info" = false :=
    hasKey_filterMap_false gen hgkey "misc_info" (by decide)
  have hF2 : hasKey (string_fields.filterMap gen) "miscInfo" = false :=
    hasKey_filterMap_false gen hgkey "miscInfo" (by decide)
  rcases hmisc with h0 | hM1
  · subst h0
    have h1 : hasKey out "misc_info" = false := by
      rw [hout]
      exact hasKey_parts_false _ _ _ _ _ _ hF1
        (hasKey_shape_ne N "amount" _ hNw (by decide)) rfl
        (hasKey_shape_ne C "category" _ hCw (by decide))
        (hasKey_shape_ne St "status" _ hStw (by decide))
    have h2 : hasKey out "miscInfo" = false := by
      rw [hout]
      exact hasKey_parts_false _ _ _ _ _ _ hF2
        (hasKey_shape_ne N "amount" _ hNw (by decide)) rfl
        (hasKey_shape_ne C "category" _ hCw (by decide))
        (hasKey_shape_ne St "status" _ hStw (by decide))
    unfold validate_misc_info
    rw [if_pos (by rw [h1, h2]; rfl)]
  · obtain ⟨mv, hM2, hmv⟩ : ∃ mv, M = [("misc_info", mv)] ∧
        (mv = PyVal.none ∨ ∃ c, c ≠ [] ∧ cleanMiscEntries c = Except.ok c ∧
          mv = PyVal.dict c) := by
      rcases hM1 with h | ⟨c, hc1, hc2, h⟩
      · exact ⟨PyVal.none, h, Or.inl rfl⟩
      · exact ⟨PyVal.dict c, h, Or.inr ⟨c, hc1, hc2, rfl⟩⟩
    subst hM2
    have hpre : hasKey (string_fields.filterMap gen ++ N) "misc_info" = false := by
      rw [hasKey_append, hF1, hasKey_shape_ne N "amount" _ hNw (by decide)]
      rfl
    have hlkM : lookup out "misc_info" = some mv := by
      rw [hout, lookup_append_skip _ St _ (hasKey_shape_ne St "status" _ hStw (by decide)),
        lookup_append_skip _ C _ (hasKey_shape_ne C "category" _ hCw (by decide)),
        lookup_append_right _ _ _ hpre]
      rfl
    exact validate_misc_info_revalidate out mv hlkM hmv

theorem cs_category_stage (gen : String → Option (String × PyVal)) (N M C St out vd : PyDict)
    (hout : out = string_fields.filterMap gen ++ N ++ M ++ C ++ St)
    (hgkey : ∀ f e, gen f = some e → e.1 = f)
    (hNw : N = [] ∨ ∃ v, N = [("amount", v)])
    (hMw : M = [] ∨ ∃ v, M = [("misc_info", v)])
    (hcat : C = [] ∨ ∃ cv, C = [("category", cv)] ∧
      (pyTruthy cv = false ∨ pyInStrList cv valid_categories = true))
    (hStw : St = [] ∨ ∃ v, St = [("status", v)])
    (hvd : hasKey vd "category" = false) :
    validate_category out vd = Except.ok (vd ++ C) := by
  have hFc : hasKey (string_fields.filterMap gen) "category" = false :=
    hasKey_filterMap_false gen hgkey "category" (by decide)
  rcases hcat with h0 | ⟨cv, h1, hcv⟩
  · subst h0
    have hlk : lookup out "category" = Option.none := by
      rw [hout, lookup_parts_right (string_fields.filterMap gen) N M [] St "category" hFc
        (hasKey_shape_ne N "amount" _ hNw (by decide))
        (hasKey_shape_ne M "misc_info" _ hMw (by decide)) (hasKey_nil_false "category")]
      exact lookup_eq_none_of_not_hasKey St _ (hasKey_shape_ne St "status" _ hStw (by decide))
    simp only [validate_category, hlk]
    rw [List.append_nil]
  · subst h1
    have hpre : hasKey ((string_fields.filterMap gen ++ N) ++ M) "category" = false := by
      rw [hasKey_append, hasKey_append, hFc,
        hasKey_shape_ne N "amount" _ hNw (by decide),
        hasKey_shape_ne M "misc_info" _ hMw (by decide)]
      rfl
    have hlk : lookup out "category" = some cv := by
      rw [hout, lookup_append_skip _ St _ (hasKey_shape_ne St "status" _ hStw (by decide)),
        lookup_append_right _ _ _ hpre]
      rfl
    rw [validate_category_app out vd cv hlk hcv, dictSet_fresh vd _ _ hvd]

theorem cs_status_stage (gen : String → Option (String × PyVal)) (N M C St out : PyDict)
    (hout : out = string_fields.filterMap gen ++ N ++ M ++ C ++ St)
    (hgkey : ∀ f e, gen f = some e → e.1 = f)
    (hgval : ∀ f e, gen f = some e →
      (f = "type" ∧ e.2 = PyVal.none) ∨
      (∃ s, e.2 = PyVal.str s ∧ pyStrip s = s ∧
        (∀ m, max_lengths f = some m → s.length ≤ m) ∧
        (f = "type" → (strLower s = "cnc" ∨ strLower s = "hand") ∧ strLower s = s ∧ s ≠ "") ∧
        (f = "status" → pyTruthy (PyVal.str s) = false ∨
          pyInStrList (PyVal.str s) valid_statuses = true)))
    (hNw : N = [] ∨ ∃ v, N = [("amount", v)])
    (hMw : M = [] ∨ ∃ v, M = [("misc_info", v)])
    (hCw : C = [] ∨ ∃ v, C = [("category", v)])
    (hst : St = [] ∨ (St = [("status", PyVal.none)] ∧ gen "status" = Option.none)) :
    validate_status out ((canonStrings out ++ N ++ M) ++ C) =
      Except.ok ((canonStrings out ++ N ++ M) ++ C ++ St) := by
  have hmemS : "status" ∈ string_fields := by decide
  cases hgs : gen "status" with
  | some e =>
    obtain ⟨a, b⟩ := e
    have ha : a = "status" := hgkey "status" (a, b) hgs
    subst ha
    rcases hgval "status" ("status", b) hgs with ⟨habs, _⟩ | ⟨s, hv, hstrip, _, _, hstat⟩
    · exact absurd habs (by decide)
    · simp only at hv
      subst hv
      have hSt0 : St = [] := by
        rcases hst with h | ⟨_, hg0⟩
        · exact h
        · rw [hg0] at hgs
          cases hgs
      subst hSt0
      have hlkS : lookup out "status" = some (PyVal.str s) := by
        rw [hout]
        exact cs_lookup_some gen N M C [] hgkey "status" hmemS ("status", PyVal.str s) hgs
      rw [validate_status_app out ((canonStrings out ++ N ++ M) ++ C) (PyVal.str s) hlkS
        (hstat rfl)]
      have hcs : canonEntry out "status" = some ("status", PyVal.str s) := by
        simp only [canonEntry, hlkS]
        rw [hstrip]
      have hlkS2 : lookup (canonStrings out) "status" = some (PyVal.str s) := by
        rw [lookup_canonStrings out "status" hmemS, hcs]
        rfl
      have h1 : hasKey (canonStrings out) "status" = true := by
        simp [hasKey, hlkS2]
      have h2 : hasKey (canonStrings out ++ N) "status" = true := by
        rw [hasKey_append, h1]
        rfl
      have h3 : hasKey ((canonStrings out ++ N) ++ M) "status" = true := by
        rw [hasKey_append, h2]
        rfl
      rw [List.append_nil, dictSet_append_left _ C _ _ h3, dictSet_append_left _ M _ _ h2,
        dictSet_append_left _ N _ _ h1, dictSet_eq_self _ _ _ hlkS2]
  | none =>
    rcases hst with hSt0 | ⟨hSt1, _⟩
    · subst hSt0
      have hlkS : lookup out "status" = Option.none := by
        rw [hout, cs_lookup_none gen N M C [] hgkey hNw hMw hCw "status" hmemS hgs]
        rfl
      simp only [validate_status, hlkS]
      rw [List.append_nil]
    · subst hSt1
      have hlkS : lookup out "status" = some PyVal.none := by
        rw [hout, cs_lookup_none gen N M C [("status", PyVal.none)] hgkey hNw hMw hCw
          "status" hmemS hgs]
        rfl
      rw [validate_status_app out ((canonStrings out ++ N ++ M) ++ C) PyVal.none hlkS
        (Or.inl rfl)]
      have hcs : canonEntry out "status" = Option.none := by
        unfold canonEntry
        rw [hlkS]
      have h1 : hasKey (canonStrings out) "status" = false := by
        simp [hasKey, lookup_canonStrings out "status" hmemS, hcs]
      have hvd : hasKey (((canonStrings out ++ N) ++ M) ++ C) "status" = false := by
        rw [hasKey_append, hasKey_append, hasKey_append, h1,
          hasKey_shape_ne N "amount" _ hNw (by decide),
          hasKey_shape_ne M "misc_info" _ hMw (by decide),
          hasKey_shape_ne C "category" _ hCw (by decide)]
        rfl
      rw [dictSet_fresh _ _ _ hvd]

theorem revalidate_of_cleanShape (out : PyDict) (h : CleanShape out) :
    validate_part_data out = Except.ok (dropNoneType out) := by
  obtain ⟨gen, N, M, C, St, hout, hgkey, hgval, hnum, hmisc, hcat, hst, hurl⟩ := h
  have hNs : N = [] ∨ ∃ n : Int, N = [("amount", PyVal.int n)] := by
    rcases hnum with h | ⟨n, _, h⟩
    · exact Or.inl h
    · exact Or.inr ⟨n, h⟩
  have hNw : N = [] ∨ ∃ v, N = [("amount", v)] := by
    rcases hNs with h | ⟨n, h⟩
    · exact Or.inl h
    · exact Or.inr ⟨_, h⟩
  have hMw : M = [] ∨ ∃ v, M = [("misc_info", v)] := by
    rcases hmisc with h | h | ⟨c, _, _, h⟩
    · exact Or.inl h
    · exact Or.inr ⟨_, h⟩
    · exact Or.inr ⟨_, h⟩
  have hCw : C = [] ∨ ∃ v, C = [("category", v)] := by
    rcases hcat with h | ⟨cv, h, _⟩
    · exact Or.inl h
    · exact Or.inr ⟨_, h⟩
  have hStrong : St = [] ∨ St = [("status", PyVal.none)] := by
    rcases hst with h | ⟨h, _⟩
    · exact Or.inl h
    · exact Or.inr h
  have hStw : St = [] ∨ ∃ v, St = [("status", v)] := by
    rcases hStrong with h | h
    · exact Or.inl h
    · exact Or.inr ⟨_, h⟩
  have hS := cs_strings_stage gen N M C St out hout hgkey hgval hNw hMw hCw hStrong
  have hN2 := cs_numeric_stage gen N M C St out hout hgkey hnum hMw hCw hStw
  have hM2 := cs_misc_stage gen N M C St out hout hgkey hNw hmisc hCw hStw
  obtain ⟨hT, hSD⟩ := cs_type_stage gen N M C St out hout hgkey hgval hNs hMw hCw hStrong
  have hvd0 : dictUpdate (dictUpdate (dictUpdate [] (canonStrings out)) N) M =
      canonStrings out ++ N ++ M :=
    vd0_append_general (canonStrings out) N M (canonStrings_nodupKeys out)
      (hasKey_filterMap_false (canonEntry out) (canonEntry_keyPreserving out) "amount"
        (by decide))
      (hasKey_filterMap_false (canonEntry out) (canonEntry_keyPreserving out) "misc_info"
        (by decide))
      hNs hMw
  have hScat : hasKey (canonStrings out) "category" = false :=
    hasKey_filterMap_false (canonEntry out) (canonEntry_keyPreserving out) "category"
      (by decide)
  have hvdcat : hasKey (canonStrings out ++ N ++ M) "category" = false := by
    rw [hasKey_append, hasKey_append, hScat,
      hasKey_shape_ne N "amount" _ hNw (by decide),
      hasKey_shape_ne M "misc_info" _ hMw (by decide)]
    rfl
  have hC2 := cs_category_stage gen N M C St out (canonStrings out ++ N ++ M) hout hgkey
    hNw hMw hcat hStw hvdcat
  have hSt2 := cs_status_stage gen N M C St out hout hgkey hgval hNw hMw hCw hst
  have hlkU : lookup ((canonStrings out ++ N ++ M) ++ C ++ St) "onshape_url" =
      lookup out "onshape_url" := by
    have hmemU : "onshape_url" ∈ string_fields := by decide
    have hXl : lookup ((canonStrings out ++ N ++ M) ++ C ++ St) "onshape_url" =
        lookup (canonStrings out) "onshape_url" :=
      lookup_parts_skip (canonStrings out) N M C St "onshape_url"
        (hasKey_shape_ne N "amount" _ hNw (by decide))
        (hasKey_shape_ne M "misc_info" _ hMw (by decide))
        (hasKey_shape_ne C "category" _ hCw (by decide))
        (hasKey_shape_ne St "status" _ hStw (by decide))
    rw [hXl, lookup_canonStrings out "onshape_url" hmemU]
    cases hgu : gen "onshape_url" with
    | some e =>
      obtain ⟨a, b⟩ := e
      have ha : a = "onshape_url" := hgkey "onshape_url" (a, b) hgu
      subst ha
      rcases hgval "onshape_url" ("onshape_url", b) hgu with ⟨habs, _⟩ |
        ⟨s, hv, hstrip, _, _, _⟩
      · exact absurd habs (by decide)
      · simp only at hv
        subst hv
        have hlk : lookup out "onshape_url" = some (PyVal.str s) := by
          rw [hout]
          exact cs_lookup_some gen N M C St hgkey "onshape_url" hmemU
            ("onshape_url", PyVal.str s) hgu
        have hce : canonEntry out "onshape_url" = some ("onshape_url", PyVal.str s) := by
          simp only [canonEntry, hlk]
          rw [hstrip]
        rw [hce, hlk]
        rfl
    | none =>
      have hlk : lookup out "onshape_url" = lookup St "onshape_url" := by
        rw [hout]
        exact cs_lookup_none gen N M C St hgkey hNw hMw hCw "onshape_url" hmemU hgu
      have hlk2 : lookup out "onshape_url" = Option.none := by
        rw [hlk]
        rcases hStrong with h | h <;> subst h <;> rfl
      have hce : canonEntry out "onshape_url" = Option.none := by
        unfold canonEntry
        rw [hlk2]
      rw [hce, hlk2]
      rfl
  have hU : validate_onshape_url ((canonStrings out ++ N ++ M) ++ C ++ St) =
      Except.ok () := by
    rw [validate_onshape_url_congr _ out hlkU]
    exact hurl
  have hT2 : validate_part_type
      (dictUpdate (dictUpdate (dictUpdate [] (canonStrings out)) N) M) =
      Except.ok (canonStrings out ++ N ++ M) := by
    rw [hvd0]
    exact hT
  have hbuild := validate_part_data_build out (canonStrings out) N M
    (canonStrings out ++ N ++ M) ((canonStrings out ++ N ++ M) ++ C)
    ((canonStrings out ++ N ++ M) ++ C ++ St) hS hN2 hM2 hT2 hC2 hSt2 hU
  rw [hbuild]
  rcases hSD with ⟨hSF, hdnt⟩ | ⟨hSF, hdnt⟩
  · rw [hdnt, hSF, hout]
  · rw [hdnt, hSF, hout, List.filter_append, List.filter_append, List.filter_append,
      List.filter_append]
    have hNf : N.filter (fun e => e.1 != "type") = N := by
      rcases hNw with h | ⟨v, h⟩ <;> subst h <;> rfl
    have hMf : M.filter (fun e => e.1 != "type") = M := by
      rcases hMw with h | ⟨v, h⟩ <;> subst h <;> rfl
    have hCf : C.filter (fun e => e.1 != "type") = C := by
      rcases hCw with h | ⟨v, h⟩ <;> subst h <;> rfl
    have hStf : St.filter (fun e => e.1 != "type") = St := by
      rcases hStw with h | ⟨v, h⟩ <;> subst h <;> rfl
    rw [hNf, hMf, hCf, hStf]

theorem max_lengths_mem (f : String) (m : Nat) (hm : max_lengths f = some m) :
    f ∈ string_fields := by
  unfold max_lengths at hm
  split_ifs at hm with h1 h2 h3 h4 h5 h6 h7 h8
  · subst h1; decide
  · subst h2; decide
  · subst h3; decide
  · subst h4; decide
  · subst h5; decide
  · subst h6; decide
  · subst h7; decide
  · subst h8; decide

theorem conformVal_some_cases (f : String) (v : PyVal)
    (h : conformVal f (some v) = true) :
    v = PyVal.none ∨ ∃ s, v = PyVal.str s ∧
      ∀ m, max_lengths f = some m → (pyStrip s).length ≤ m := by
  cases v with
  | none => exact Or.inl rfl
  | str s =>
    refine Or.inr ⟨s, rfl, ?_⟩
    intro m hm
    unfold conformVal at h
    rw [hm] at h
    exact of_decide_eq_true h
  | bool b => exact Bool.noConfusion h
  | int n => exact Bool.noConfusion h
  | float q => exact Bool.noConfusion h
  | list xs => exact Bool.noConfusion h
  | dict d => exact Bool.noConfusion h

theorem pyInStrList_str (v : PyVal) (ss : List String) (h : pyInStrList v ss = true) :
    ∃ s, v = PyVal.str s ∧ s ∈ ss := by
  cases v with
  | str s =>
    refine ⟨s, rfl, ?_⟩
    have h2 : ss.contains s = true := h
    simpa using h2
  | none => exact Bool.noConfusion h
  | bool b => exact Bool.noConfusion h
  | int n => exact Bool.noConfusion h
  | float q => exact Bool.noConfusion h
  | list xs => exact Bool.noConfusion h
  | dict d => exact Bool.noConfusion h

theorem pyTruthy_str_false (s : String) (h : pyTruthy (PyVal.str s) = false) : s = "" := by
  have h2 : decide (s ≠ "") = false := h
  exact not_not.mp (of_decide_eq_false h2)

theorem conform_lookup (data : PyDict) (hconf : stringFieldsConform data = true)
    (f : String) (hf : f ∈ string_fields) : conformVal f (lookup data f) = true := by
  unfold stringFieldsConform at hconf
  rw [List.all_eq_true] at hconf
  exact hconf f hf

theorem hgval_of_parts (data : PyDict) (hconf : stringFieldsConform data = true)
    (gen : String → Option (String × PyVal))
    (hother : ∀ f, f ≠ "type" → f ≠ "status" → gen f = canonEntry data f)
    (htypeP : ∀ e, gen "type" = some e → e.2 = PyVal.none ∨
      ∃ s, e.2 = PyVal.str s ∧ pyStrip s = s ∧
        (∀ m, max_lengths "type" = some m → s.length ≤ m) ∧
        ((strLower s = "cnc" ∨ strLower s = "hand") ∧ strLower s = s ∧ s ≠ ""))
    (hstatusP : ∀ e, gen "status" = some e →
      ∃ s, e.2 = PyVal.str s ∧ pyStrip s = s ∧
        (∀ m, max_lengths "status" = some m → s.length ≤ m) ∧
        (pyTruthy (PyVal.str s) = false ∨ pyInStrList (PyVal.str s) valid_statuses = true)) :
    ∀ f e, gen f = some e →
      (f = "type" ∧ e.2 = PyVal.none) ∨
      (∃ s, e.2 = PyVal.str s ∧ pyStrip s = s ∧
        (∀ m, max_lengths f = some m → s.length ≤ m) ∧
        (f = "type" → (strLower s = "cnc" ∨ strLower s = "hand") ∧ strLower s = s ∧ s ≠ "") ∧
        (f = "status" → pyTruthy (PyVal.str s) = false ∨
          pyInStrList (PyVal.str s) valid_statuses = true)) := by
  intro f e he
  by_cases hft : f = "type"
  · subst hft
    rcases htypeP e he with hn | ⟨s, hv, hstrip, hlen, htc⟩
    · exact Or.inl ⟨rfl, hn⟩
    · exact Or.inr ⟨s, hv, hstrip, hlen, fun _ => htc, fun habs => absurd habs (by decide)⟩
  · by_cases hfs : f = "status"
    · subst hfs
      obtain ⟨s, hv, hstrip, hlen, hsc⟩ := hstatusP e he
      exact Or.inr ⟨s, hv, hstrip, hlen, fun habs => absurd habs (by decide), fun _ => hsc⟩
    · rw [hother f hft hfs] at he
      obtain ⟨hk, s₀, hlk, hv⟩ := canonEntry_key data f e he
      refine Or.inr ⟨pyStrip s₀, hv, pyStrip_idem s₀, ?_,
        fun habs => absurd habs hft, fun habs => absurd habs hfs⟩
      intro m hm
      have hc : conformVal f (lookup data f) = true :=
        conform_lookup data hconf f (max_lengths_mem f m hm)
      rw [hlk] at hc
      unfold conformVal at hc
      rw [hm] at hc
      exact of_decide_eq_true hc

theorem vpt_gen_package (data N M vd1 : PyDict)
    (hNs : N = [] ∨ ∃ n : Int, N = [("amount", PyVal.int n)])
    (hMw : M = [] ∨ ∃ v, M = [("misc_info", v)])
    (hT : validate_part_type (canonStrings data ++ N ++ M) = Except.ok vd1) :
    ∃ gen₁ : String → Option (String × PyVal),
      vd1 = string_fields.filterMap gen₁ ++ N ++ M ∧
      (∀ f e, gen₁ f = some e → e.1 = f) ∧
      (∀ f, f ≠ "type" → gen₁ f = canonEntry data f) ∧
      (∀ e, gen₁ "type" = some e → e.2 = PyVal.none ∨
        ∃ s, e.2 = PyVal.str s ∧ pyStrip s = s ∧
          (∀ m, max_lengths "type" = some m → s.length ≤ m) ∧
          ((strLower s = "cnc" ∨ strLower s = "hand") ∧ strLower s = s ∧ s ≠ "")) := by
  have hlkT : lookup (canonStrings data ++ N ++ M) "type" =
      (canonEntry data "type").map Prod.snd := by
    rw [lookup_SNM (canonStrings data) N M "type" hNs hMw (by decide) (by decide)]
    exact lookup_canonStrings data "type" (by decide)
  rcases validate_part_type_inv _ _ hT with ⟨hlt, hvd1⟩ | ⟨v, hlt, hvf, hvd1⟩ |
    ⟨s, hlt, hvt, hcnc, hvd1⟩
  · refine ⟨canonEntry data, by rw [hvd1]; rfl, canonEntry_keyPreserving data,
      fun f _ => rfl, ?_⟩
    intro e he
    rw [hlkT, he] at hlt
    exact Option.noConfusion hlt
  · rw [hlkT] at hlt
    have hsomeT : (canonEntry data "type").isSome = true := by
      cases hce : canonEntry data "type" with
      | none => rw [hce] at hlt; exact Option.noConfusion hlt
      | some e2 => rfl
    have hKT : hasKey (canonStrings data) "type" = true := by
      obtain ⟨e2, hce⟩ := Option.isSome_iff_exists.mp hsomeT
      have hl : lookup (canonStrings data) "type" = some e2.2 := by
        rw [lookup_canonStrings data "type" (by decide), hce]
        rfl
      simp [hasKey, hl]
    refine ⟨fun f => if f = "type" then some ("type", PyVal.none) else canonEntry data f,
      ?_, ?_, ?_, ?_⟩
    · rw [hvd1]
      have h2 : hasKey (canonStrings data ++ N) "type" = true := by
        rw [hasKey_append, hKT]
        rfl
      rw [dictSet_append_left _ M _ _ h2, dictSet_append_left _ N _ _ hKT,
        show canonStrings data = string_fields.filterMap (canonEntry data) from rfl,
        dictSet_filterMap string_fields (canonEntry data) (canonEntry_keyPreserving data)
          string_fields_nodup "type" (by decide) hsomeT PyVal.none]
    · intro f e he
      by_cases hf : f = "type"
      · subst hf
        replace he : (if "type" = "type" then some ("type", PyVal.none)
          else canonEntry data "type") = some e := he
        rw [if_pos rfl] at he
        have he2 := (Option.some.inj he).symm
        subst he2
        rfl
      · replace he : (if f = "type" then some ("type", PyVal.none)
          else canonEntry data f) = some e := he
        rw [if_neg hf] at he
        exact canonEntry_keyPreserving data f e he
    · intro f hf
      show (if f = "type" then some ("type", PyVal.none) else canonEntry data f) =
        canonEntry data f
      exact if_neg hf
    · intro e he
      replace he : (if "type" = "type" then some ("type", PyVal.none)
        else canonEntry data "type") = some e := he
      rw [if_pos rfl] at he
      have he2 := (Option.some.inj he).symm
      subst he2
      exact Or.inl rfl
  · rw [hlkT] at hlt
    have hsomeT : (canonEntry data "type").isSome = true := by
      cases hce : canonEntry data "type" with
      | none => rw [hce] at hlt; exact Option.noConfusion hlt
      | some e2 => rfl
    have hKT : hasKey (canonStrings data) "type" = true := by
      obtain ⟨e2, hce⟩ := Option.isSome_iff_exists.mp hsomeT
      have hl : lookup (canonStrings data) "type" = some e2.2 := by
        rw [lookup_canonStrings data "type" (by decide), hce]
        rfl
      simp [hasKey, hl]
    refine ⟨fun f => if f = "type" then some ("type", PyVal.str (strLower s))
      else canonEntry data f, ?_, ?_, ?_, ?_⟩
    · rw [hvd1]
      have h2 : hasKey (canonStrings data ++ N) "type" = true := by
        rw [hasKey_append, hKT]
        rfl
      rw [dictSet_append_left _ M _ _ h2, dictSet_append_left _ N _ _ hKT,
        show canonStrings data = string_fields.filterMap (canonEntry data) from rfl,
        dictSet_filterMap string_fields (canonEntry data) (canonEntry_keyPreserving data)
          string_fields_nodup "type" (by decide) hsomeT (PyVal.str (strLower s))]
    · intro f e he
      by_cases hf : f = "type"
      · subst hf
        replace he : (if "type" = "type" then some ("type", PyVal.str (strLower s))
          else canonEntry data "type") = some e := he
        rw [if_pos rfl] at he
        have he2 := (Option.some.inj he).symm
        subst he2
        rfl
      · replace he : (if f = "type" then some ("type", PyVal.str (strLower s))
          else canonEntry data f) = some e := he
        rw [if_neg hf] at he
        exact canonEntry_keyPreserving data f e he
    · intro f hf
      show (if f = "type" then some ("type", PyVal.str (strLower s))
        else canonEntry data f) = canonEntry data f
      exact if_neg hf
    · intro e he
      replace he : (if "type" = "type" then some ("type", PyVal.str (strLower s))
        else canonEntry data "type") = some e := he
      rw [if_pos rfl] at he
      have he2 := (Option.some.inj he).symm
      subst he2
      refine Or.inr ⟨strLower s, rfl, ?_, ?_, ?_, ?_, ?_⟩
      · rcases hcnc with h | h <;> rw [h] <;> rfl
      · intro m hm
        have h50 : 50 = m := Option.some.inj hm
        subst h50
        rcases hcnc with h | h <;> rw [h] <;> decide
      · rcases hcnc with h | h
        · rw [h]
          exact Or.inl rfl
        · rw [h]
          exact Or.inr rfl
      · rcases hcnc with h | h <;> rw [h] <;> rfl
      · rcases hcnc with h | h <;> rw [h] <;> decide

theorem vc_cat_package (data vd1 vd2 : PyDict)
    (hkey : hasKey vd1 "category" = false)
    (hC : validate_category data vd1 = Except.ok vd2) :
    ∃ C, vd2 = vd1 ++ C ∧ (C = [] ∨ ∃ cv, C = [("category", cv)] ∧
      (pyTruthy cv = false ∨ pyInStrList cv valid_categories = true)) := by
  rcases validate_category_inv data vd1 vd2 hC with ⟨_, hvd2⟩ | ⟨cv, _, hcv, hvd2⟩
  · exact ⟨[], by rw [hvd2, List.append_nil], Or.inl rfl⟩
  · exact ⟨[("category", cv)], by rw [hvd2, dictSet_fresh vd1 _ _ hkey],
      Or.inr ⟨cv, rfl, hcv⟩⟩

theorem cleanShape_of_ok (data out : PyDict)
    (h : validate_part_data data = Except.ok out) : CleanShape out := by
  obtain ⟨S, N, M, vd1, vd2, hS, hN, hM, hT, hC, hSt, hU⟩ := validate_part_data_inv data out h
  obtain ⟨hconf, hSc⟩ := (validate_string_fields_ok_iff data S).mp hS
  subst hSc
  have hnum : N = [] ∨ ∃ n : Int, 0 < n ∧ N = [("amount", PyVal.int n)] := by
    rcases validate_numeric_fields_shape data N hN with h0 | ⟨n, hp, hsh, _⟩
    · exact Or.inl h0
    · exact Or.inr ⟨n, hp, hsh⟩
  have hNs : N = [] ∨ ∃ n : Int, N = [("amount", PyVal.int n)] := by
    rcases hnum with h0 | ⟨n, _, hsh⟩
    · exact Or.inl h0
    · exact Or.inr ⟨n, hsh⟩
  have hNw : N = [] ∨ ∃ v, N = [("amount", v)] := by
    rcases hNs with h0 | ⟨n, hsh⟩
    · exact Or.inl h0
    · exact Or.inr ⟨_, hsh⟩
  have hmisc := validate_misc_info_shape data M hM
  have hMw : M = [] ∨ ∃ v, M = [("misc_info", v)] := by
    rcases hmisc with h0 | h0 | ⟨c, _, _, h0⟩
    · exact Or.inl h0
    · exact Or.inr ⟨_, h0⟩
    · exact Or.inr ⟨_, h0⟩
  have hvd0 : dictUpdate (dictUpdate (dictUpdate [] (canonStrings data)) N) M =
      canonStrings data ++ N ++ M :=
    vd0_append_general (canonStrings data) N M (canonStrings_nodupKeys data)
      (hasKey_filterMap_false (canonEntry data) (canonEntry_keyPreserving data) "amount"
        (by decide))
      (hasKey_filterMap_false (canonEntry data) (canonEntry_keyPreserving data) "misc_info"
        (by decide))
      hNs hMw
  rw [hvd0] at hT
  obtain ⟨gen₁, hvd1, hg₁key, hg₁other, htypeP₁⟩ := vpt_gen_package data N M vd1 hNs hMw hT
  have hkeyC : hasKey vd1 "category" = false := by
    rw [hvd1, hasKey_append, hasKey_append,
      hasKey_filterMap_false gen₁ hg₁key "category" (by decide),
      hasKey_shape_ne N "amount" _ hNw (by decide),
      hasKey_shape_ne M "misc_info" _ hMw (by decide)]
    rfl
  obtain ⟨C, hvd2, hcat⟩ := vc_cat_package data vd1 vd2 hkeyC hC
  have hCw : C = [] ∨ ∃ v, C = [("category", v)] := by
    rcases hcat with h0 | ⟨cv, h0, _⟩
    · exact Or.inl h0
    · exact Or.inr ⟨_, h0⟩
  rcases validate_status_inv data vd2 out hSt with ⟨hlkS, hout⟩ | ⟨v, hlkS, hsv, hout⟩
  · have hstatusP : ∀ e, gen₁ "status" = some e →
        ∃ s, e.2 = PyVal.str s ∧ pyStrip s = s ∧
          (∀ m, max_lengths "status" = some m → s.length ≤ m) ∧
          (pyTruthy (PyVal.str s) = false ∨
            pyInStrList (PyVal.str s) valid_statuses = true) := by
      intro e he
      rw [hg₁other "status" (by decide)] at he
      obtain ⟨_, s₀, hlk, _⟩ := canonEntry_key data "status" e he
      rw [hlkS] at hlk
      exact Option.noConfusion hlk
    refine ⟨gen₁, N, M, C, [], ?_, hg₁key,
      hgval_of_parts data hconf gen₁ (fun f hft _ => hg₁other f hft) htypeP₁ hstatusP,
      hnum, hmisc, hcat, Or.inl rfl, ?_⟩
    · rw [hout, hvd2, hvd1, List.append_nil]
    · exact hU
  · have hcv := conform_lookup data hconf "status" (by decide)
    rw [hlkS] at hcv
    rcases conformVal_some_cases "status" v hcv with hvn | ⟨s₀, hvs, hlen0⟩
    · subst hvn
      have hg₁s : gen₁ "status" = Option.none := by
        rw [hg₁other "status" (by decide)]
        unfold canonEntry
        rw [hlkS]
      have hF₁s : hasKey (string_fields.filterMap gen₁) "status" = false := by
        simp [hasKey, lookup_filterMap_of_mem string_fields gen₁ hg₁key string_fields_nodup
          "status" (by decide), hg₁s]
      have hkeyS : hasKey vd2 "status" = false := by
        rw [hvd2, hvd1, hasKey_append, hasKey_append, hasKey_append, hF₁s,
          hasKey_shape_ne N "amount" _ hNw (by decide),
          hasKey_shape_ne M "misc_info" _ hMw (by decide),
          hasKey_shape_ne C "category" _ hCw (by decide)]
        rfl
      have hstatusP : ∀ e, gen₁ "status" = some e →
          ∃ s, e.2 = PyVal.str s ∧ pyStrip s = s ∧
            (∀ m, max_lengths "status" = some m → s.length ≤ m) ∧
            (pyTruthy (PyVal.str s) = false ∨
              pyInStrList (PyVal.str s) valid_statuses = true) := by
        intro e he
        rw [hg₁s] at he
        exact Option.noConfusion he
      refine ⟨gen₁, N, M, C, [("status", PyVal.none)], ?_, hg₁key,
        hgval_of_parts data hconf gen₁ (fun f hft _ => hg₁other f hft) htypeP₁ hstatusP,
        hnum, hmisc, hcat, Or.inr ⟨rfl, hg₁s⟩, ?_⟩
      · rw [hout, dictSet_fresh vd2 _ _ hkeyS, hvd2, hvd1]
      · exact hU
    · subst hvs
      have hstrip0 : pyStrip s₀ = s₀ := by
        rcases hsv with hf | hm
        · rw [pyTruthy_str_false s₀ hf]
          rfl
        · obtain ⟨s, hs, hmem⟩ := pyInStrList_str _ _ hm
          have hss : s = s₀ := (PyVal.str.inj hs).symm
          subst hss
          exact valid_statuses_strip s hmem
      have hlen : ∀ m, max_lengths "status" = some m → s₀.length ≤ m := by
        intro m hm2
        have h2 := hlen0 m hm2
        rwa [hstrip0] at h2
      have hce : canonEntry data "status" = some ("status", PyVal.str s₀) := by
        simp only [canonEntry, hlkS]
        rw [hstrip0]
      have hg₁s : gen₁ "status" = some ("status", PyVal.str s₀) := by
        rw [hg₁other "status" (by decide), hce]
      have hsome : (gen₁ "status").isSome = true := by
        rw [hg₁s]
        rfl
      have hF₁lk : lookup (string_fields.filterMap gen₁) "status" =
          some (PyVal.str s₀) := by
        rw [lookup_filterMap_of_mem string_fields gen₁ hg₁key string_fields_nodup
          "status" (by decide), hg₁s]
        rfl
      have h1 : hasKey (string_fields.filterMap gen₁) "status" = true := by
        simp [hasKey, hF₁lk]
      have h2 : hasKey (string_fields.filterMap gen₁ ++ N) "status" = true := by
        rw [hasKey_append, h1]
        rfl
      have h3 : hasKey ((string_fields.filterMap gen₁ ++ N) ++ M) "status" = true := by
        rw [hasKey_append, h2]
        rfl
      refine ⟨fun f => if f = "status" then some ("status", PyVal.str s₀) else gen₁ f,
        N, M, C, [], ?_, ?_, ?_, hnum, hmisc, hcat, Or.inl rfl, ?_⟩
      · rw [hout, hvd2, hvd1, dictSet_append_left _ C _ _ h3,
          dictSet_append_left _ M _ _ h2, dictSet_append_left _ N _ _ h1,
          dictSet_filterMap string_fields gen₁ hg₁key string_fields_nodup "status"
            (by decide) hsome (PyVal.str s₀), List.append_nil]
      · intro f e he
        by_cases hf : f = "status"
        · subst hf
          replace he : (if "status" = "status" then some ("status", PyVal.str s₀)
            else gen₁ "status") = some e := he
          rw [if_pos rfl] at he
          have he2 := (Option.some.inj he).symm
          subst he2
          rfl
        · replace he : (if f = "status" then some ("status", PyVal.str s₀)
            else gen₁ f) = some e := he
          rw [if_neg hf] at he
          exact hg₁key f e he
      · refine hgval_of_parts data hconf _ ?_ ?_ ?_
        · intro f hft hfs
          show (if f = "status" then some ("status", PyVal.str s₀) else gen₁ f) =
            canonEntry data f
          rw [if_neg hfs]
          exact hg₁other f hft
        · intro e he
          replace he : (if "type" = "status" then some ("status", PyVal.str s₀)
            else gen₁ "type") = some e := he
          rw [if_neg (by decide)] at he
          exact htypeP₁ e he
        · intro e he
          replace he : (if "status" = "status" then some ("status", PyVal.str s₀)
            else gen₁ "status") = some e := he
          rw [if_pos rfl] at he
          have he2 := (Option.some.inj he).symm
          subst he2
          exact ⟨s₀, rfl, hstrip0, hlen, hsv⟩
      · exact hU

/-- C5 counterexample: the input `{type: ""}` validates to `{type: None}` (a falsy
type is stored as null), but re-validating `{type: None}` yields the empty mapping,
because `validate_string_fields` skips null values so the `type` key disappears.
Re-validation therefore does not always return an identical mapping. -/
theorem validate_part_data_idem_counterexample :
    validate_part_data [("type", PyVal.str "")] = Except.ok [("type", PyVal.none)] ∧
    validate_part_data [("type", PyVal.none)] = Except.ok [] ∧
    ([] : PyDict) ≠ [("type", PyVal.none)] :=
  ⟨rfl, rfl, fun hcontra => List.cons_ne_nil _ _ hcontra.symm⟩

/-- C5 (corrected): re-validating a successful cleaned output `out` of
`validate_part_data` always succeeds, and yields `out` itself except that a
`type` entry whose cleaned value is null is dropped from the result
(`dropNoneType`); whenever the cleaned `type` value is not null — in particular
whenever the key is absent — the result is exactly `out`, so validation is
idempotent on such outputs. -/
theorem validate_part_data_idem (data out : PyDict)
    (h : validate_part_data data = Except.ok out) :
    validate_part_data out = Except.ok (dropNoneType out) ∧
    (lookup out "type" = some PyVal.none ∨ dropNoneType out = out) := by
  refine ⟨revalidate_of_cleanShape out (cleanShape_of_ok data out h), ?_⟩
  unfold dropNoneType
  cases hlk : lookup out "type" with
  | none => exact Or.inr rfl
  | some v =>
    cases v with
    | none => exact Or.inl rfl
    | bool b => exact Or.inr rfl
    | int n => exact Or.inr rfl
    | float q => exact Or.inr rfl
    | str s => exact Or.inr rfl
    | list xs => exact Or.inr rfl
    | dict d => exact Or.inr rfl

/-- C5 witness: a concrete instantiation of `validate_part_data_idem` where the
cleaned output `{name: "x", amount: 5}` re-validates to itself. -/
theorem validate_part_data_idem_witness :
    validate_part_data [("name", PyVal.str " x "), ("amount", PyVal.str "5")] =
      Except.ok [("name", PyVal.str "x"), ("amount", PyVal.int 5)] ∧
    validate_part_data [("name", PyVal.str "x"), ("amount", PyVal.int 5)] =
      Except.ok [("name", PyVal.str "x"), ("amount", PyVal.int 5)] :=
  ⟨rfl, (validate_part_data_idem [("name", PyVal.str " x "), ("amount", PyVal.str "5")]
    [("name", PyVal.str "x"), ("amount", PyVal.int 5)] rfl).1⟩
